import Mathlib

/-!
# FlexOS-RTOS: queue, heap allocator, semaphore, mutex and scheduler

A shallow embedding of `FlexOS/ipc/queue.c`, `FlexOS/memory/memory.c`,
`FlexOS/sync/semaphore.c`, `FlexOS/kernel/sched.c` and of `task_stack_init` of
`FlexOS/kernel/context.c`, followed by theorems about the embedded functions.

Conventions of the embedding

* The target is a 32-bit ARM Cortex-M part (see `FlexOS/kernel/context.c`):
  `uint32_t` and `size_t` are 32 bits wide.  Machine integers are natural numbers
  and every arithmetic result that is stored is reduced with `u32`.
* A pointer is a natural number (an offset or an index) wrapped in `Option`;
  `none` is `NULL`.  A `TCB*` is the index of the TCB in `scheduler.tasks`.
* `disable_interrupts` / `enable_interrupts` have no effect on the data and are
  left out: each function body runs as one sequential step.
* A function that suspends its caller in `block_task` takes a parameter `others`
  that stands for everything the rest of the system does to the shared state
  before the caller runs again.
-/

namespace FlexOS

/-! ## Machine integers -/

/-- Reduction of a natural number to the range of `uint32_t` / `size_t`. -/
def u32 (n : Nat) : Nat := n % 2 ^ 32

/-! ## Scheduler (`FlexOS/kernel/sched.c`, `FlexOS/include/rtos_types.h`) -/

def MAX_TASKS : Nat := 32
def LOWEST_PRIORITY : Nat := 0
def HIGHEST_PRIORITY : Nat := 7

inductive TaskState where
  | TASK_READY
  | TASK_RUNNING
  | TASK_BLOCKED
  | TASK_SUSPENDED
deriving DecidableEq, Repr

def STACK_SIZE : Nat := 1024

/-- Task control block, the structure `TCB` of `rtos_types.h`. `stack i` is the word
`stack[i]` and `stack_ptr` the index of the word that the saved stack pointer points to
(`none` for a null pointer); `task_function`, `arg` and `name` are the pointers as 32-bit
values; `waiting_on` is the address of the primitive the task waits on and `next` the index
of the next TCB of a wait list. The default values are those of zeroed memory. -/
structure TCB where
  stack_ptr : Option Nat := none
  stack : Nat → Nat := fun _ => 0
  state : TaskState := TaskState.TASK_READY
  priority : Nat := 0
  time_slice : Nat := 0
  blocked_timeout : Nat := 0
  task_function : Nat := 0
  arg : Nat := 0
  name : Nat := 0
  waiting_on : Option Nat := none
  next : Option Nat := none

/-- The global `scheduler` instance. `tasks i` is `scheduler.tasks[i]`. -/
structure Scheduler where
  tasks : Nat → TCB
  current_task : Nat
  next_task : Nat
  task_count : Nat
  scheduler_started : Bool
  system_ticks : Nat

def scheduler_init (s : Scheduler) : Scheduler :=
  { s with current_task := 0, next_task := 0, task_count := 0,
           scheduler_started := false, system_ticks := 0 }

/-- The assignment of the fields of `scheduler.tasks[i]`. -/
def Scheduler.set_task (s : Scheduler) (i : Nat) (t : TCB) : Scheduler :=
  { s with tasks := Function.update s.tasks i t }

/-- The function `create_task`; the function pointer, the argument and the name are given
as 32-bit values, `priority` is a `uint8_t`. The result is the value returned (an
`int32_t`) and the scheduler. -/
def create_task (task_func arg priority name : Nat) (s : Scheduler) : Int × Scheduler :=
  if s.task_count ≥ MAX_TASKS then (-1, s)
  else
    let task_id := s.task_count
    let s1 := s.set_task task_id { s.tasks task_id with stack_ptr := some (STACK_SIZE - 16) }
    let s2 := s1.set_task task_id
      { s1.tasks task_id with
        state := TaskState.TASK_READY, priority := priority, time_slice := 0,
        blocked_timeout := 0, task_function := task_func, arg := arg, name := name }
    let s3 := s2.set_task task_id
      { s2.tasks task_id with
        stack := Function.update (s2.tasks task_id).stack (STACK_SIZE - 1) 0x01000000 }
    let s4 := s3.set_task task_id
      { s3.tasks task_id with
        stack := Function.update (s3.tasks task_id).stack (STACK_SIZE - 2) task_func }
    let s5 := s4.set_task task_id
      { s4.tasks task_id with
        stack := Function.update (s4.tasks task_id).stack (STACK_SIZE - 3) 0xFFFFFFFD }
    let s6 := s5.set_task task_id
      { s5.tasks task_id with
        stack := Function.update (s5.tasks task_id).stack (STACK_SIZE - 8) arg }
    (Int.ofNat task_id, { s6 with task_count := u32 (s6.task_count + 1) })

/-- Body of the loop of `find_next_task`: the pair is
`(highest_priority, next_task)`. -/
def find_next_task_step (s : Scheduler) (acc : Nat × Nat) (i : Nat) : Nat × Nat :=
  if (s.tasks i).state = TaskState.TASK_READY ∧ (s.tasks i).priority > acc.1 then
    ((s.tasks i).priority, i)
  else acc

def find_next_task (s : Scheduler) : Nat :=
  ((List.range s.task_count).foldl (find_next_task_step s)
    (LOWEST_PRIORITY, s.current_task)).2

/-- Body of the timeout loop of `schedule` for task `i`. -/
def schedule_timeout_step (s : Scheduler) (i : Nat) : Scheduler :=
  if (s.tasks i).state = TaskState.TASK_BLOCKED ∧ (s.tasks i).blocked_timeout > 0 then
    let t := (s.tasks i).blocked_timeout - 1
    let s1 := s.set_task i { s.tasks i with blocked_timeout := t }
    if t = 0 then s1.set_task i { s1.tasks i with state := TaskState.TASK_READY }
    else s1
  else s

def schedule (s : Scheduler) : Scheduler :=
  if !s.scheduler_started || s.task_count == 0 then s
  else
    let s1 := { s with system_ticks := u32 (s.system_ticks + 1) }
    let s2 := (List.range s1.task_count).foldl schedule_timeout_step s1
    let s3 := { s2 with next_task := find_next_task s2 }
    if s3.current_task ≠ s3.next_task then
      let s4 := s3.set_task s3.current_task
        { s3.tasks s3.current_task with state := TaskState.TASK_READY }
      let s5 := s4.set_task s4.next_task
        { s4.tasks s4.next_task with state := TaskState.TASK_RUNNING }
      { s5 with current_task := s5.next_task }
    else s3

/-- The function `start_scheduler`, up to the start of the timer and of the first task,
which are left to the platform. -/
def start_scheduler (s : Scheduler) : Scheduler :=
  if s.task_count == 0 then s
  else
    let s1 := { s with scheduler_started := true }
    let s2 := { s1 with current_task := find_next_task s1 }
    s2.set_task s2.current_task { s2.tasks s2.current_task with state := TaskState.TASK_RUNNING }

def block_task (timeout : Nat) (s : Scheduler) : Scheduler :=
  if !s.scheduler_started then s
  else
    let s1 := s.set_task s.current_task
      { s.tasks s.current_task with state := TaskState.TASK_BLOCKED }
    let s2 := s1.set_task s1.current_task
      { s1.tasks s1.current_task with blocked_timeout := timeout }
    schedule s2

def resume_task (task_id : Nat) (s : Scheduler) : Scheduler :=
  if task_id ≥ s.task_count then s
  else if (s.tasks task_id).state = TaskState.TASK_BLOCKED then
    let s1 := s.set_task task_id { s.tasks task_id with state := TaskState.TASK_READY }
    s1.set_task task_id { s1.tasks task_id with blocked_timeout := 0 }
  else s

/-- Modelled from the spec: `get_current_task_id` is declared in `scheduler.h`, which is
not among the sources; the spec lists `current_task_id()` as the scheduler's accessor
for the index of the running task. -/
def get_current_task_id (s : Scheduler) : Nat := s.current_task

/-- Modelled from the spec: `get_current_task` is declared in `scheduler.h`, which is
not among the sources; it yields the TCB of the running task, here its index in
`scheduler.tasks`. -/
def get_current_task (s : Scheduler) : Nat := s.current_task

/-! ## Semaphore (`FlexOS/sync/semaphore.c`) -/

/-- The `Semaphore` structure; `waiting_list` is the index of the first waiting TCB. -/
structure Semaphore where
  count : Nat
  waiting_list : Option Nat
deriving DecidableEq, Repr

def sem_init (sem : Semaphore) (initial_count : Nat) : Semaphore :=
  { sem with count := initial_count, waiting_list := none }

/-- The state shared between a blocked semaphore operation and the rest of the system. -/
abbrev SemWorld := Semaphore × Scheduler

/-- The function `sem_wait`. `sem_ptr` is the address of the semaphore (the value stored
in `waiting_on`) and `sem` the structure at that address. The result is the value
returned, the semaphore and the scheduler. -/
def sem_wait (sem_ptr : Nat) (sem : Semaphore) (timeout : Nat) (s : Scheduler)
    (others : SemWorld → SemWorld) : Bool × Semaphore × Scheduler :=
  if sem.count > 0 then
    (true, { sem with count := sem.count - 1 }, s)
  else
    let current_task := get_current_task s
    let s1 := s.set_task current_task { s.tasks current_task with waiting_on := some sem_ptr }
    let s2 := s1.set_task current_task { s1.tasks current_task with blocked_timeout := timeout }
    let s3 := s2.set_task current_task { s2.tasks current_task with next := sem.waiting_list }
    let sem1 := { sem with waiting_list := some current_task }
    let (sem2, s5) := others (sem1, block_task timeout s3)
    (decide ((s5.tasks current_task).waiting_on = none), sem2, s5)

def sem_signal (sem : Semaphore) (s : Scheduler) : Semaphore × Scheduler :=
  let sem1 := { sem with count := u32 (sem.count + 1) }
  match sem1.waiting_list with
  | some task =>
    let sem2 := { sem1 with waiting_list := (s.tasks task).next }
    let s1 := s.set_task task { s.tasks task with next := none }
    let s2 := s1.set_task task { s1.tasks task with waiting_on := none }
    let s3 := s2.set_task task { s2.tasks task with state := TaskState.TASK_READY }
    ({ sem2 with count := u32 (sem2.count + 2 ^ 32 - 1) }, s3)
  | none => (sem1, s)

/-- The `Mutex` structure; `owner` and `waiting_list` are indices of TCBs. -/
structure Mutex where
  owner : Option Nat
  count : Nat
  waiting_list : Option Nat
deriving DecidableEq, Repr

def mutex_init (mutex : Mutex) : Mutex :=
  { mutex with owner := none, count := 0, waiting_list := none }

/-- The state shared between a blocked `mutex_lock` and the rest of the system. -/
abbrev MutexWorld := Mutex × Scheduler

/-- The function `mutex_lock`. `mutex_ptr` is the address of the mutex (the value stored
in `waiting_on`) and `mutex` the structure at that address. The result is the value
returned, the mutex and the scheduler. -/
def mutex_lock (mutex_ptr : Nat) (mutex : Mutex) (timeout : Nat) (s : Scheduler)
    (others : MutexWorld → MutexWorld) : Bool × Mutex × Scheduler :=
  let current_task := get_current_task s
  if mutex.owner = some current_task then
    (true, { mutex with count := u32 (mutex.count + 1) }, s)
  else if mutex.owner = none then
    let m1 := { mutex with owner := some current_task }
    (true, { m1 with count := 1 }, s)
  else
    let s1 := s.set_task current_task { s.tasks current_task with waiting_on := some mutex_ptr }
    let s2 := s1.set_task current_task { s1.tasks current_task with blocked_timeout := timeout }
    let s3 := s2.set_task current_task { s2.tasks current_task with next := mutex.waiting_list }
    let m1 := { mutex with waiting_list := some current_task }
    let (m2, s5) := others (m1, block_task timeout s3)
    (decide ((s5.tasks current_task).waiting_on = none), m2, s5)

def mutex_unlock (mutex : Mutex) (s : Scheduler) : Mutex × Scheduler :=
  let current_task := get_current_task s
  if mutex.owner ≠ some current_task then (mutex, s)
  else
    let m1 := { mutex with count := u32 (mutex.count + 2 ^ 32 - 1) }
    if m1.count = 0 then
      match m1.waiting_list with
      | some task =>
        let m2 := { m1 with waiting_list := (s.tasks task).next }
        let s1 := s.set_task task { s.tasks task with next := none }
        let s2 := s1.set_task task { s1.tasks task with waiting_on := none }
        let s3 := s2.set_task task { s2.tasks task with state := TaskState.TASK_READY }
        let m3 := { m2 with owner := some task }
        ({ m3 with count := 1 }, s3)
      | none => ({ m1 with owner := none }, s)
    else (m1, s)

/-! ### Observations on a semaphore, used to state its properties -/

/-- The wait list that starts with the pointer `p` is the list `l` of TCB indices: each
TCB is linked to the next by its `next` field and the last link is null. -/
def WaitList (tasks : Nat → TCB) : Option Nat → List Nat → Prop
  | p, [] => p = none
  | p, t :: l => p = some t ∧ WaitList tasks (tasks t).next l

/-- The values returned by `n` successive calls `sem_wait(sem, timeout)` during which
no other task runs, with the final semaphore and scheduler. -/
def sem_wait_n (sem_ptr : Nat) (timeout : Nat) :
    Nat → Semaphore → Scheduler → List Bool × Semaphore × Scheduler
  | 0, sem, s => ([], sem, s)
  | n + 1, sem, s =>
    let r := sem_wait sem_ptr sem timeout s id
    let rest := sem_wait_n sem_ptr timeout n r.2.1 r.2.2
    (r.1 :: rest.1, rest.2)

/-- The test of the spec for a counting semaphore at address `sem_ptr`:
`sem_init(s, k)`, then `k + 1` calls `sem_wait(s, 0)`, then `sem_signal(s)`, then two
more calls `sem_wait(s, 0)`. The values returned by the first `k + 1` calls and by the
last two calls. -/
def counting_test (sem_ptr k : Nat) (s : Scheduler) : List Bool × List Bool :=
  let sem0 := sem_init { count := 0, waiting_list := none } k
  let r1 := sem_wait_n sem_ptr 0 (k + 1) sem0 s
  let r2 := sem_signal r1.2.1 r1.2.2
  let r3 := sem_wait_n sem_ptr 0 2 r2.1 r2.2
  (r1.1, r3.1)

/-- A scheduler in which tasks 3 and 5 wait in this order: task 3 is linked to task 5. -/
def two_waiters_scheduler : Scheduler :=
  { tasks := fun i =>
      if i = 3 then
        { state := TaskState.TASK_BLOCKED, priority := 2, waiting_on := some 1000,
          next := some 5 }
      else if i = 5 then
        { state := TaskState.TASK_BLOCKED, priority := 4, waiting_on := some 1000 }
      else {},
    current_task := 0, next_task := 0, task_count := 6,
    scheduler_started := true, system_ticks := 0 }

/-! ## Heap allocator (`FlexOS/memory/memory.c`) -/

def HEAP_SIZE : Nat := 32 * 1024

/-- The value of `sizeof(MemoryBlock)` on the 32-bit target: `size_t size` (4 bytes),
`bool is_free` (1 byte and 3 bytes of padding), `struct MemoryBlock* next` (4 bytes). -/
def sizeof_MemoryBlock : Nat := 12

/-- A block header. `next` is the heap offset of the next header. -/
structure MemoryBlock where
  size : Nat
  is_free : Bool
  next : Option Nat
deriving DecidableEq, Repr

/-- The static data of `memory.c`. A `MemoryBlock*` is the offset of the header in
`heap`, and `blocks a` is the header read at `heap + a`. -/
structure Heap where
  blocks : Nat → MemoryBlock
  first_block : Option Nat
  peak_usage : Nat
  current_usage : Nat

/-- The statics of `memory.c` at program start: zeroed memory. -/
def Heap.boot : Heap :=
  { blocks := fun _ => { size := 0, is_free := false, next := none },
    first_block := none, peak_usage := 0, current_usage := 0 }

/-- The assignment of the header at heap offset `a`. -/
def Heap.set_block (h : Heap) (a : Nat) (b : MemoryBlock) : Heap :=
  { h with blocks := Function.update h.blocks a b }

def memory_init (h : Heap) : Heap :=
  let h1 := { h with first_block := some 0 }
  h1.set_block 0 { size := HEAP_SIZE - sizeof_MemoryBlock, is_free := true, next := none }

/-- The statement `size = (size + 3) & ~3;` on a 32-bit `size_t`. -/
def align4 (size : Nat) : Nat := u32 (size + 3) &&& 0xFFFFFFFC

/-- The loop `while (current != NULL)` of `memory_alloc`, with the values of `current`,
`best_fit` and `smallest_suitable_size` at its head. The result is the final `best_fit`;
`none` means that the loop has not ended after `fuel` iterations. -/
def best_fit_loop (h : Heap) (size : Nat) :
    Nat → Option Nat → Option Nat → Nat → Option (Option Nat)
  | _, none, best_fit, _ => some best_fit
  | 0, some _, _, _ => none
  | fuel + 1, some current, best_fit, smallest_suitable_size =>
    if (h.blocks current).is_free = true ∧ (h.blocks current).size ≥ size then
      if (h.blocks current).size < smallest_suitable_size then
        best_fit_loop h size fuel (h.blocks current).next (some current)
          (h.blocks current).size
      else
        best_fit_loop h size fuel (h.blocks current).next best_fit smallest_suitable_size
    else
      best_fit_loop h size fuel (h.blocks current).next best_fit smallest_suitable_size

/-- The part of `memory_alloc` after the search, for a non-null `best_fit`. -/
def memory_alloc_take (size : Nat) (best_fit : Nat) (h : Heap) : Option Nat × Heap :=
  let h2 :=
    if (h.blocks best_fit).size ≥ u32 (u32 (size + sizeof_MemoryBlock) + 8) then
      let new_block := best_fit + sizeof_MemoryBlock + size
      let h1 := h.set_block new_block
        { size := u32 (u32 ((h.blocks best_fit).size + 2 ^ 32 - size)
                    + 2 ^ 32 - sizeof_MemoryBlock),
          is_free := true,
          next := (h.blocks best_fit).next }
      h1.set_block best_fit { h1.blocks best_fit with size := size, next := some new_block }
    else h
  let h3 := h2.set_block best_fit { h2.blocks best_fit with is_free := false }
  let h4 := { h3 with current_usage := u32 (h3.current_usage + (h3.blocks best_fit).size) }
  let h5 := if h4.current_usage > h4.peak_usage then
      { h4 with peak_usage := h4.current_usage } else h4
  (some (best_fit + sizeof_MemoryBlock), h5)

/-- The function `memory_alloc`: the returned pointer (an offset into `heap`, `none` for
`NULL`) and the heap after the call. The outer `none` means that the search loop is still
running after `HEAP_SIZE` iterations, which can only happen when the block list is cyclic
or leaves the heap. -/
def memory_alloc (size : Nat) (h : Heap) : Option (Option Nat × Heap) :=
  let size := align4 size
  match best_fit_loop h size HEAP_SIZE h.first_block none HEAP_SIZE with
  | none => none
  | some none => some (none, h)
  | some (some best_fit) => some (memory_alloc_take size best_fit h)

/-- The loop `while (prev != NULL && prev->next != block)` of `memory_free`: the final
`prev`, or `none` when the loop has not ended after `fuel` iterations. -/
def find_prev_loop (h : Heap) (block : Nat) : Nat → Option Nat → Option (Option Nat)
  | _, none => some none
  | 0, some _ => none
  | fuel + 1, some prev =>
    if (h.blocks prev).next ≠ some block then find_prev_loop h block fuel (h.blocks prev).next
    else some (some prev)

/-- The first part of `memory_free`, for the header at offset `block`: mark the block
free, take its size off `current_usage` and coalesce it with the next block if that one is
free. -/
def memory_free_forward (block : Nat) (h : Heap) : Heap :=
  let h1 := h.set_block block { h.blocks block with is_free := true }
  let h2 := { h1 with
    current_usage := u32 (h1.current_usage + 2 ^ 32 - (h1.blocks block).size) }
  match (h2.blocks block).next with
  | some next =>
    if (h2.blocks next).is_free then
      let h2a := h2.set_block block { h2.blocks block with
        size := u32 ((h2.blocks block).size
                  + u32 ((h2.blocks next).size + sizeof_MemoryBlock)) }
      h2a.set_block block { h2a.blocks block with next := (h2a.blocks next).next }
    else h2
  | none => h2

/-- The second part of `memory_free`, for a non-null `prev` found by the search: coalesce
`block` into `prev` if `prev` is free. -/
def memory_free_backward (block prev : Nat) (h : Heap) : Heap :=
  if (h.blocks prev).is_free then
    let h4 := h.set_block prev { h.blocks prev with
      size := u32 ((h.blocks prev).size
                + u32 ((h.blocks block).size + sizeof_MemoryBlock)) }
    h4.set_block prev { h4.blocks prev with next := (h4.blocks block).next }
  else h

/-- The function `memory_free`. `none` means that the search for the previous block is
still running after `HEAP_SIZE` iterations. -/
def memory_free (ptr : Option Nat) (h : Heap) : Option Heap :=
  match ptr with
  | none => some h
  | some ptr =>
    let block := ptr - sizeof_MemoryBlock
    let h3 := memory_free_forward block h
    match find_prev_loop h3 block HEAP_SIZE h3.first_block with
    | none => none
    | some none => some h3
    | some (some prev) => some (memory_free_backward block prev h3)

/-- The loop of `memory_get_free_size`, with the values of `current` and `free_size` at
its head; `none` when it has not ended after `fuel` iterations. -/
def free_size_loop (h : Heap) : Nat → Option Nat → Nat → Option Nat
  | _, none, free_size => some free_size
  | 0, some _, _ => none
  | fuel + 1, some current, free_size =>
    if (h.blocks current).is_free then
      free_size_loop h fuel (h.blocks current).next (u32 (free_size + (h.blocks current).size))
    else free_size_loop h fuel (h.blocks current).next free_size

def memory_get_free_size (h : Heap) : Option Nat :=
  free_size_loop h HEAP_SIZE h.first_block 0

/-- The function `memory_get_stats` with all three out-pointers non-null:
`(total, used, peak)`. -/
def memory_get_stats (h : Heap) : Nat × Nat × Nat :=
  (HEAP_SIZE, h.current_usage, h.peak_usage)

/-! ### Observations on the heap, used to state its properties -/

/-- The offsets of the headers met by following `next` from the pointer `p`, for at
most `fuel` steps. -/
def Heap.walk (h : Heap) : Nat → Option Nat → List Nat
  | _, none => []
  | 0, some _ => []
  | fuel + 1, some a => a :: Heap.walk h fuel (h.blocks a).next

/-- The block list: the offsets of the headers reached from `first_block`. -/
def Heap.block_list (h : Heap) : List Nat := h.walk HEAP_SIZE h.first_block

/-- A block as the block list shows it: the offset of its header, its payload size and
its free flag. -/
structure Blk where
  off : Nat
  size : Nat
  free : Bool
deriving DecidableEq, Repr

/-- The relation `Seg b p a l q e`: starting with the pointer `p`, which points to offset
`a`, the headers in `b` form the blocks `l`, each linked to the next and each beginning
where the one before it ends; the link of the last block is `q` and the last block ends at
offset `e`. -/
def Seg (b : Nat → MemoryBlock) : Option Nat → Nat → List Blk → Option Nat → Nat → Prop
  | p, a, [], q, e => p = q ∧ a = e
  | p, a, k :: l, q, e =>
    p = some a ∧ k.off = a ∧ (b a).size = k.size ∧ (b a).is_free = k.free ∧
      Seg b (b a).next (a + sizeof_MemoryBlock + k.size) l q e

/-- The list of blocks `l` describes the whole heap: the block list starts at offset 0,
ends with a null link and tiles the `HEAP_SIZE` bytes. -/
def Heap.Tiled (h : Heap) (l : List Blk) : Prop :=
  Seg h.blocks h.first_block 0 l none HEAP_SIZE

/-- The search of `memory_alloc` read off a list of blocks: the final `best_fit` for the
given values of `best_fit` and `smallest_suitable_size` at the head of the loop. -/
def best_fit_list (size : Nat) : List Blk → Option Nat → Nat → Option Nat
  | [], best_fit, _ => best_fit
  | k :: l, best_fit, smallest_suitable_size =>
    if k.free = true ∧ k.size ≥ size then
      if k.size < smallest_suitable_size then best_fit_list size l (some k.off) k.size
      else best_fit_list size l best_fit smallest_suitable_size
    else best_fit_list size l best_fit smallest_suitable_size

/-- No two neighbours in the list are both free. -/
def NoAdjFree (l : List Blk) : Prop :=
  List.Chain' (fun x y : Bool => ¬ (x = true ∧ y = true)) (l.map (fun k => k.free))

/-- The pointers handed out for the blocks of a list that are in use. -/
def used_ptrs (l : List Blk) : List Nat :=
  (l.filter (fun k => !k.free)).map (fun k => k.off + sizeof_MemoryBlock)

/-- The invariant of the allocator: the list `l` describes the whole heap, every payload
size is a multiple of 4, no two neighbouring blocks are both free, and the blocks in use
are exactly those whose pointers `L` are currently allocated. -/
def HeapInv (h : Heap) (L : List Nat) (l : List Blk) : Prop :=
  h.Tiled l ∧ (∀ k ∈ l, 4 ∣ k.size) ∧ NoAdjFree l ∧ (∀ p, p ∈ L ↔ p ∈ used_ptrs l) ∧ L.Nodup

/-- The heap states reachable from a fresh heap (`memory_init` at program start) by calls
of `memory_alloc`, of `memory_free(NULL)` and of `memory_free` on a pointer that is
currently allocated. The list holds the pointers that are currently allocated: those
returned by `memory_alloc` and not yet freed. -/
inductive Reach : Heap → List Nat → Prop
  | init : Reach (memory_init Heap.boot) []
  | alloc_ok {h : Heap} {L : List Nat} (n p : Nat) (h2 : Heap) :
      Reach h L → memory_alloc n h = some (some p, h2) → Reach h2 (p :: L)
  | alloc_null {h : Heap} {L : List Nat} (n : Nat) (h2 : Heap) :
      Reach h L → memory_alloc n h = some (none, h2) → Reach h2 L
  | free_null {h : Heap} {L : List Nat} (h2 : Heap) :
      Reach h L → memory_free none h = some h2 → Reach h2 L
  | free_live {h : Heap} {L : List Nat} (p : Nat) (h2 : Heap) :
      Reach h L → p ∈ L → memory_free (some p) h = some h2 → Reach h2 (L.erase p)

/-- The heap after the call `memory_alloc(n)`. -/
def Heap.after_alloc (n : Nat) (h : Heap) : Heap :=
  match memory_alloc n h with
  | some r => r.2
  | none => h

/-- The heap after the call `memory_free(p)`. -/
def Heap.after_free (p : Option Nat) (h : Heap) : Heap :=
  match memory_free p h with
  | some r => r
  | none => h

/-- The heap of scenario 5 of the spec, from a fresh heap:
`p1 = alloc(64); p2 = alloc(64); free(p1); free(p2);` with `p1 = heap + 12` and
`p2 = heap + 88`. -/
def heap_split_coalesce : Heap :=
  Heap.after_free (some 88) (Heap.after_free (some 12)
    (Heap.after_alloc 64 (Heap.after_alloc 64 (memory_init Heap.boot))))

/-! ## Queue (`FlexOS/ipc/queue.c`) -/

inductive QueueStatus where
  | QUEUE_OK
  | QUEUE_FULL
  | QUEUE_EMPTY
  | QUEUE_ERROR
  | QUEUE_TIMEOUT
deriving DecidableEq, Repr

inductive QueueNotifyType where
  | QUEUE_NOTIFY_ON_SEND
  | QUEUE_NOTIFY_ON_RECEIVE
  | QUEUE_NOTIFY_ON_FULL
  | QUEUE_NOTIFY_ON_EMPTY
deriving DecidableEq, Repr

/-- The `Queue` structure.  `buffer_ptr` is the pointer `queue->buffer` (an offset into
the heap) and `buffer a` is the byte at `(uint8_t*)queue->buffer + a`;
`waiting_tasks_send i` is `waiting_tasks_send[i]`.  `notify_callback` is the function
pointer; the callback is code outside the kernel and is taken not to touch the queue,
so a call of it is only recorded, in `notified` (which is not a field of the C
structure).

`buffer` and the two wait arrays are maps of the queue's own, defined at every offset and
index: `buffer a` for an offset `a` beyond the allocated payload, and
`waiting_tasks_send i`, `waiting_tasks_recv i` for `i ≥ 32`, stand for the memory that
follows the payload or the array, which in C belongs to other objects (the next heap
block, the next field of the structure).  The structure is exact as long as every offset
accessed lies inside the allocated payload and every index is below 32; what an access
beyond them does to those other objects is not part of it, and is traced by address where
it matters. -/
structure Queue where
  buffer_ptr : Option Nat
  buffer : Nat → Nat
  item_size : Nat
  queue_length : Nat
  items_count : Nat
  head : Nat
  tail : Nat
  waiting_tasks_send : Nat → Nat
  waiting_tasks_recv : Nat → Nat
  waiting_count_send : Nat
  waiting_count_recv : Nat
  is_isr_enabled : Bool
  notify_callback : Option Nat
  notify_context : Option Nat
  notify_type : QueueNotifyType
  overflow_count : Nat
  underflow_count : Nat
  notified : List QueueNotifyType := []

/-- Modelled from the spec: `queue_is_full` is declared in `queue.h` but defined
nowhere in the sources; by the ring invariant of the spec the queue is full when the
count equals the capacity. -/
def queue_is_full (queue : Queue) : Bool := queue.items_count == queue.queue_length

/-- Modelled from the spec: `queue_is_empty` is declared in `queue.h` but defined
nowhere in the sources; the queue is empty when it holds no item. -/
def queue_is_empty (queue : Queue) : Bool := queue.items_count == 0

/-- The item behind a `const void*`: `item j` is its `j`-th byte. -/
abbrev Item := Nat → Nat

/-- The function `copy_to_queue`: the `memcpy` of `item_size` bytes of `item` to
`(uint8_t*)queue->buffer + position * item_size`, the offset computed in `uint32_t`. The
bytes are written into the map `buffer` of the queue at that offset; when the offset lies
beyond the allocated payload, the write lands, in C, at the same address in the memory
that follows the payload. -/
def copy_to_queue (queue : Queue) (item : Item) (position : Nat) : Queue :=
  let write_ptr := u32 (position * queue.item_size)
  { queue with buffer := fun a =>
      if write_ptr ≤ a ∧ a < write_ptr + queue.item_size then item (a - write_ptr)
      else queue.buffer a }

/-- The bytes of the caller's `buffer` after `copy_from_queue`. -/
def copy_from_queue (queue : Queue) (buffer : Item) (position : Nat) : Item :=
  let read_ptr := u32 (position * queue.item_size)
  fun j => if j < queue.item_size then queue.buffer (read_ptr + j) else buffer j

def notify_queue_event (queue : Queue) (event_type : QueueNotifyType) : Queue :=
  if queue.notify_callback.isSome ∧ queue.notify_type = event_type then
    { queue with notified := queue.notified ++ [event_type] }
  else queue

/-- The loop `for (i = 0; i < count - 1; i++) a[i] = a[i + 1];` that removes the first
entry of a wait array. It is only run with `count > 0`. -/
def shift_waiting (a : Nat → Nat) (count : Nat) : Nat → Nat :=
  (List.range (count - 1)).foldl (fun b i => Function.update b i (b (i + 1))) a

/-- The state shared between a blocked queue operation and the rest of the system. -/
abbrev QueueWorld := Queue × Scheduler

/-- The function `queue_send` for a non-null `queue`; `item = none` is a null item. The
null-queue guard returns `QUEUE_ERROR` without touching any state. -/
def queue_send (queue : Queue) (item : Option Item) (timeout : Nat) (s : Scheduler)
    (others : QueueWorld → QueueWorld) : QueueStatus × Queue × Scheduler :=
  match item with
  | none => (QueueStatus.QUEUE_ERROR, queue, s)
  | some item =>
    if !queue_is_full queue then
      let q1 := copy_to_queue queue item queue.tail
      let q2 := { q1 with tail := u32 (q1.tail + 1) % q1.queue_length }
      let q3 := { q2 with items_count := u32 (q2.items_count + 1) }
      let (q4, s4) :=
        if q3.waiting_count_recv > 0 then
          let task_to_wake := q3.waiting_tasks_recv 0
          let q3a := { q3 with
            waiting_tasks_recv := shift_waiting q3.waiting_tasks_recv q3.waiting_count_recv }
          let q3b := { q3a with waiting_count_recv := q3a.waiting_count_recv - 1 }
          (q3b, resume_task task_to_wake s)
        else (q3, s)
      (QueueStatus.QUEUE_OK, notify_queue_event q4 QueueNotifyType.QUEUE_NOTIFY_ON_SEND, s4)
    else if timeout = 0 then
      (QueueStatus.QUEUE_FULL,
        { queue with overflow_count := u32 (queue.overflow_count + 1) }, s)
    else
      let current_task := get_current_task_id s
      let q1 := { queue with
        waiting_tasks_send :=
          Function.update queue.waiting_tasks_send queue.waiting_count_send current_task,
        waiting_count_send := u32 (queue.waiting_count_send + 1) }
      let (q2, s2) := others (q1, block_task timeout s)
      (if queue_is_full q2 then QueueStatus.QUEUE_TIMEOUT else QueueStatus.QUEUE_OK, q2, s2)

def queue_send_from_isr (queue : Queue) (item : Option Item) : QueueStatus × Queue :=
  match item with
  | none => (QueueStatus.QUEUE_ERROR, queue)
  | some item =>
    if !queue.is_isr_enabled then (QueueStatus.QUEUE_ERROR, queue)
    else if !queue_is_full queue then
      let q1 := copy_to_queue queue item queue.tail
      let q2 := { q1 with tail := u32 (q1.tail + 1) % q1.queue_length }
      let q3 := { q2 with items_count := u32 (q2.items_count + 1) }
      (QueueStatus.QUEUE_OK, notify_queue_event q3 QueueNotifyType.QUEUE_NOTIFY_ON_SEND)
    else
      (QueueStatus.QUEUE_FULL, { queue with overflow_count := u32 (queue.overflow_count + 1) })

/-- The function `queue_receive` for a non-null `queue`; `buffer = none` is a null
buffer. The third component is the caller's buffer after the call. -/
def queue_receive (queue : Queue) (buffer : Option Item) (timeout : Nat) (s : Scheduler)
    (others : QueueWorld → QueueWorld) : QueueStatus × Queue × Option Item × Scheduler :=
  match buffer with
  | none => (QueueStatus.QUEUE_ERROR, queue, none, s)
  | some buffer =>
    if !queue_is_empty queue then
      let out := copy_from_queue queue buffer queue.head
      let q2 := { queue with head := u32 (queue.head + 1) % queue.queue_length }
      let q3 := { q2 with items_count := q2.items_count - 1 }
      let (q4, s4) :=
        if q3.waiting_count_send > 0 then
          let task_to_wake := q3.waiting_tasks_send 0
          let q3a := { q3 with
            waiting_tasks_send := shift_waiting q3.waiting_tasks_send q3.waiting_count_send }
          let q3b := { q3a with waiting_count_send := q3a.waiting_count_send - 1 }
          (q3b, resume_task task_to_wake s)
        else (q3, s)
      (QueueStatus.QUEUE_OK, notify_queue_event q4 QueueNotifyType.QUEUE_NOTIFY_ON_RECEIVE,
        some out, s4)
    else if timeout = 0 then
      (QueueStatus.QUEUE_EMPTY,
        { queue with underflow_count := u32 (queue.underflow_count + 1) }, some buffer, s)
    else
      let current_task := get_current_task_id s
      let q1 := { queue with
        waiting_tasks_recv :=
          Function.update queue.waiting_tasks_recv queue.waiting_count_recv current_task,
        waiting_count_recv := u32 (queue.waiting_count_recv + 1) }
      let (q2, s2) := others (q1, block_task timeout s)
      (if queue_is_empty q2 then QueueStatus.QUEUE_TIMEOUT else QueueStatus.QUEUE_OK,
        q2, some buffer, s2)

def queue_receive_from_isr (queue : Queue) (buffer : Option Item) :
    QueueStatus × Queue × Option Item :=
  match buffer with
  | none => (QueueStatus.QUEUE_ERROR, queue, none)
  | some buffer =>
    if !queue.is_isr_enabled then (QueueStatus.QUEUE_ERROR, queue, some buffer)
    else if !queue_is_empty queue then
      let out := copy_from_queue queue buffer queue.head
      let q2 := { queue with head := u32 (queue.head + 1) % queue.queue_length }
      let q3 := { q2 with items_count := q2.items_count - 1 }
      (QueueStatus.QUEUE_OK, notify_queue_event q3 QueueNotifyType.QUEUE_NOTIFY_ON_RECEIVE,
        some out)
    else
      (QueueStatus.QUEUE_EMPTY,
        { queue with underflow_count := u32 (queue.underflow_count + 1) }, some buffer)

def queue_reset (queue : Queue) : Queue :=
  { queue with
    head := 0, tail := 0, items_count := 0, waiting_count_send := 0,
    waiting_count_recv := 0, overflow_count := 0, underflow_count := 0 }

def queue_send_to_front (queue : Queue) (item : Option Item) (timeout : Nat) (s : Scheduler)
    (others : QueueWorld → QueueWorld) : QueueStatus × Queue × Scheduler :=
  match item with
  | none => (QueueStatus.QUEUE_ERROR, queue, s)
  | some item =>
    if !queue_is_full queue then
      let q1 := { queue with
        head := u32 (u32 (queue.head + 2 ^ 32 - 1) + queue.queue_length) % queue.queue_length }
      let q2 := copy_to_queue q1 item q1.head
      let q3 := { q2 with items_count := u32 (q2.items_count + 1) }
      let (q4, s4) :=
        if q3.waiting_count_recv > 0 then
          let task_to_wake := q3.waiting_tasks_recv 0
          ({ q3 with waiting_count_recv := q3.waiting_count_recv - 1 }, resume_task task_to_wake s)
        else (q3, s)
      (QueueStatus.QUEUE_OK, notify_queue_event q4 QueueNotifyType.QUEUE_NOTIFY_ON_SEND, s4)
    else if timeout = 0 then
      (QueueStatus.QUEUE_FULL,
        { queue with overflow_count := u32 (queue.overflow_count + 1) }, s)
    else
      let current_task := get_current_task_id s
      let q1 := { queue with
        waiting_tasks_send :=
          Function.update queue.waiting_tasks_send queue.waiting_count_send current_task,
        waiting_count_send := u32 (queue.waiting_count_send + 1) }
      let (q2, s2) := others (q1, block_task timeout s)
      (if queue_is_full q2 then QueueStatus.QUEUE_TIMEOUT else QueueStatus.QUEUE_OK, q2, s2)

def queue_overwrite (queue : Queue) (item : Option Item) : QueueStatus × Queue :=
  match item with
  | none => (QueueStatus.QUEUE_ERROR, queue)
  | some item =>
    let q3 :=
      if queue_is_full queue then
        let q1 := copy_to_queue queue item queue.head
        let q2 := { q1 with head := u32 (q1.head + 1) % q1.queue_length }
        let q2a := { q2 with tail := u32 (q2.tail + 1) % q2.queue_length }
        { q2a with overflow_count := u32 (q2a.overflow_count + 1) }
      else
        let q1 := copy_to_queue queue item queue.tail
        let q2 := { q1 with tail := u32 (q1.tail + 1) % q1.queue_length }
        { q2 with items_count := u32 (q2.items_count + 1) }
    (QueueStatus.QUEUE_OK, notify_queue_event q3 QueueNotifyType.QUEUE_NOTIFY_ON_SEND)

def queue_set_notification (queue : Queue) (callback : Option Nat) (context : Option Nat)
    (type : QueueNotifyType) : Queue :=
  { queue with notify_callback := callback, notify_context := context, notify_type := type }

def queue_get_space_available (queue : Option Queue) : Nat :=
  match queue with
  | some q => u32 (q.queue_length + 2 ^ 32 - q.items_count)
  | none => 0

/-- The value of `sizeof(Queue)` on the 32-bit target: the pointer `buffer` (4 bytes),
five `uint32_t` (20), the two wait arrays (2 * 128), the two wait counts (8),
`is_isr_enabled` (1 byte and 3 bytes of padding), `notify_callback` (4), `notify_context`
(4), `notify_type` (4 with its padding) and the two counters (8). -/
def sizeof_Queue : Nat := 312

/-- The function `queue_create`. `queue` is the out-pointer (`none` for `NULL`, otherwise
the value the pointed-to variable holds before the call); `raw` is the content of the
memory that becomes the queue: the fields that `queue_create` does not assign keep their
`raw` values, and `raw.buffer` are the bytes found in the payload area. The result is the
status, the value `new_queue` stored through `queue` together with the structure it points
to (on success), and the heap; `none` means that a call of the allocator does not
return. -/
def queue_create (queue : Option (Option Nat)) (item_size queue_length : Nat) (raw : Queue)
    (h : Heap) : Option (QueueStatus × Option (Nat × Queue) × Heap) :=
  if queue.isNone ∨ item_size = 0 ∨ queue_length = 0 then
    some (QueueStatus.QUEUE_ERROR, none, h)
  else
    match memory_alloc sizeof_Queue h with
    | none => none
    | some (none, h1) => some (QueueStatus.QUEUE_ERROR, none, h1)
    | some (some new_queue, h1) =>
      match memory_alloc (u32 (item_size * queue_length)) h1 with
      | none => none
      | some (none, h2) =>
        (memory_free (some new_queue) h2).map (fun h3 => (QueueStatus.QUEUE_ERROR, none, h3))
      | some (some buffer, h2) =>
        some (QueueStatus.QUEUE_OK,
          some (new_queue,
            { raw with
              buffer_ptr := some buffer, item_size := item_size,
              queue_length := queue_length, items_count := 0, head := 0, tail := 0,
              waiting_count_send := 0, waiting_count_recv := 0, is_isr_enabled := false,
              notify_callback := none, notify_context := none,
              overflow_count := 0, underflow_count := 0 }),
          h2)

/-- The function `queue_delete` for a non-null `queue` stored at heap offset `queue_ptr`;
`none` means that `memory_free` does not return. -/
def queue_delete (queue_ptr : Nat) (queue : Queue) (h : Heap) : Option Heap :=
  match queue.buffer_ptr with
  | some buffer =>
    match memory_free (some buffer) h with
    | some h1 => memory_free (some queue_ptr) h1
    | none => none
  | none => memory_free (some queue_ptr) h

/-! ### Observations on a queue, used to state its properties -/

/-- The first `n` bytes of an item. -/
def Item.bytes (n : Nat) (item : Item) : List Nat := (List.range n).map item

/-- The `item_size` bytes stored in slot `p` of the ring. -/
def Queue.slot (q : Queue) (p : Nat) : List Nat :=
  (List.range q.item_size).map (fun j => q.buffer (u32 (p * q.item_size) + j))

/-- The logical contents of the ring, oldest item first: the `items_count` slots
from `head` on, modulo the capacity. -/
def Queue.contents (q : Queue) : List (List Nat) :=
  (List.range q.items_count).map (fun i => q.slot ((q.head + i) % q.queue_length))

/-- The ring invariant of the spec: `count = (tail - head) mod capacity` when
`count < capacity`, and `count = capacity` implies `head = tail`; the indices are
below the capacity. -/
def Queue.ring_inv (q : Queue) : Prop :=
  q.head < q.queue_length ∧ q.tail < q.queue_length ∧ q.items_count ≤ q.queue_length ∧
  (q.items_count < q.queue_length →
    q.items_count = (q.tail + q.queue_length - q.head) % q.queue_length) ∧
  (q.items_count = q.queue_length → q.head = q.tail)

/-- The payload area of the data model exists: the capacity is a `uint32_t` and the
`queue_length * item_size` bytes of the buffer lie in the 32-bit address space. -/
def Queue.buffer_valid (q : Queue) : Prop :=
  q.queue_length < 2 ^ 32 ∧ q.item_size * q.queue_length < 2 ^ 32

/-- The calls `queue_send(q, x, t)` for the items `x` of a list, one after the other:
the statuses returned, and the final queue and scheduler. -/
def send_all (t : Nat) (others : QueueWorld → QueueWorld) :
    List Item → Queue → Scheduler → List QueueStatus × Queue × Scheduler
  | [], q, s => ([], q, s)
  | x :: xs, q, s =>
    let r := queue_send q (some x) t s others
    let rest := send_all t others xs r.2.1 r.2.2
    (r.1 :: rest.1, rest.2)

/-- The result of `n` successive calls `queue_receive(q, &y, t)`, each into a buffer
that holds `buf` before the call: the status and the received buffer of every call,
and the final queue and scheduler. -/
def receive_n (t : Nat) (others : QueueWorld → QueueWorld) (buf : Item) :
    Nat → Queue → Scheduler → List (QueueStatus × Option Item) × Queue × Scheduler
  | 0, q, s => ([], q, s)
  | n + 1, q, s =>
    let r := queue_receive q (some buf) t s others
    let rest := receive_n t others buf n r.2.1 r.2.2.2
    ((r.1, r.2.2.1) :: rest.1, rest.2)

/-- A scheduler in which nothing has been created or started (the state left by
`scheduler_init` on zeroed memory). -/
def Scheduler.zero : Scheduler :=
  { tasks := fun _ => {}, current_task := 0, next_task := 0, task_count := 0,
    scheduler_started := false, system_ticks := 0 }

/-- An empty queue of `queue_length` items of `item_size` bytes over a zeroed buffer,
with no waiter and no callback. -/
def Queue.zero (item_size queue_length : Nat) : Queue :=
  { buffer_ptr := some 0, buffer := fun _ => 0, item_size := item_size,
    queue_length := queue_length,
    items_count := 0, head := 0, tail := 0,
    waiting_tasks_send := fun _ => 0, waiting_tasks_recv := fun _ => 0,
    waiting_count_send := 0, waiting_count_recv := 0, is_isr_enabled := false,
    notify_callback := none, notify_context := none,
    notify_type := QueueNotifyType.QUEUE_NOTIFY_ON_SEND,
    overflow_count := 0, underflow_count := 0 }

/-- The item of four bytes that is the little-endian 32-bit integer `v`. -/
def Item.word (v : Nat) : Item := fun j => (v / 256 ^ j) % 256

/-- The scheduler of the queue hand-off scenario of the spec, started: task 0 is the
producer P (priority 4, running) and task 1 the consumer C (priority 2, ready). -/
def handoff_scheduler : Scheduler :=
  { tasks := fun i =>
      if i = 0 then { state := TaskState.TASK_RUNNING, priority := 4 }
      else if i = 1 then { state := TaskState.TASK_READY, priority := 2 }
      else {},
    current_task := 0, next_task := 0, task_count := 2,
    scheduler_started := true, system_ticks := 0 }

/-- What the consumer does while the producer is suspended: one
`queue_receive(q, &y, 100)`. -/
def consumer_receives (w : QueueWorld) : QueueWorld :=
  let r := queue_receive w.1 (some (Item.word 0)) 100 w.2 id
  (r.2.1, r.2.2.2)

/-- The queue of the hand-off scenario (4-byte items, capacity 2) after the producer has
sent 1 and 2: it is full. -/
def handoff_full_queue : Queue :=
  (send_all 100 id [Item.word 1, Item.word 2] (Queue.zero 4 2) handoff_scheduler).2.1

/-- The full queue of the hand-off scenario with its overflow counter at the largest
`uint32_t` value. -/
def saturated_full_queue : Queue :=
  { handoff_full_queue with overflow_count := 4294967295 }

/-- A queue of 2^31 + 1 one-byte items that holds the single item 7 in its last slot:
`head = 2^31`, `tail = 0`, `items_count = 1`. -/
def wide_queue : Queue :=
  { Queue.zero 1 2147483649 with
    buffer := fun a => if a = 2147483648 then 7 else 0,
    head := 2147483648, tail := 0, items_count := 1 }

/-! ### Observations on a mutex, used to state its properties -/

/-- The values returned by `n` successive calls `mutex_lock(m, timeout)` by the current
task, during which no other task runs, with the final mutex and scheduler. -/
def mutex_lock_n (mutex_ptr timeout : Nat) :
    Nat → Mutex → Scheduler → List Bool × Mutex × Scheduler
  | 0, m, s => ([], m, s)
  | n + 1, m, s =>
    let r := mutex_lock mutex_ptr m timeout s id
    let rest := mutex_lock_n mutex_ptr timeout n r.2.1 r.2.2
    (r.1 :: rest.1, rest.2)

/-- The mutex and the scheduler after `n` successive calls `mutex_unlock(m)` by the
current task. -/
def mutex_unlock_n : Nat → Mutex → Scheduler → Mutex × Scheduler
  | 0, m, s => (m, s)
  | n + 1, m, s => mutex_unlock_n n (mutex_unlock m s).1 (mutex_unlock m s).2

/-- The scheduler when task `i` is the one that runs and makes the next call:
`current_task = i`. -/
def Scheduler.as_task (s : Scheduler) (i : Nat) : Scheduler := { s with current_task := i }

/-- The tasks of the list call `mutex_lock(m, timeout)` one after the other, each one while
the callers before it are suspended inside their own call; then `k` runs, while all of them
are suspended. The mutex and the scheduler when all calls have returned. -/
def mutex_lock_nested (mutex_ptr timeout : Nat) :
    List Nat → (MutexWorld → MutexWorld) → MutexWorld → MutexWorld
  | [], k, w => k w
  | T :: ts, k, w =>
    let r := mutex_lock mutex_ptr w.1 timeout (w.2.as_task T)
      (mutex_lock_nested mutex_ptr timeout ts k)
    (r.2.1, r.2.2)

/-- The owner of the mutex runs and calls `mutex_unlock(m)`. -/
def mutex_unlock_by_owner (w : MutexWorld) : MutexWorld :=
  match w.1.owner with
  | some o => mutex_unlock w.1 (w.2.as_task o)
  | none => w

/-- A started scheduler with three tasks: task 0 runs, tasks 1 and 2 are ready. -/
def three_tasks_scheduler : Scheduler :=
  { tasks := fun i =>
      if i = 0 then { state := TaskState.TASK_RUNNING, priority := 3 }
      else if i = 1 then { state := TaskState.TASK_READY, priority := 2 }
      else if i = 2 then { state := TaskState.TASK_READY, priority := 1 }
      else {},
    current_task := 0, next_task := 0, task_count := 3,
    scheduler_started := true, system_ticks := 0 }

/-! ### Observations on the wait lists of a queue -/

/-- The receiver wait list: the first `waiting_count_recv` entries of
`waiting_tasks_recv`. -/
def Queue.recv_waiters (q : Queue) : List Nat :=
  (List.range q.waiting_count_recv).map q.waiting_tasks_recv

/-- The sender wait list: the first `waiting_count_send` entries of
`waiting_tasks_send`. -/
def Queue.send_waiters (q : Queue) : List Nat :=
  (List.range q.waiting_count_send).map q.waiting_tasks_send

/-- A started scheduler with three tasks: task 0 runs, tasks 1 and 2 are blocked without
timeout. -/
def blocked_pair_scheduler : Scheduler :=
  { tasks := fun i =>
      if i = 0 then { state := TaskState.TASK_RUNNING, priority := 1 }
      else if i = 1 then { state := TaskState.TASK_BLOCKED, priority := 2 }
      else if i = 2 then { state := TaskState.TASK_BLOCKED, priority := 3 }
      else {},
    current_task := 0, next_task := 0, task_count := 3,
    scheduler_started := true, system_ticks := 0 }

/-- An empty queue (4-byte items, capacity 2) on which tasks 1 and 2 wait to receive, in
this order. -/
def two_receivers_queue : Queue :=
  { Queue.zero 4 2 with
    waiting_tasks_recv := fun i => if i = 0 then 1 else if i = 1 then 2 else 0,
    waiting_count_recv := 2 }

/-! ### Timer ticks -/

/-- What happens to the shared state while a task is suspended and nothing but `n` timer
ticks occur: `schedule` runs `n` times and the primitive is not touched. -/
def ticks {α : Type} (n : Nat) (w : α × Scheduler) : α × Scheduler :=
  (w.1, schedule^[n] w.2)

/-! ### Observations on the task table -/

/-- The arguments of a call of `create_task`: function, argument, priority and name. -/
structure TaskArgs where
  task_func : Nat
  arg : Nat
  priority : Nat
  name : Nat
deriving DecidableEq, Repr

/-- The values returned by a sequence of calls of `create_task`, with the final
scheduler. -/
def create_tasks : List TaskArgs → Scheduler → List Int × Scheduler
  | [], s => ([], s)
  | a :: rest, s =>
    let r := create_task a.task_func a.arg a.priority a.name s
    let r2 := create_tasks rest r.2
    (r.1 :: r2.1, r2.2)

/-- A started scheduler with two tasks: task 0, of priority 5, is the current task and is
blocked without timeout; task 1, of priority 0, is ready. -/
def idle_ready_scheduler : Scheduler :=
  { tasks := fun i =>
      if i = 0 then { state := TaskState.TASK_BLOCKED, priority := 5 }
      else if i = 1 then { state := TaskState.TASK_READY, priority := 0 }
      else {},
    current_task := 0, next_task := 0, task_count := 2,
    scheduler_started := true, system_ticks := 0 }

/-- A started scheduler with two tasks: task 0, of priority 5, is the current task and
runs; task 1, of priority 3, is ready. -/
def lower_ready_scheduler : Scheduler :=
  { tasks := fun i =>
      if i = 0 then { state := TaskState.TASK_RUNNING, priority := 5 }
      else if i = 1 then { state := TaskState.TASK_READY, priority := 3 }
      else {},
    current_task := 0, next_task := 0, task_count := 2,
    scheduler_started := true, system_ticks := 0 }

/-- A started scheduler with one task, which runs. -/
def single_task_scheduler : Scheduler :=
  { tasks := fun i =>
      if i = 0 then { state := TaskState.TASK_RUNNING, priority := 1 } else {},
    current_task := 0, next_task := 0, task_count := 1,
    scheduler_started := true, system_ticks := 0 }

/-- The sum of the payload sizes of the blocks of a list that are in use. -/
def used_sum (l : List Blk) : Nat :=
  ((l.filter (fun k => !k.free)).map (fun k => k.size)).sum

/-! ### Sequences of queue operations -/

/-- A step in the life of a queue: a call of a function of the queue API on it, with the
arguments of the call, or anything else that happens to the scheduler between two calls
(`other`: ticks, context switches, calls on other primitives). -/
inductive QueueOp where
  | send (item : Option Item) (timeout : Nat)
  | send_to_front (item : Option Item) (timeout : Nat)
  | send_from_isr (item : Option Item)
  | receive (buffer : Option Item) (timeout : Nat)
  | receive_from_isr (buffer : Option Item)
  | overwrite (item : Option Item)
  | reset
  | set_notification (callback context : Option Nat) (type : QueueNotifyType)
  | other (f : Scheduler → Scheduler)

/-- The queue and the scheduler after a step. A call that suspends its caller is taken up
to the point where the caller is suspended: what the rest of the system does before the
caller runs again are the following steps of the sequence, and the call does not touch the
queue when it resumes. -/
def QueueOp.apply : QueueOp → QueueWorld → QueueWorld
  | QueueOp.send item timeout, w =>
    ((queue_send w.1 item timeout w.2 id).2.1, (queue_send w.1 item timeout w.2 id).2.2)
  | QueueOp.send_to_front item timeout, w =>
    ((queue_send_to_front w.1 item timeout w.2 id).2.1,
     (queue_send_to_front w.1 item timeout w.2 id).2.2)
  | QueueOp.send_from_isr item, w => ((queue_send_from_isr w.1 item).2, w.2)
  | QueueOp.receive buffer timeout, w =>
    ((queue_receive w.1 buffer timeout w.2 id).2.1,
     (queue_receive w.1 buffer timeout w.2 id).2.2.2)
  | QueueOp.receive_from_isr buffer, w => ((queue_receive_from_isr w.1 buffer).2.1, w.2)
  | QueueOp.overwrite item, w => ((queue_overwrite w.1 item).2, w.2)
  | QueueOp.reset, w => (queue_reset w.1, w.2)
  | QueueOp.set_notification callback context type, w =>
    (queue_set_notification w.1 callback context type, w.2)
  | QueueOp.other f, w => (w.1, f w.2)

/-- The queue and the scheduler after a sequence of steps. -/
def run_queue_ops (ops : List QueueOp) (w : QueueWorld) : QueueWorld :=
  ops.foldl (fun w op => op.apply w) w

/-- The queue that `queue_create(&q, item_size, queue_length)` returns on a fresh heap,
when the memory it is built in is zeroed (the empty queue of capacity 0 if the call
fails). -/
def fresh_queue (item_size queue_length : Nat) : Queue :=
  match queue_create (some none) item_size queue_length (Queue.zero 0 0)
      (memory_init Heap.boot) with
  | some (_, some (_, q), _) => q
  | _ => Queue.zero 0 0

/-- The heap after `queue_create(&q, item_size, queue_length)` on a fresh heap (the fresh
heap itself if the call does not return). -/
def fresh_queue_heap (item_size queue_length : Nat) : Heap :=
  match queue_create (some none) item_size queue_length (Queue.zero 0 0)
      (memory_init Heap.boot) with
  | some (_, _, h) => h
  | none => memory_init Heap.boot

/-- The offset of the field `queue_length` in the structure `Queue` on the 32-bit target:
after the pointer `buffer` (4 bytes) and `item_size` (4). -/
def offsetof_queue_length : Nat := 8

/-- The offset of the field `items_count` in the structure `Queue` on the 32-bit target:
after the pointer `buffer` (4 bytes), `item_size` (4) and `queue_length` (4). -/
def offsetof_items_count : Nat := 12

/-- The offset of the field `is_isr_enabled` in the structure `Queue` on the 32-bit
target: after the pointer `buffer` (4 bytes), five `uint32_t` (20), the two wait arrays
(2 * 128) and the two wait counts (8). -/
def offsetof_is_isr_enabled : Nat := 288

/-! ### Sequences of scheduler calls -/

/-- A call of a function of the scheduler after `start_scheduler`: `create_task`, a tick
(`schedule`), `block_task` or `resume_task`, with its arguments. -/
inductive SchedOp where
  | create (a : TaskArgs)
  | tick
  | block (timeout : Nat)
  | resume (task_id : Nat)
deriving DecidableEq, Repr

/-- The scheduler after a call. -/
def SchedOp.apply : SchedOp → Scheduler → Scheduler
  | SchedOp.create a, s => (create_task a.task_func a.arg a.priority a.name s).2
  | SchedOp.tick, s => schedule s
  | SchedOp.block timeout, s => block_task timeout s
  | SchedOp.resume task_id, s => resume_task task_id s

/-- The scheduler after a sequence of calls. -/
def run_sched_ops (ops : List SchedOp) (s : Scheduler) : Scheduler :=
  ops.foldl (fun s op => op.apply s) s

/-- At most one registered TCB is RUNNING, and it is the current task. -/
def SingleRunner (s : Scheduler) : Prop :=
  ∀ i, i < s.task_count → (s.tasks i).state = TaskState.TASK_RUNNING → i = s.current_task

/-! # Theorems -/

/-! ## Queue -/

theorem u32_of_lt {n : Nat} (h : n < 2 ^ 32) : u32 n = n := Nat.mod_eq_of_lt h

theorem notify_queue_event_fields (q : Queue) (e : QueueNotifyType) :
    (notify_queue_event q e).buffer = q.buffer ∧
    (notify_queue_event q e).item_size = q.item_size ∧
    (notify_queue_event q e).queue_length = q.queue_length ∧
    (notify_queue_event q e).items_count = q.items_count ∧
    (notify_queue_event q e).head = q.head ∧
    (notify_queue_event q e).tail = q.tail ∧
    (notify_queue_event q e).overflow_count = q.overflow_count ∧
    (notify_queue_event q e).underflow_count = q.underflow_count ∧
    (notify_queue_event q e).waiting_count_send = q.waiting_count_send ∧
    (notify_queue_event q e).waiting_count_recv = q.waiting_count_recv ∧
    (notify_queue_event q e).waiting_tasks_send = q.waiting_tasks_send ∧
    (notify_queue_event q e).waiting_tasks_recv = q.waiting_tasks_recv ∧
    (notify_queue_event q e).is_isr_enabled = q.is_isr_enabled := by
  unfold notify_queue_event
  split <;> simp

/-- The ring fields of the queue after a `queue_send` that finds room. -/
theorem queue_send_not_full (q : Queue) (x : Item) (t : Nat) (s : Scheduler)
    (others : QueueWorld → QueueWorld) (h : q.items_count ≠ q.queue_length) :
    (queue_send q (some x) t s others).1 = QueueStatus.QUEUE_OK ∧
    (queue_send q (some x) t s others).2.1.buffer = (copy_to_queue q x q.tail).buffer ∧
    (queue_send q (some x) t s others).2.1.item_size = q.item_size ∧
    (queue_send q (some x) t s others).2.1.queue_length = q.queue_length ∧
    (queue_send q (some x) t s others).2.1.items_count = u32 (q.items_count + 1) ∧
    (queue_send q (some x) t s others).2.1.head = q.head ∧
    (queue_send q (some x) t s others).2.1.tail = u32 (q.tail + 1) % q.queue_length ∧
    (queue_send q (some x) t s others).2.1.overflow_count = q.overflow_count := by
  have hf : queue_is_full q = false := by simp [queue_is_full, h]
  simp only [queue_send, hf]
  by_cases hw : q.waiting_count_recv > 0 <;>
    simp [hw, copy_to_queue, notify_queue_event_fields]

/-- The ring fields of the queue and the caller's buffer after a `queue_receive` that
finds an item. -/
theorem queue_receive_not_empty (q : Queue) (buf : Item) (t : Nat) (s : Scheduler)
    (others : QueueWorld → QueueWorld) (h : q.items_count ≠ 0) :
    (queue_receive q (some buf) t s others).1 = QueueStatus.QUEUE_OK ∧
    (queue_receive q (some buf) t s others).2.2.1 = some (copy_from_queue q buf q.head) ∧
    (queue_receive q (some buf) t s others).2.1.buffer = q.buffer ∧
    (queue_receive q (some buf) t s others).2.1.item_size = q.item_size ∧
    (queue_receive q (some buf) t s others).2.1.queue_length = q.queue_length ∧
    (queue_receive q (some buf) t s others).2.1.items_count = q.items_count - 1 ∧
    (queue_receive q (some buf) t s others).2.1.head = u32 (q.head + 1) % q.queue_length ∧
    (queue_receive q (some buf) t s others).2.1.tail = q.tail := by
  have hf : queue_is_empty q = false := by simp [queue_is_empty, h]
  simp only [queue_receive, hf]
  by_cases hw : q.waiting_count_send > 0 <;>
    simp [hw, notify_queue_event_fields]

theorem Queue.ring_inv_tail {q : Queue} (h : q.ring_inv) :
    q.tail = (q.head + q.items_count) % q.queue_length := by
  obtain ⟨hh, ht, hc, h1, h2⟩ := h
  rcases Nat.lt_or_ge q.items_count q.queue_length with hlt | hge
  · have hc1 := h1 hlt
    rcases Nat.lt_or_ge q.tail q.head with hth | hth
    · have e : (q.tail + q.queue_length - q.head) % q.queue_length
          = q.tail + q.queue_length - q.head := Nat.mod_eq_of_lt (by omega)
      have e2 : q.head + q.items_count = q.tail + q.queue_length := by omega
      rw [e2, Nat.add_mod_right, Nat.mod_eq_of_lt ht]
    · have e : q.tail + q.queue_length - q.head = (q.tail - q.head) + q.queue_length := by omega
      rw [e, Nat.add_mod_right, Nat.mod_eq_of_lt (by omega)] at hc1
      have e2 : q.head + q.items_count = q.tail := by omega
      rw [e2, Nat.mod_eq_of_lt ht]
  · have hce : q.items_count = q.queue_length := by omega
    rw [hce, Nat.add_mod_right, Nat.mod_eq_of_lt hh]
    exact (h2 hce).symm

/-- The ring invariant in the form `tail = (head + count) mod capacity`. -/
theorem Queue.ring_inv_of_tail {q : Queue} (hh : q.head < q.queue_length)
    (hc : q.items_count ≤ q.queue_length)
    (ht : q.tail = (q.head + q.items_count) % q.queue_length) : q.ring_inv := by
  have hpos : 0 < q.queue_length := by omega
  have htl : q.tail < q.queue_length := by rw [ht]; exact Nat.mod_lt _ hpos
  refine ⟨hh, htl, hc, ?_, ?_⟩
  · intro hlt
    rcases Nat.lt_or_ge (q.head + q.items_count) q.queue_length with h1 | h1
    · rw [Nat.mod_eq_of_lt h1] at ht
      have e : q.tail + q.queue_length - q.head = q.items_count + q.queue_length := by omega
      rw [e, Nat.add_mod_right, Nat.mod_eq_of_lt hlt]
    · have e0 : q.head + q.items_count = (q.head + q.items_count - q.queue_length)
          + q.queue_length := by omega
      rw [e0, Nat.add_mod_right, Nat.mod_eq_of_lt (by omega)] at ht
      have e : q.tail + q.queue_length - q.head = q.items_count := by omega
      rw [e, Nat.mod_eq_of_lt hlt]
  · intro hce
    rw [ht, hce, Nat.add_mod_right, Nat.mod_eq_of_lt hh]

/-- Two offsets below the capacity that name the same slot from `head` are equal. -/
theorem ring_index_inj {n h i j : Nat} (hi : i < n) (hj : j < n)
    (e : (h + i) % n = (h + j) % n) : i = j := by
  have h1 : Nat.ModEq n (h + i) (h + j) := e
  have h2 : Nat.ModEq n i j := Nat.ModEq.add_left_cancel' h h1
  exact Nat.ModEq.eq_of_lt_of_lt h2 hi hj

theorem Queue.slot_offset {q : Queue} (hv : q.buffer_valid) {p : Nat}
    (hp : p < q.queue_length) : u32 (p * q.item_size) = p * q.item_size := by
  apply u32_of_lt
  have h1 : p * q.item_size ≤ q.queue_length * q.item_size :=
    Nat.mul_le_mul_right _ (Nat.le_of_lt hp)
  have h2 := hv.2
  rw [Nat.mul_comm] at h2
  omega

/-- The slot just written holds the bytes of the item. -/
theorem slot_copy_same (q : Queue) (x : Item) (p : Nat) :
    (copy_to_queue q x p).slot p = Item.bytes q.item_size x := by
  unfold Queue.slot Item.bytes copy_to_queue
  apply List.map_congr_left
  intro j hj
  have hj2 : j < q.item_size := List.mem_range.mp hj
  simp [hj2]

/-- Writing a slot leaves the other slots of the ring as they were. -/
theorem slot_copy_other {q : Queue} (hv : q.buffer_valid) (x : Item) {p r : Nat}
    (hp : p < q.queue_length) (hr : r < q.queue_length) (hne : r ≠ p) :
    (copy_to_queue q x p).slot r = q.slot r := by
  unfold Queue.slot
  have e1 : (copy_to_queue q x p).item_size = q.item_size := rfl
  rw [e1]
  apply List.map_congr_left
  intro j hj
  have hj2 : j < q.item_size := List.mem_range.mp hj
  have hpo := Queue.slot_offset hv hp
  have hro := Queue.slot_offset hv hr
  simp only [copy_to_queue, hpo, hro]
  have hdis : ¬ (p * q.item_size ≤ r * q.item_size + j ∧
      r * q.item_size + j < p * q.item_size + q.item_size) := by
    rintro ⟨ha, hb⟩
    rcases Nat.lt_or_gt_of_ne hne with hlt | hgt
    · have : (r + 1) * q.item_size ≤ p * q.item_size := Nat.mul_le_mul_right _ hlt
      rw [Nat.add_mul, Nat.one_mul] at this
      omega
    · have : (p + 1) * q.item_size ≤ r * q.item_size := Nat.mul_le_mul_right _ hgt
      rw [Nat.add_mul, Nat.one_mul] at this
      omega
  simp [hdis]

/-- The slots of a queue are those of any queue with the same buffer and item size. -/
theorem Queue.slot_congr {q q2 : Queue} (hb : q2.buffer = q.buffer)
    (hs : q2.item_size = q.item_size) (p : Nat) : q2.slot p = q.slot p := by
  unfold Queue.slot
  rw [hb, hs]

/-- Writing at `tail` and counting one more item appends the item to the contents. -/
theorem contents_push_back {q q2 : Queue} (hv : q.buffer_valid) (hr : q.ring_inv)
    (hlt : q.items_count < q.queue_length) (x : Item)
    (hb : q2.buffer = (copy_to_queue q x q.tail).buffer) (hs : q2.item_size = q.item_size)
    (hl : q2.queue_length = q.queue_length) (hc : q2.items_count = q.items_count + 1)
    (hh : q2.head = q.head) :
    q2.contents = q.contents ++ [Item.bytes q.item_size x] := by
  have htail := Queue.ring_inv_tail hr
  have hpos : 0 < q.queue_length := by omega
  unfold Queue.contents
  rw [hc, List.range_succ, List.map_append, hl, hh]
  congr 1
  · apply List.map_congr_left
    intro i hi
    have hi2 : i < q.items_count := List.mem_range.mp hi
    rw [Queue.slot_congr hb (hs.trans rfl)]
    apply slot_copy_other hv x hr.2.1 (Nat.mod_lt _ hpos)
    intro e
    rw [htail] at e
    have := ring_index_inj (by omega) hlt e
    omega
  · simp only [List.map_cons, List.map_nil]
    rw [← htail, Queue.slot_congr hb (hs.trans rfl), slot_copy_same]

/-- Advancing `head` and counting one item less removes the oldest item. -/
theorem contents_pop_front {q q2 : Queue} (hh0 : q.head < q.queue_length)
    (hc0 : q.items_count ≠ 0) (hb : q2.buffer = q.buffer) (hs : q2.item_size = q.item_size)
    (hl : q2.queue_length = q.queue_length) (hc : q2.items_count = q.items_count - 1)
    (hh : q2.head = (q.head + 1) % q.queue_length) :
    q.contents = q.slot q.head :: q2.contents := by
  unfold Queue.contents
  obtain ⟨c, hc1⟩ := Nat.exists_eq_succ_of_ne_zero hc0
  rw [hc, hc1, List.range_succ_eq_map, hl, hh]
  simp only [List.map_cons, List.map_map, Nat.succ_sub_one, Nat.add_zero]
  rw [Nat.mod_eq_of_lt hh0]
  congr 1
  apply List.map_congr_left
  intro i _
  simp only [Function.comp]
  rw [Queue.slot_congr hb hs, Nat.mod_add_mod]
  congr 2
  omega

/-- Stepping `head` back, writing there and counting one more item puts the item in
front of the contents. -/
theorem contents_push_front {q q2 : Queue} (hv : q.buffer_valid)
    (hlt : q.items_count < q.queue_length) (x : Item)
    (hh : q2.head = (q.head + q.queue_length - 1) % q.queue_length)
    (hb : q2.buffer = (copy_to_queue q x q2.head).buffer) (hs : q2.item_size = q.item_size)
    (hl : q2.queue_length = q.queue_length) (hc : q2.items_count = q.items_count + 1) :
    q2.contents = Item.bytes q.item_size x :: q.contents := by
  have hpos : 0 < q.queue_length := by omega
  have hh2 : q2.head < q.queue_length := by rw [hh]; exact Nat.mod_lt _ hpos
  unfold Queue.contents
  rw [hc, List.range_succ_eq_map, hl]
  simp only [List.map_cons, List.map_map, Nat.add_zero]
  congr 1
  · rw [Nat.mod_eq_of_lt hh2, Queue.slot_congr hb (hs.trans rfl), slot_copy_same]
  · apply List.map_congr_left
    intro i hi
    have hi2 : i < q.items_count := List.mem_range.mp hi
    simp only [Function.comp]
    have e : (q2.head + Nat.succ i) % q.queue_length = (q.head + i) % q.queue_length := by
      rw [hh, Nat.mod_add_mod]
      have : q.head + q.queue_length - 1 + Nat.succ i = q.head + i + q.queue_length := by omega
      rw [this, Nat.add_mod_right]
    rw [e, Queue.slot_congr hb (hs.trans rfl)]
    apply slot_copy_other hv x hh2 (Nat.mod_lt _ hpos)
    intro e2
    rw [hh] at e2
    have e3 : (q.head + i) % q.queue_length
        = (q.head + (q.queue_length - 1)) % q.queue_length := by
      rw [e2]; congr 1; omega
    have := ring_index_inj (by omega) (by omega) e3
    omega

/-- On a full ring, writing at `head` and advancing `head` drops the oldest item and
makes the new item the newest. -/
theorem contents_overwrite_full {q q2 : Queue} (hv : q.buffer_valid) (hr : q.ring_inv)
    (hfull : q.items_count = q.queue_length) (x : Item)
    (hb : q2.buffer = (copy_to_queue q x q.head).buffer) (hs : q2.item_size = q.item_size)
    (hl : q2.queue_length = q.queue_length) (hc : q2.items_count = q.items_count)
    (hh : q2.head = (q.head + 1) % q.queue_length) :
    q2.contents = q.contents.tail ++ [Item.bytes q.item_size x] := by
  have hpos : 0 < q.queue_length := by have := hr.1; omega
  obtain ⟨c, hc1⟩ := Nat.exists_eq_succ_of_ne_zero (Nat.pos_iff_ne_zero.mp (hfull ▸ hpos))
  unfold Queue.contents
  rw [hc, hl, hh]
  conv_rhs => rw [hc1, List.range_succ_eq_map]
  rw [hc1, List.range_succ]
  simp only [List.map_cons, List.map_map, List.tail_cons, List.map_append, List.map_nil]
  have hlen : q.queue_length = c + 1 := by omega
  congr 1
  · apply List.map_congr_left
    intro i hi
    have hi2 : i < c := List.mem_range.mp hi
    simp only [Function.comp]
    have e : ((q.head + 1) % q.queue_length + i) % q.queue_length
        = (q.head + Nat.succ i) % q.queue_length := by
      rw [Nat.mod_add_mod]; congr 1; omega
    rw [e, Queue.slot_congr hb (hs.trans rfl)]
    apply slot_copy_other hv x hr.1 (Nat.mod_lt _ hpos)
    intro e2
    have e3 : (q.head + Nat.succ i) % q.queue_length = (q.head + 0) % q.queue_length := by
      rw [e2, Nat.add_zero, Nat.mod_eq_of_lt hr.1]
    have := ring_index_inj (by omega) hpos e3
    omega
  · have e : ((q.head + 1) % q.queue_length + c) % q.queue_length = q.head := by
      rw [Nat.mod_add_mod]
      have : q.head + 1 + c = q.head + q.queue_length := by omega
      rw [this, Nat.add_mod_right, Nat.mod_eq_of_lt hr.1]
    rw [e, Queue.slot_congr hb (hs.trans rfl), slot_copy_same]

/-- One `queue_send` on a queue with room: status, invariants and contents. -/
theorem queue_send_step {q : Queue} (hv : q.buffer_valid) (hr : q.ring_inv)
    (hlt : q.items_count < q.queue_length) (x : Item) (t : Nat) (s : Scheduler)
    (others : QueueWorld → QueueWorld) :
    (queue_send q (some x) t s others).1 = QueueStatus.QUEUE_OK ∧
    (queue_send q (some x) t s others).2.1.buffer_valid ∧
    (queue_send q (some x) t s others).2.1.ring_inv ∧
    (queue_send q (some x) t s others).2.1.item_size = q.item_size ∧
    (queue_send q (some x) t s others).2.1.queue_length = q.queue_length ∧
    (queue_send q (some x) t s others).2.1.items_count = q.items_count + 1 ∧
    (queue_send q (some x) t s others).2.1.contents
      = q.contents ++ [Item.bytes q.item_size x] := by
  obtain ⟨h1, hb, hs, hl, hc, hh, ht, _⟩ :=
    queue_send_not_full q x t s others (Nat.ne_of_lt hlt)
  have hlen := hv.1
  have hc2 : (queue_send q (some x) t s others).2.1.items_count = q.items_count + 1 := by
    rw [hc]; exact u32_of_lt (by omega)
  have hpos : 0 < q.queue_length := by omega
  refine ⟨h1, ?_, ?_, hs, hl, hc2, contents_push_back hv hr hlt x hb hs hl hc2 hh⟩
  · unfold Queue.buffer_valid; rw [hs, hl]; exact hv
  · apply Queue.ring_inv_of_tail
    · rw [hh, hl]; exact hr.1
    · rw [hc2, hl]; omega
    · rw [ht, hh, hc2, hl, u32_of_lt (by have := hr.2.1; omega), Queue.ring_inv_tail hr,
        Nat.mod_add_mod]
      rfl

theorem copy_from_queue_bytes (q : Queue) (buf : Item) (p : Nat) :
    Item.bytes q.item_size (copy_from_queue q buf p) = q.slot p := by
  unfold Item.bytes Queue.slot copy_from_queue
  apply List.map_congr_left
  intro j hj
  have hj2 : j < q.item_size := List.mem_range.mp hj
  simp [hj2]

/-- One `queue_receive` on a queue that holds an item: status, received bytes,
invariants and contents. -/
theorem queue_receive_step {q : Queue} (hv : q.buffer_valid) (hr : q.ring_inv)
    (hc0 : q.items_count ≠ 0) (buf : Item) (t : Nat) (s : Scheduler)
    (others : QueueWorld → QueueWorld) :
    (queue_receive q (some buf) t s others).1 = QueueStatus.QUEUE_OK ∧
    (queue_receive q (some buf) t s others).2.1.buffer_valid ∧
    (queue_receive q (some buf) t s others).2.1.ring_inv ∧
    (queue_receive q (some buf) t s others).2.1.item_size = q.item_size ∧
    (queue_receive q (some buf) t s others).2.1.queue_length = q.queue_length ∧
    (queue_receive q (some buf) t s others).2.1.items_count = q.items_count - 1 ∧
    (queue_receive q (some buf) t s others).2.2.1.map (Item.bytes q.item_size)
      = some (q.slot q.head) ∧
    q.contents = q.slot q.head :: (queue_receive q (some buf) t s others).2.1.contents := by
  obtain ⟨h1, hout, hb, hs, hl, hc, hh, ht⟩ := queue_receive_not_empty q buf t s others hc0
  have hlen := hv.1
  have hpos : 0 < q.queue_length := by have := hr.1; omega
  have hh2 : (queue_receive q (some buf) t s others).2.1.head
      = (q.head + 1) % q.queue_length := by
    rw [hh, u32_of_lt (by have := hr.1; omega)]
  refine ⟨h1, ?_, ?_, hs, hl, hc, ?_, contents_pop_front hr.1 hc0 hb hs hl hc hh2⟩
  · unfold Queue.buffer_valid; rw [hs, hl]; exact hv
  · apply Queue.ring_inv_of_tail
    · rw [hh2, hl]; exact Nat.mod_lt _ hpos
    · rw [hc, hl]; have := hr.2.2.1; omega
    · rw [ht, hh2, hc, hl, Queue.ring_inv_tail hr, Nat.mod_add_mod]
      congr 1; omega
  · rw [hout]
    simp [copy_from_queue_bytes]

/-- A run of `queue_send` calls that fits into the free room of the ring: every call
returns `QUEUE_OK` and the items are appended to the contents in order. -/
theorem send_all_spec (t : Nat) (others : QueueWorld → QueueWorld) (xs : List Item) :
    ∀ (q : Queue) (s : Scheduler), q.buffer_valid → q.ring_inv →
      q.items_count + xs.length ≤ q.queue_length →
      (send_all t others xs q s).1 = List.replicate xs.length QueueStatus.QUEUE_OK ∧
      (send_all t others xs q s).2.1.buffer_valid ∧
      (send_all t others xs q s).2.1.ring_inv ∧
      (send_all t others xs q s).2.1.item_size = q.item_size ∧
      (send_all t others xs q s).2.1.queue_length = q.queue_length ∧
      (send_all t others xs q s).2.1.items_count = q.items_count + xs.length ∧
      (send_all t others xs q s).2.1.contents
        = q.contents ++ xs.map (Item.bytes q.item_size) := by
  induction xs with
  | nil => intro q s hv hr _; simp [send_all, hv, hr]
  | cons x xs ih =>
    intro q s hv hr hn
    simp only [List.length_cons] at hn
    obtain ⟨h1, hv2, hr2, hs, hl, hc, hcont⟩ :=
      queue_send_step hv hr (by omega) x t s others
    obtain ⟨g1, gv, gr, gs, gl, gc, gcont⟩ :=
      ih (queue_send q (some x) t s others).2.1 (queue_send q (some x) t s others).2.2 hv2 hr2
        (by rw [hc, hl]; omega)
    simp only [send_all, List.length_cons, List.replicate_succ, List.map_cons]
    refine ⟨by rw [h1, g1], gv, gr, gs.trans hs, gl.trans hl, by rw [gc, hc]; omega, ?_⟩
    rw [gcont, hcont, hs]
    simp

/-- A run of `n` calls of `queue_receive` on a queue that holds at least `n` items:
every call returns `QUEUE_OK` and the received buffers are the `n` oldest items,
oldest first. -/
theorem receive_n_spec (t : Nat) (others : QueueWorld → QueueWorld) (buf : Item) (n : Nat) :
    ∀ (q : Queue) (s : Scheduler), q.buffer_valid → q.ring_inv → n ≤ q.items_count →
      (receive_n t others buf n q s).1.map (fun r => r.1)
        = List.replicate n QueueStatus.QUEUE_OK ∧
      (receive_n t others buf n q s).1.map (fun r => r.2.map (Item.bytes q.item_size))
        = (q.contents.take n).map some ∧
      (receive_n t others buf n q s).2.1.ring_inv ∧
      (receive_n t others buf n q s).2.1.queue_length = q.queue_length ∧
      (receive_n t others buf n q s).2.1.items_count = q.items_count - n ∧
      (receive_n t others buf n q s).2.1.contents = q.contents.drop n := by
  induction n with
  | zero => intro q s _ hr _; simp [receive_n, hr]
  | succ n ih =>
    intro q s hv hr hn
    obtain ⟨h1, hv2, hr2, hs, hl, hc, hy, hcont⟩ :=
      queue_receive_step hv hr (by omega) buf t s others
    obtain ⟨g1, gy, gr, gl, gc, gcont⟩ :=
      ih (queue_receive q (some buf) t s others).2.1
        (queue_receive q (some buf) t s others).2.2.2 hv2 hr2 (by rw [hc]; omega)
    rw [hs] at gy
    simp only [receive_n, List.map_cons, List.replicate_succ]
    refine ⟨by rw [h1, g1], ?_, gr, gl.trans hl, by rw [gc, hc]; omega, ?_⟩
    · rw [hy, gy, hcont]
      simp
    · rw [gcont, hcont]
      simp

/-- C1. FIFO round trip. On an empty queue (`items_count = 0`, `head = tail < queue_length`)
whose payload area exists, `n` calls `queue_send` with `1 ≤ n ≤ queue_length` items all
return `QUEUE_OK`; the `n` calls of `queue_receive` that follow all return `QUEUE_OK`,
deliver the bytes of the items in the order they were sent, and leave the queue empty
again (`items_count = 0`, `head = tail < queue_length`). -/
theorem queue_fifo_round_trip (q : Queue) (s : Scheduler) (t : Nat)
    (others : QueueWorld → QueueWorld) (buf : Item) (xs : List Item)
    (hv : q.buffer_valid) (hcount : q.items_count = 0) (hht : q.head = q.tail)
    (hlt : q.tail < q.queue_length) (hn : xs.length ≤ q.queue_length) :
    (send_all t others xs q s).1 = List.replicate xs.length QueueStatus.QUEUE_OK ∧
    (receive_n t others buf xs.length (send_all t others xs q s).2.1
        (send_all t others xs q s).2.2).1.map (fun r => r.1)
      = List.replicate xs.length QueueStatus.QUEUE_OK ∧
    (receive_n t others buf xs.length (send_all t others xs q s).2.1
        (send_all t others xs q s).2.2).1.map (fun r => r.2.map (Item.bytes q.item_size))
      = xs.map (fun x => some (Item.bytes q.item_size x)) ∧
    (receive_n t others buf xs.length (send_all t others xs q s).2.1
        (send_all t others xs q s).2.2).2.1.items_count = 0 ∧
    (receive_n t others buf xs.length (send_all t others xs q s).2.1
        (send_all t others xs q s).2.2).2.1.head
      = (receive_n t others buf xs.length (send_all t others xs q s).2.1
          (send_all t others xs q s).2.2).2.1.tail ∧
    (receive_n t others buf xs.length (send_all t others xs q s).2.1
        (send_all t others xs q s).2.2).2.1.tail < q.queue_length := by
  have hr : q.ring_inv := by
    apply Queue.ring_inv_of_tail (by omega) (by omega)
    rw [hcount, Nat.add_zero, hht, Nat.mod_eq_of_lt hlt]
  obtain ⟨a1, av, ar, as, al, ac, acont⟩ := send_all_spec t others xs q s hv hr (by omega)
  obtain ⟨b1, by1, br, bl, bc, _⟩ :=
    receive_n_spec t others buf xs.length (send_all t others xs q s).2.1
      (send_all t others xs q s).2.2 av ar (by omega)
  have hq0 : q.contents = [] := by simp [Queue.contents, hcount]
  rw [as, acont, hq0, List.nil_append] at by1
  have bc0 : (receive_n t others buf xs.length (send_all t others xs q s).2.1
        (send_all t others xs q s).2.2).2.1.items_count = 0 := by rw [bc, ac]; omega
  refine ⟨a1, b1, ?_, bc0, ?_, ?_⟩
  · rw [by1, List.take_of_length_le (by simp), List.map_map]
    rfl
  · have e := Queue.ring_inv_tail br
    rw [bc0, Nat.add_zero, Nat.mod_eq_of_lt br.1] at e
    exact e.symm
  · rw [← al, ← bl]; exact br.2.1

/-- C1, an instance: on the empty queue of two 4-byte items, sending 1 and 2 and then
receiving twice. -/
theorem queue_fifo_round_trip_witness :
    (Queue.zero 4 2).buffer_valid ∧
    (receive_n 0 id (Item.word 0) 2
        (send_all 0 id [Item.word 1, Item.word 2] (Queue.zero 4 2) Scheduler.zero).2.1
        (send_all 0 id [Item.word 1, Item.word 2] (Queue.zero 4 2) Scheduler.zero).2.2).1.map
        (fun r => r.2.map (Item.bytes 4))
      = [some (Item.bytes 4 (Item.word 1)), some (Item.bytes 4 (Item.word 2))] :=
  ⟨by unfold Queue.buffer_valid Queue.zero; decide,
   (queue_fifo_round_trip (Queue.zero 4 2) Scheduler.zero 0 id (Item.word 0)
      [Item.word 1, Item.word 2] (by unfold Queue.buffer_valid Queue.zero; decide)
      rfl rfl (by decide) (by decide)).2.2.1⟩

/-- A `queue_send` that blocks on a full queue and is followed by a `queue_receive` of
another task before it runs again, for every full queue: the send returns `QUEUE_OK` and
the ring holds the old contents without their first item; the item of the send is not
added. -/
theorem queue_send_blocked_general (q : Queue) (x buf : Item) (t t2 : Nat) (s : Scheduler)
    (hv : q.buffer_valid) (hr : q.ring_inv) (hfull : q.items_count = q.queue_length)
    (ht : t ≠ 0) :
    (queue_send q (some x) t s
      (fun w => ((queue_receive w.1 (some buf) t2 w.2 id).2.1,
                 (queue_receive w.1 (some buf) t2 w.2 id).2.2.2))).1 = QueueStatus.QUEUE_OK ∧
    (queue_send q (some x) t s
      (fun w => ((queue_receive w.1 (some buf) t2 w.2 id).2.1,
                 (queue_receive w.1 (some buf) t2 w.2 id).2.2.2))).2.1.contents
      = q.contents.tail := by
  have hpos : 0 < q.queue_length := by have := hr.1; omega
  have hf : queue_is_full q = true := by simp [queue_is_full, hfull]
  have hv1 : Queue.buffer_valid { q with
      waiting_tasks_send :=
        Function.update q.waiting_tasks_send q.waiting_count_send (get_current_task_id s),
      waiting_count_send := u32 (q.waiting_count_send + 1) } := hv
  have hr1 : Queue.ring_inv { q with
      waiting_tasks_send :=
        Function.update q.waiting_tasks_send q.waiting_count_send (get_current_task_id s),
      waiting_count_send := u32 (q.waiting_count_send + 1) } := hr
  obtain ⟨_, _, _, _, g5, g6, _, g8⟩ := queue_receive_step hv1 hr1
    (show q.items_count ≠ 0 by omega) buf t2 (block_task t s) id
  have hnf : queue_is_full (queue_receive { q with
      waiting_tasks_send :=
        Function.update q.waiting_tasks_send q.waiting_count_send (get_current_task_id s),
      waiting_count_send := u32 (q.waiting_count_send + 1) } (some buf) t2 (block_task t s)
        id).2.1 = false := by
    simp only [queue_is_full, g5, g6, beq_eq_false_iff_ne, ne_eq]
    show ¬ (q.items_count - 1 = q.queue_length)
    omega
  have hcont : q.contents = Queue.contents { q with
      waiting_tasks_send :=
        Function.update q.waiting_tasks_send q.waiting_count_send (get_current_task_id s),
      waiting_count_send := u32 (q.waiting_count_send + 1) } := rfl
  simp only [queue_send, hf, ht, Bool.not_true, if_false, hnf]
  refine ⟨by simp, ?_⟩
  rw [hcont, g8]
  rfl

/-- C2. The hand-off scenario of the spec (4-byte items, capacity 2). The queue holds 1
and 2 and is full; the producer calls `queue_send(q, &3, 100)`, is put on the sender wait
list and blocks; the consumer's `queue_receive` takes 1, frees a slot and removes the
producer from the wait list; the producer's call then returns `QUEUE_OK`. After that the
ring holds the single item 2: the item 3 was never written, although no overflow was
counted. -/
theorem queue_send_blocked_item_lost :
    handoff_full_queue.contents = [Item.bytes 4 (Item.word 1), Item.bytes 4 (Item.word 2)] ∧
    queue_is_full handoff_full_queue = true ∧
    (queue_send handoff_full_queue (some (Item.word 3)) 100 handoff_scheduler
      consumer_receives).1 = QueueStatus.QUEUE_OK ∧
    (queue_send handoff_full_queue (some (Item.word 3)) 100 handoff_scheduler
      consumer_receives).2.1.contents = [Item.bytes 4 (Item.word 2)] ∧
    (queue_send handoff_full_queue (some (Item.word 3)) 100 handoff_scheduler
      consumer_receives).2.1.waiting_count_send = 0 ∧
    (queue_send handoff_full_queue (some (Item.word 3)) 100 handoff_scheduler
      consumer_receives).2.1.overflow_count = 0 := by
  decide

/-- What `queue_overwrite` does to a full ring. -/
theorem queue_overwrite_full (q : Queue) (x : Item) (h : q.items_count = q.queue_length) :
    (queue_overwrite q (some x)).1 = QueueStatus.QUEUE_OK ∧
    (queue_overwrite q (some x)).2.buffer = (copy_to_queue q x q.head).buffer ∧
    (queue_overwrite q (some x)).2.item_size = q.item_size ∧
    (queue_overwrite q (some x)).2.queue_length = q.queue_length ∧
    (queue_overwrite q (some x)).2.items_count = q.items_count ∧
    (queue_overwrite q (some x)).2.head = u32 (q.head + 1) % q.queue_length ∧
    (queue_overwrite q (some x)).2.tail = u32 (q.tail + 1) % q.queue_length ∧
    (queue_overwrite q (some x)).2.overflow_count = u32 (q.overflow_count + 1) := by
  have hf : queue_is_full q = true := by simp [queue_is_full, h]
  simp [queue_overwrite, hf, copy_to_queue, notify_queue_event_fields]

/-- What `queue_overwrite` does to a ring with room. -/
theorem queue_overwrite_not_full (q : Queue) (x : Item) (h : q.items_count ≠ q.queue_length) :
    (queue_overwrite q (some x)).1 = QueueStatus.QUEUE_OK ∧
    (queue_overwrite q (some x)).2.buffer = (copy_to_queue q x q.tail).buffer ∧
    (queue_overwrite q (some x)).2.items_count = u32 (q.items_count + 1) ∧
    (queue_overwrite q (some x)).2.tail = u32 (q.tail + 1) % q.queue_length ∧
    (queue_overwrite q (some x)).2.head = q.head ∧
    (queue_overwrite q (some x)).2.overflow_count = q.overflow_count := by
  have hf : queue_is_full q = false := by simp [queue_is_full, h]
  simp [queue_overwrite, hf, copy_to_queue, notify_queue_event_fields]

/-- C3, as amended. For every queue that satisfies the ring invariant and whose payload
area exists: on a full queue `queue_overwrite(q, x)` returns `QUEUE_OK`, advances `head`
and `tail` by one modulo the capacity, leaves `items_count` at the capacity, adds one to
`overflow_count` modulo 2^32 (exactly one whenever the counter is below 2^32 - 1), writes
the item into the slot of the previous `tail`, and turns the contents `a_1 .. a_N` into
`a_2 .. a_N, x`; on a queue with room it returns `QUEUE_OK` and leaves the same `buffer`,
`tail` and `items_count` as a `queue_send` of the same item. -/
theorem queue_overwrite_spec (q : Queue) (x : Item) (hv : q.buffer_valid) (hr : q.ring_inv) :
    (q.items_count = q.queue_length →
      (queue_overwrite q (some x)).1 = QueueStatus.QUEUE_OK ∧
      (queue_overwrite q (some x)).2.head = (q.head + 1) % q.queue_length ∧
      (queue_overwrite q (some x)).2.tail = (q.tail + 1) % q.queue_length ∧
      (queue_overwrite q (some x)).2.items_count = q.queue_length ∧
      (queue_overwrite q (some x)).2.overflow_count = (q.overflow_count + 1) % 2 ^ 32 ∧
      (q.overflow_count + 1 < 2 ^ 32 →
        (queue_overwrite q (some x)).2.overflow_count = q.overflow_count + 1) ∧
      (queue_overwrite q (some x)).2.slot q.tail = Item.bytes q.item_size x ∧
      (queue_overwrite q (some x)).2.contents
        = q.contents.tail ++ [Item.bytes q.item_size x]) ∧
    (q.items_count ≠ q.queue_length →
      ∀ (t : Nat) (s : Scheduler) (others : QueueWorld → QueueWorld),
        (queue_overwrite q (some x)).1 = QueueStatus.QUEUE_OK ∧
        (queue_send q (some x) t s others).1 = QueueStatus.QUEUE_OK ∧
        (queue_overwrite q (some x)).2.buffer = (queue_send q (some x) t s others).2.1.buffer ∧
        (queue_overwrite q (some x)).2.tail = (queue_send q (some x) t s others).2.1.tail ∧
        (queue_overwrite q (some x)).2.items_count
          = (queue_send q (some x) t s others).2.1.items_count) := by
  constructor
  · intro hfull
    obtain ⟨h1, hb, hs, hl, hc, hh, ht, ho⟩ := queue_overwrite_full q x hfull
    have hlen := hv.1
    have hh2 : (queue_overwrite q (some x)).2.head = (q.head + 1) % q.queue_length := by
      rw [hh, u32_of_lt (by have := hr.1; omega)]
    have ht2 : (queue_overwrite q (some x)).2.tail = (q.tail + 1) % q.queue_length := by
      rw [ht, u32_of_lt (by have := hr.2.1; omega)]
    refine ⟨h1, hh2, ht2, hc.trans hfull, ho, ?_, ?_,
      contents_overwrite_full hv hr hfull x hb hs hl hc hh2⟩
    · intro hlt; rw [ho]; exact u32_of_lt hlt
    · rw [Queue.slot_congr hb (hs.trans rfl), ← hr.2.2.2.2 hfull, slot_copy_same]
  · intro hne t s others
    obtain ⟨h1, hb, hc, ht, _, _⟩ := queue_overwrite_not_full q x hne
    obtain ⟨g1, gb, _, _, gc, _, gt, _⟩ := queue_send_not_full q x t s others hne
    exact ⟨h1, g1, by rw [hb, gb], by rw [ht, gt], by rw [hc, gc]⟩

/-- C3, an instance of the amended statement: overwriting the full queue that holds 1 and
2 with 3 leaves 2 and 3. -/
theorem queue_overwrite_spec_witness :
    handoff_full_queue.buffer_valid ∧ handoff_full_queue.ring_inv ∧
    handoff_full_queue.items_count = handoff_full_queue.queue_length ∧
    (queue_overwrite handoff_full_queue (some (Item.word 3))).2.contents
      = handoff_full_queue.contents.tail ++ [Item.bytes 4 (Item.word 3)] :=
  ⟨by unfold Queue.buffer_valid; decide, by unfold Queue.ring_inv; decide, by decide,
   ((queue_overwrite_spec handoff_full_queue (Item.word 3)
      (by unfold Queue.buffer_valid; decide) (by unfold Queue.ring_inv; decide)).1
      (by decide)).2.2.2.2.2.2.2⟩

/-- C3 as stated fails: on a full queue that satisfies the ring invariant and whose
`overflow_count` is 2^32 - 1, `queue_overwrite` leaves `overflow_count = 0`, not
`overflow_count + 1`. -/
theorem queue_overwrite_counter_wraps :
    saturated_full_queue.ring_inv ∧ saturated_full_queue.buffer_valid ∧
    saturated_full_queue.items_count = saturated_full_queue.queue_length ∧
    saturated_full_queue.overflow_count = 4294967295 ∧
    (queue_overwrite saturated_full_queue (some (Item.word 3))).2.overflow_count = 0 ∧
    ¬ ((queue_overwrite saturated_full_queue (some (Item.word 3))).2.overflow_count
        = saturated_full_queue.overflow_count + 1) := by
  refine ⟨by unfold Queue.ring_inv; decide, by unfold Queue.buffer_valid; decide,
    by decide, by decide, by decide, by decide⟩

/-- The ring fields of the queue after a `queue_send_to_front` that finds room. -/
theorem queue_send_to_front_not_full (q : Queue) (x : Item) (t : Nat) (s : Scheduler)
    (others : QueueWorld → QueueWorld) (h : q.items_count ≠ q.queue_length) :
    (queue_send_to_front q (some x) t s others).1 = QueueStatus.QUEUE_OK ∧
    (queue_send_to_front q (some x) t s others).2.1.head
      = u32 (u32 (q.head + 2 ^ 32 - 1) + q.queue_length) % q.queue_length ∧
    (queue_send_to_front q (some x) t s others).2.1.buffer
      = (copy_to_queue q x (u32 (u32 (q.head + 2 ^ 32 - 1) + q.queue_length)
          % q.queue_length)).buffer ∧
    (queue_send_to_front q (some x) t s others).2.1.item_size = q.item_size ∧
    (queue_send_to_front q (some x) t s others).2.1.queue_length = q.queue_length ∧
    (queue_send_to_front q (some x) t s others).2.1.items_count = u32 (q.items_count + 1) ∧
    (queue_send_to_front q (some x) t s others).2.1.tail = q.tail := by
  have hf : queue_is_full q = false := by simp [queue_is_full, h]
  simp only [queue_send_to_front, hf]
  by_cases hw : q.waiting_count_recv > 0 <;>
    simp [hw, copy_to_queue, notify_queue_event_fields]

/-- The head computation of `queue_send_to_front`, `(head - 1 + queue_length) %
queue_length` in `uint32_t`, is the decrement modulo the capacity as long as
`head - 1 + queue_length` does not pass 2^32. -/
theorem head_decrement {head len : Nat} (hh : head < len) (hl : len ≤ 2 ^ 31) :
    u32 (u32 (head + 2 ^ 32 - 1) + len) % len = (head + len - 1) % len := by
  rcases Nat.eq_zero_or_pos head with h0 | hpos
  · subst h0
    have e1 : u32 (0 + 2 ^ 32 - 1) = 2 ^ 32 - 1 := by unfold u32; norm_num
    have e2 : u32 (2 ^ 32 - 1 + len) = len - 1 := by
      unfold u32
      have : 2 ^ 32 - 1 + len = (len - 1) + 2 ^ 32 := by omega
      rw [this, Nat.add_mod_right]
      exact Nat.mod_eq_of_lt (by omega)
    have e3 : 0 + len - 1 = len - 1 := by omega
    rw [e1, e2, e3]
  · have e1 : u32 (head + 2 ^ 32 - 1) = head - 1 := by
      unfold u32
      have : head + 2 ^ 32 - 1 = (head - 1) + 2 ^ 32 := by omega
      rw [this, Nat.add_mod_right]
      exact Nat.mod_eq_of_lt (by omega)
    have e3 : head - 1 + len = head + len - 1 := by omega
    rw [e1, u32_of_lt (show head - 1 + len < 2 ^ 32 by omega), e3]

/-- The function `queue_send_to_front` on queues of at most 2^31 items. For every queue
with room that satisfies the ring invariant, whose payload area exists and whose capacity
is at most 2^31, the call returns `QUEUE_OK`, sets `head` to `(head - 1) mod
queue_length`, leaves `tail`, counts one more item, keeps the invariants and puts the item
in front of the contents. -/
theorem queue_send_to_front_spec (q : Queue) (x : Item) (t : Nat) (s : Scheduler)
    (others : QueueWorld → QueueWorld) (hv : q.buffer_valid) (hr : q.ring_inv)
    (hlt : q.items_count < q.queue_length) (hl : q.queue_length ≤ 2 ^ 31) :
    (queue_send_to_front q (some x) t s others).1 = QueueStatus.QUEUE_OK ∧
    (queue_send_to_front q (some x) t s others).2.1.head
      = (q.head + q.queue_length - 1) % q.queue_length ∧
    (queue_send_to_front q (some x) t s others).2.1.tail = q.tail ∧
    (queue_send_to_front q (some x) t s others).2.1.items_count = q.items_count + 1 ∧
    (queue_send_to_front q (some x) t s others).2.1.ring_inv ∧
    (queue_send_to_front q (some x) t s others).2.1.buffer_valid ∧
    (queue_send_to_front q (some x) t s others).2.1.contents
      = Item.bytes q.item_size x :: q.contents := by
  obtain ⟨h1, hh, hb, hs, hlen, hc, ht⟩ :=
    queue_send_to_front_not_full q x t s others (Nat.ne_of_lt hlt)
  rw [head_decrement hr.1 hl] at hh hb
  have hc2 : (queue_send_to_front q (some x) t s others).2.1.items_count
      = q.items_count + 1 := by
    rw [hc]; exact u32_of_lt (by omega)
  have hpos : 0 < q.queue_length := by omega
  have hb2 : (queue_send_to_front q (some x) t s others).2.1.buffer
      = (copy_to_queue q x (queue_send_to_front q (some x) t s others).2.1.head).buffer := by
    rw [hb, hh]
  refine ⟨h1, hh, ht, hc2, ?_, ?_, contents_push_front hv hlt x hh hb2 hs hlen hc2⟩
  · apply Queue.ring_inv_of_tail
    · rw [hh, hlen]; exact Nat.mod_lt _ hpos
    · rw [hc2, hlen]; omega
    · rw [ht, hh, hc2, hlen, Queue.ring_inv_tail hr, Nat.mod_add_mod]
      have : q.head + q.queue_length - 1 + (q.items_count + 1)
          = q.head + q.items_count + q.queue_length := by have := hr.1; omega
      rw [this, Nat.add_mod_right]
  · unfold Queue.buffer_valid; rw [hs, hlen]; exact hv

/-- C4. The queue `wide_queue` has 2^31 + 1 one-byte slots, satisfies the ring invariant,
has room and holds the single item 7 at `head = 2^31`. The call
`queue_send_to_front(q, &9, 0)` returns `QUEUE_OK` but sets `head` to 0 instead of
`2^31 - 1`, because `head - 1 + queue_length` is 2^32 and wraps to 0; the contents
become 9, 0 instead of 9, 7 and the ring invariant is lost. -/
theorem queue_send_to_front_head_wraps :
    wide_queue.ring_inv ∧ wide_queue.buffer_valid ∧
    wide_queue.items_count < wide_queue.queue_length ∧
    wide_queue.contents = [[7]] ∧
    (queue_send_to_front wide_queue (some (Item.word 9)) 0 Scheduler.zero id).1
      = QueueStatus.QUEUE_OK ∧
    (queue_send_to_front wide_queue (some (Item.word 9)) 0 Scheduler.zero id).2.1.head = 0 ∧
    (wide_queue.head + wide_queue.queue_length - 1) % wide_queue.queue_length = 2147483647 ∧
    (queue_send_to_front wide_queue (some (Item.word 9)) 0 Scheduler.zero id).2.1.contents
      = [[9], [0]] ∧
    ¬ (queue_send_to_front wide_queue (some (Item.word 9)) 0 Scheduler.zero id).2.1.ring_inv := by
  refine ⟨by unfold Queue.ring_inv; decide, by unfold Queue.buffer_valid; decide,
    by decide, by decide, by decide, by decide, by decide, by decide,
    by unfold Queue.ring_inv; decide⟩

/-! ## Heap allocator -/

theorem Seg.le {b : Nat → MemoryBlock} : ∀ {l : List Blk} {p : Option Nat} {a : Nat}
    {q : Option Nat} {e : Nat}, Seg b p a l q e → a + sizeof_MemoryBlock * l.length ≤ e := by
  intro l
  induction l with
  | nil => intro p a q e h; simp [Seg] at h; simp [h.2]
  | cons k l ih =>
    intro p a q e h
    obtain ⟨_, _, _, _, h5⟩ := h
    have := ih h5
    simp only [List.length_cons, sizeof_MemoryBlock] at *
    omega

/-- Every block of a segment lies inside it. -/
theorem Seg.mem_bounds {b : Nat → MemoryBlock} : ∀ {l : List Blk} {p : Option Nat} {a : Nat}
    {q : Option Nat} {e : Nat}, Seg b p a l q e →
    ∀ k ∈ l, a ≤ k.off ∧ k.off + sizeof_MemoryBlock + k.size ≤ e ∧
      (b k.off).size = k.size ∧ (b k.off).is_free = k.free := by
  intro l
  induction l with
  | nil => intro p a q e _ k hk; simp at hk
  | cons k0 l ih =>
    intro p a q e h k hk
    obtain ⟨_, h2, h3, h4, h5⟩ := h
    rcases List.mem_cons.mp hk with rfl | hk
    · have := Seg.le h5
      rw [h2]
      exact ⟨Nat.le_refl _, by omega, h3, h4⟩
    · have := ih h5 k hk
      exact ⟨by omega, this.2.1, this.2.2⟩

/-- Headers outside a segment do not matter to it. -/
theorem Seg.frame {b b2 : Nat → MemoryBlock} : ∀ {l : List Blk} {p : Option Nat} {a : Nat}
    {q : Option Nat} {e : Nat}, Seg b p a l q e → (∀ x, a ≤ x → x < e → b2 x = b x) →
    Seg b2 p a l q e := by
  intro l
  induction l with
  | nil => intro p a q e h _; exact h
  | cons k l ih =>
    intro p a q e h hb
    obtain ⟨h1, h2, h3, h4, h5⟩ := h
    have hle := Seg.le h5
    have e1 : b2 a = b a := hb a (Nat.le_refl _) (by simp only [sizeof_MemoryBlock] at *; omega)
    refine ⟨h1, h2, by rw [e1]; exact h3, by rw [e1]; exact h4, ?_⟩
    rw [e1]
    exact ih h5 (fun x hx hxe => hb x (by omega) hxe)

/-- A segment of an appended list splits into two segments. -/
theorem Seg.append {b : Nat → MemoryBlock} : ∀ {l1 l2 : List Blk} {p : Option Nat} {a : Nat}
    {q : Option Nat} {e : Nat}, Seg b p a (l1 ++ l2) q e ↔
    ∃ pm m, Seg b p a l1 pm m ∧ Seg b pm m l2 q e := by
  intro l1
  induction l1 with
  | nil =>
    intro l2 p a q e
    constructor
    · intro h; exact ⟨p, a, ⟨rfl, rfl⟩, h⟩
    · rintro ⟨pm, m, ⟨rfl, rfl⟩, h⟩; exact h
  | cons k l1 ih =>
    intro l2 p a q e
    constructor
    · rintro ⟨h1, h2, h3, h4, h5⟩
      obtain ⟨pm, m, g1, g2⟩ := ih.mp h5
      exact ⟨pm, m, ⟨h1, h2, h3, h4, g1⟩, g2⟩
    · rintro ⟨pm, m, ⟨h1, h2, h3, h4, g1⟩, g2⟩
      exact ⟨h1, h2, h3, h4, ih.mpr ⟨pm, m, g1, g2⟩⟩

/-- On a null-terminated segment the walk visits exactly its blocks. -/
theorem walk_eq (h : Heap) : ∀ (l : List Blk) (fuel : Nat) (p : Option Nat) (a e : Nat),
    Seg h.blocks p a l none e → l.length ≤ fuel → h.walk fuel p = l.map (fun k => k.off) := by
  intro l
  induction l with
  | nil =>
    intro fuel p a e hs _
    obtain ⟨rfl, _⟩ := hs
    cases fuel <;> simp [Heap.walk]
  | cons k l ih =>
    intro fuel p a e hs hf
    obtain ⟨rfl, h2, _, _, h5⟩ := hs
    obtain ⟨f, rfl⟩ : ∃ f, fuel = f + 1 := ⟨fuel - 1, by simp at hf; omega⟩
    simp only [Heap.walk, List.map_cons, h2]
    rw [ih f _ _ _ h5 (by simp at hf; omega)]

/-- On a null-terminated segment the search loop of `memory_alloc` ends and computes
`best_fit_list`. -/
theorem best_fit_loop_eq (h : Heap) (size : Nat) :
    ∀ (l : List Blk) (fuel : Nat) (p : Option Nat) (a e : Nat) (best : Option Nat) (sm : Nat),
    Seg h.blocks p a l none e → l.length ≤ fuel →
    best_fit_loop h size fuel p best sm = some (best_fit_list size l best sm) := by
  intro l
  induction l with
  | nil =>
    intro fuel p a e best sm hs _
    obtain ⟨rfl, _⟩ := hs
    cases fuel <;> simp [best_fit_loop, best_fit_list]
  | cons k l ih =>
    intro fuel p a e best sm hs hf
    obtain ⟨rfl, h2, h3, h4, h5⟩ := hs
    subst h2
    obtain ⟨f, rfl⟩ : ∃ f, fuel = f + 1 := ⟨fuel - 1, by simp at hf; omega⟩
    have hf2 : l.length ≤ f := by simp at hf; omega
    simp only [best_fit_loop, best_fit_list, h3, h4]
    split
    · split
      · exact ih f _ _ _ _ _ h5 hf2
      · exact ih f _ _ _ _ _ h5 hf2
    · exact ih f _ _ _ _ _ h5 hf2

/-- What the search returns: either nothing better than the starting candidate exists, or
the result is the first block, among the free blocks of at least the requested size, whose
size is smallest. -/
theorem best_fit_list_spec (size : Nat) : ∀ (l : List Blk) (best : Option Nat) (sm : Nat),
    (best_fit_list size l best sm = best ∧
      ∀ k ∈ l, k.free = true → size ≤ k.size → sm ≤ k.size) ∨
    (∃ pre k post, l = pre ++ k :: post ∧ best_fit_list size l best sm = some k.off ∧
      k.free = true ∧ size ≤ k.size ∧ k.size < sm ∧
      (∀ j ∈ pre, j.free = true → size ≤ j.size → k.size < j.size) ∧
      (∀ j ∈ post, j.free = true → size ≤ j.size → k.size ≤ j.size)) := by
  intro l
  induction l with
  | nil => intro best sm; left; simp [best_fit_list]
  | cons k l ih =>
    intro best sm
    by_cases hq : k.free = true ∧ k.size ≥ size
    · by_cases hlt : k.size < sm
      · have e : best_fit_list size (k :: l) best sm = best_fit_list size l (some k.off) k.size := by
          simp only [best_fit_list, hq, hlt, and_self, if_true]
        rw [e]
        rcases ih (some k.off) k.size with ⟨h1, h2⟩ | ⟨pre, k2, post, h1, h2, h3, h4, h5, h6, h7⟩
        · right
          exact ⟨[], k, l, rfl, h1, hq.1, hq.2, hlt, by simp, h2⟩
        · right
          refine ⟨k :: pre, k2, post, by rw [h1]; rfl, h2, h3, h4, by omega, ?_, h7⟩
          intro j hj hjf hjs
          rcases List.mem_cons.mp hj with rfl | hj
          · exact h5
          · exact h6 j hj hjf hjs
      · have e : best_fit_list size (k :: l) best sm = best_fit_list size l best sm := by
          simp only [best_fit_list, hq, hlt, and_self, if_true, if_false]
        rw [e]
        rcases ih best sm with ⟨h1, h2⟩ | ⟨pre, k2, post, h1, h2, h3, h4, h5, h6, h7⟩
        · left
          refine ⟨h1, ?_⟩
          intro j hj hjf hjs
          rcases List.mem_cons.mp hj with rfl | hj
          · omega
          · exact h2 j hj hjf hjs
        · right
          refine ⟨k :: pre, k2, post, by rw [h1]; rfl, h2, h3, h4, h5, ?_, h7⟩
          intro j hj hjf hjs
          rcases List.mem_cons.mp hj with rfl | hj
          · omega
          · exact h6 j hj hjf hjs
    · have e : best_fit_list size (k :: l) best sm = best_fit_list size l best sm := by
        simp only [best_fit_list, hq, if_false]
      rw [e]
      rcases ih best sm with ⟨h1, h2⟩ | ⟨pre, k2, post, h1, h2, h3, h4, h5, h6, h7⟩
      · left
        refine ⟨h1, ?_⟩
        intro j hj hjf hjs
        rcases List.mem_cons.mp hj with rfl | hj
        · exact absurd ⟨hjf, hjs⟩ hq
        · exact h2 j hj hjf hjs
      · right
        refine ⟨k :: pre, k2, post, by rw [h1]; rfl, h2, h3, h4, h5, ?_, h7⟩
        intro j hj hjf hjs
        rcases List.mem_cons.mp hj with rfl | hj
        · exact absurd ⟨hjf, hjs⟩ hq
        · exact h6 j hj hjf hjs

/-- The heap after `memory_alloc_take` when the block is split. -/
theorem memory_alloc_take_split (size x : Nat) (h : Heap)
    (hc : (h.blocks x).size ≥ u32 (u32 (size + sizeof_MemoryBlock) + 8)) :
    (memory_alloc_take size x h).1 = some (x + sizeof_MemoryBlock) ∧
    (memory_alloc_take size x h).2.first_block = h.first_block ∧
    (memory_alloc_take size x h).2.blocks =
      Function.update
        (Function.update h.blocks (x + sizeof_MemoryBlock + size)
          { size := u32 (u32 ((h.blocks x).size + 2 ^ 32 - size) + 2 ^ 32 - sizeof_MemoryBlock),
            is_free := true, next := (h.blocks x).next })
        x { size := size, is_free := false, next := some (x + sizeof_MemoryBlock + size) } := by
  have hne : x ≠ x + sizeof_MemoryBlock + size := by simp [sizeof_MemoryBlock]; omega
  refine ⟨rfl, ?_, ?_⟩
  · simp only [memory_alloc_take, hc, if_true, Heap.set_block]
    split <;> rfl
  · simp only [memory_alloc_take, hc, if_true, Heap.set_block]
    split <;> simp [Function.update_same, Function.update_noteq hne]

/-- The heap after `memory_alloc_take` when the block is handed out whole. -/
theorem memory_alloc_take_whole (size x : Nat) (h : Heap)
    (hc : ¬ (h.blocks x).size ≥ u32 (u32 (size + sizeof_MemoryBlock) + 8)) :
    (memory_alloc_take size x h).1 = some (x + sizeof_MemoryBlock) ∧
    (memory_alloc_take size x h).2.first_block = h.first_block ∧
    (memory_alloc_take size x h).2.blocks =
      Function.update h.blocks x { h.blocks x with is_free := false } := by
  refine ⟨rfl, ?_, ?_⟩
  · simp only [memory_alloc_take, hc, if_false, Heap.set_block]
    split <;> rfl
  · simp only [memory_alloc_take, hc, if_false, Heap.set_block]
    split <;> rfl

theorem u32_add_sub {a c : Nat} (hc : c ≤ a) (ha : a < 2 ^ 32) :
    u32 (a + 2 ^ 32 - c) = a - c := by
  unfold u32
  have : a + 2 ^ 32 - c = (a - c) + 2 ^ 32 := by omega
  rw [this, Nat.add_mod_right]
  exact Nat.mod_eq_of_lt (by omega)

/-- The parts of a tiled heap around one of its blocks. -/
theorem Heap.Tiled.split {h : Heap} {pre post : List Blk} {k : Blk}
    (ht : h.Tiled (pre ++ k :: post)) :
    Seg h.blocks h.first_block 0 pre (some k.off) k.off ∧
    (h.blocks k.off).size = k.size ∧ (h.blocks k.off).is_free = k.free ∧
    Seg h.blocks (h.blocks k.off).next (k.off + sizeof_MemoryBlock + k.size) post none
      HEAP_SIZE ∧
    k.off + sizeof_MemoryBlock + k.size + sizeof_MemoryBlock * post.length ≤ HEAP_SIZE := by
  obtain ⟨pm, m, h1, h2⟩ := Seg.append.mp ht
  obtain ⟨g1, g2, g3, g4, g5⟩ := h2
  subst g2
  subst g1
  exact ⟨h1, g3, g4, g5, Seg.le g5⟩

/-- The block list after `memory_alloc_take` has split a free block. -/
theorem alloc_tiled_split {h : Heap} {pre post : List Blk} {k : Blk}
    (ht : h.Tiled (pre ++ k :: post)) (r : Nat) (hr : r + 20 ≤ k.size) :
    (memory_alloc_take r k.off h).2.Tiled
      (pre ++ { off := k.off, size := r, free := false } ::
        { off := k.off + sizeof_MemoryBlock + r, size := k.size - r - sizeof_MemoryBlock,
          free := true } :: post) := by
  obtain ⟨h1, h2, _, h4, h5⟩ := ht.split
  have hH : HEAP_SIZE = 32768 := rfl
  have hS : sizeof_MemoryBlock = 12 := rfl
  have hks : k.size ≤ 32768 := by rw [hS, hH] at h5; omega
  have c1 : u32 (r + sizeof_MemoryBlock) = r + 12 := by
    rw [hS]; exact u32_of_lt (by omega)
  have c2 : u32 (r + 12 + 8) = r + 20 := u32_of_lt (by omega)
  have c3 : u32 (k.size + 2 ^ 32 - r) = k.size - r := u32_add_sub (by omega) (by omega)
  have c4 : u32 (k.size - r + 2 ^ 32 - sizeof_MemoryBlock) = k.size - r - sizeof_MemoryBlock := by
    apply u32_add_sub (by rw [hS]; omega) (by omega)
  have hc : (h.blocks k.off).size ≥ u32 (u32 (r + sizeof_MemoryBlock) + 8) := by
    rw [h2, c1, c2]; omega
  obtain ⟨_, e2, e3⟩ := memory_alloc_take_split r k.off h hc
  unfold Heap.Tiled
  rw [e2, e3, h2, c3, c4]
  apply Seg.append.mpr
  refine ⟨some k.off, k.off, ?_, ?_⟩
  · apply Seg.frame h1
    intro y _ hy
    rw [Function.update_noteq (by omega), Function.update_noteq (by rw [hS]; omega)]
  · have hne : k.off + sizeof_MemoryBlock + r ≠ k.off := by rw [hS]; omega
    refine ⟨rfl, rfl, by simp, by simp, ?_⟩
    simp only [Function.update_same]
    refine ⟨rfl, rfl, by simp [Function.update_noteq hne], by simp [Function.update_noteq hne],
      ?_⟩
    simp only [Function.update_noteq hne, Function.update_same]
    have e : k.off + sizeof_MemoryBlock + r + sizeof_MemoryBlock + (k.size - r - sizeof_MemoryBlock)
        = k.off + sizeof_MemoryBlock + k.size := by rw [hS]; omega
    rw [e]
    apply Seg.frame h4
    intro y hy _
    rw [Function.update_noteq (by rw [hS] at hy; omega),
      Function.update_noteq (by rw [hS] at hy ⊢; omega)]

/-- The block list after `memory_alloc_take` has handed out a free block whole. -/
theorem alloc_tiled_whole {h : Heap} {pre post : List Blk} {k : Blk}
    (ht : h.Tiled (pre ++ k :: post)) (r : Nat) (hr : r ≤ k.size) (hr2 : ¬ r + 20 ≤ k.size) :
    (memory_alloc_take r k.off h).2.Tiled
      (pre ++ { off := k.off, size := k.size, free := false } :: post) := by
  obtain ⟨h1, h2, _, h4, h5⟩ := ht.split
  have hH : HEAP_SIZE = 32768 := rfl
  have hS : sizeof_MemoryBlock = 12 := rfl
  have hks : k.size ≤ 32768 := by rw [hS, hH] at h5; omega
  have c1 : u32 (r + sizeof_MemoryBlock) = r + 12 := by
    rw [hS]; exact u32_of_lt (by omega)
  have c2 : u32 (r + 12 + 8) = r + 20 := u32_of_lt (by omega)
  have hc : ¬ (h.blocks k.off).size ≥ u32 (u32 (r + sizeof_MemoryBlock) + 8) := by
    rw [h2, c1, c2]; omega
  obtain ⟨_, e2, e3⟩ := memory_alloc_take_whole r k.off h hc
  unfold Heap.Tiled
  rw [e2, e3]
  apply Seg.append.mpr
  refine ⟨some k.off, k.off, ?_, ?_⟩
  · apply Seg.frame h1
    intro y _ hy
    rw [Function.update_noteq (by omega)]
  · refine ⟨rfl, rfl, by simp [h2], by simp, ?_⟩
    simp only [Function.update_same]
    apply Seg.frame h4
    intro y hy _
    rw [Function.update_noteq (by rw [hS] at hy; omega)]

/-! ### Lists of free flags -/

theorem flags_snoc_false {A : List Bool}
    (h : List.Chain' (fun x y : Bool => ¬ (x = true ∧ y = true)) A) :
    List.Chain' (fun x y : Bool => ¬ (x = true ∧ y = true)) (A ++ [false]) := by
  rw [List.chain'_append]
  refine ⟨h, List.chain'_singleton _, ?_⟩
  intro x _ y hy
  simp at hy
  subst hy
  simp

theorem flags_cons_false {B : List Bool}
    (h : List.Chain' (fun x y : Bool => ¬ (x = true ∧ y = true)) B) :
    List.Chain' (fun x y : Bool => ¬ (x = true ∧ y = true)) (false :: B) := by
  rw [List.chain'_cons']
  exact ⟨by intro y _; simp, h⟩

/-- An in-use block may stand anywhere. -/
theorem flags_insert_false {A B : List Bool}
    (hA : List.Chain' (fun x y : Bool => ¬ (x = true ∧ y = true)) A)
    (hB : List.Chain' (fun x y : Bool => ¬ (x = true ∧ y = true)) B) :
    List.Chain' (fun x y : Bool => ¬ (x = true ∧ y = true)) (A ++ false :: B) :=
  List.chain'_split.mpr ⟨flags_snoc_false hA, flags_cons_false hB⟩

/-- A free block may stand after a list that does not end with a free block. -/
theorem flags_join_true {A B : List Bool}
    (hA : List.Chain' (fun x y : Bool => ¬ (x = true ∧ y = true)) A)
    (hB : List.Chain' (fun x y : Bool => ¬ (x = true ∧ y = true)) (true :: B))
    (hl : ∀ a ∈ A.getLast?, a = false) :
    List.Chain' (fun x y : Bool => ¬ (x = true ∧ y = true)) (A ++ true :: B) := by
  rw [List.chain'_append]
  refine ⟨hA, hB, ?_⟩
  intro x hx y _
  rw [hl x hx]
  simp

/-! ### The steps of `memory_free` -/

theorem memory_free_forward_none (x : Nat) (h : Heap) (hn : (h.blocks x).next = none) :
    (memory_free_forward x h).first_block = h.first_block ∧
    (memory_free_forward x h).blocks
      = Function.update h.blocks x { h.blocks x with is_free := true } := by
  simp [memory_free_forward, Heap.set_block, hn]

theorem memory_free_forward_keep (x n : Nat) (h : Heap) (hn : (h.blocks x).next = some n)
    (hne : n ≠ x) (hf : (h.blocks n).is_free = false) :
    (memory_free_forward x h).first_block = h.first_block ∧
    (memory_free_forward x h).blocks
      = Function.update h.blocks x { h.blocks x with is_free := true } := by
  simp [memory_free_forward, Heap.set_block, hn, Function.update_noteq hne, hf]

theorem memory_free_forward_merge (x n : Nat) (h : Heap) (hn : (h.blocks x).next = some n)
    (hne : n ≠ x) (hf : (h.blocks n).is_free = true) :
    (memory_free_forward x h).first_block = h.first_block ∧
    (memory_free_forward x h).blocks
      = Function.update h.blocks x
          { size := u32 ((h.blocks x).size + u32 ((h.blocks n).size + sizeof_MemoryBlock)),
            is_free := true, next := (h.blocks n).next } := by
  simp [memory_free_forward, Heap.set_block, hn, Function.update_noteq hne, hf]

/-- The block list after the first part of `memory_free` on a block of the list: the
block is free, and it has absorbed its successor if that one was free. -/
theorem free_forward_tiled {h : Heap} {pre post : List Blk} {k : Blk}
    (ht : h.Tiled (pre ++ k :: post)) :
    ∃ km postm, km.off = k.off ∧ km.free = true ∧
      (memory_free_forward k.off h).Tiled (pre ++ km :: postm) ∧
      ((postm = post ∧ km.size = k.size ∧ ∀ k2 ∈ post.head?, k2.free = false) ∨
       (∃ k2, post = k2 :: postm ∧ k2.free = true ∧
          km.size = k.size + k2.size + sizeof_MemoryBlock)) := by
  obtain ⟨h1, h2, _, h4, h5⟩ := ht.split
  have hS : sizeof_MemoryBlock = 12 := rfl
  have hH : HEAP_SIZE = 32768 := rfl
  have hpre : ∀ (b2 : Nat → MemoryBlock), (∀ y, y ≠ k.off → b2 y = h.blocks y) →
      Seg b2 h.first_block 0 pre (some k.off) k.off := by
    intro b2 hb2
    exact Seg.frame h1 (fun y _ hy => hb2 y (by omega))
  cases post with
  | nil =>
    obtain ⟨hn, he⟩ := h4
    obtain ⟨e1, e2⟩ := memory_free_forward_none k.off h hn
    refine ⟨{ off := k.off, size := k.size, free := true }, [], rfl, rfl, ?_,
      Or.inl ⟨rfl, rfl, by simp⟩⟩
    unfold Heap.Tiled
    rw [e1, e2]
    apply Seg.append.mpr
    refine ⟨some k.off, k.off, hpre _ (fun y hy => Function.update_noteq hy _ _), ?_⟩
    refine ⟨rfl, rfl, by simp [h2], by simp, ?_⟩
    simp only [Function.update_same]
    exact ⟨hn, he⟩
  | cons k2 post2 =>
    obtain ⟨hn, g2, g3, g4, g5⟩ := h4
    have hne : k.off + sizeof_MemoryBlock + k.size ≠ k.off := by rw [hS]; omega
    have hle := Seg.le g5
    by_cases hf : k2.free = true
    · obtain ⟨e1, e2⟩ := memory_free_forward_merge k.off _ h hn hne (by rw [g4]; exact hf)
      refine ⟨{ off := k.off, size := k.size + k2.size + sizeof_MemoryBlock, free := true },
        post2, rfl, rfl, ?_, Or.inr ⟨k2, rfl, hf, rfl⟩⟩
      unfold Heap.Tiled
      rw [e1, e2, h2, g3]
      have c1 : u32 (k2.size + sizeof_MemoryBlock) = k2.size + sizeof_MemoryBlock :=
        u32_of_lt (by rw [hS, hH] at *; omega)
      have c2 : u32 (k.size + (k2.size + sizeof_MemoryBlock))
          = k.size + k2.size + sizeof_MemoryBlock := by
        rw [u32_of_lt (by rw [hS, hH] at *; omega)]; omega
      rw [c1, c2]
      apply Seg.append.mpr
      refine ⟨some k.off, k.off, hpre _ (fun y hy => Function.update_noteq hy _ _), ?_⟩
      refine ⟨rfl, rfl, by simp, by simp, ?_⟩
      simp only [Function.update_same]
      have e : k.off + sizeof_MemoryBlock + (k.size + k2.size + sizeof_MemoryBlock)
          = k.off + sizeof_MemoryBlock + k.size + sizeof_MemoryBlock + k2.size := by omega
      rw [e]
      apply Seg.frame g5
      intro y hy _
      exact Function.update_noteq (by rw [hS] at hy; omega) _ _
    · have hf2 : k2.free = false := by simpa using hf
      obtain ⟨e1, e2⟩ := memory_free_forward_keep k.off _ h hn hne (by rw [g4]; exact hf2)
      refine ⟨{ off := k.off, size := k.size, free := true }, k2 :: post2, rfl, rfl, ?_,
        Or.inl ⟨rfl, rfl, by simpa using hf2⟩⟩
      unfold Heap.Tiled
      rw [e1, e2]
      apply Seg.append.mpr
      refine ⟨some k.off, k.off, hpre _ (fun y hy => Function.update_noteq hy _ _), ?_⟩
      refine ⟨rfl, rfl, by simp [h2], by simp, ?_⟩
      simp only [Function.update_same]
      have seg2 : Seg h.blocks (h.blocks k.off).next (k.off + sizeof_MemoryBlock + k.size)
          (k2 :: post2) none HEAP_SIZE := ⟨hn, g2, g3, g4, g5⟩
      apply Seg.frame seg2
      intro y hy _
      exact Function.update_noteq (by rw [hS] at hy; omega) _ _

/-- From a block at or after `x` on, no block has `x` as its successor: the search for
the previous block runs to the end of the list. -/
theorem find_prev_none (h : Heap) (x : Nat) :
    ∀ (l : List Blk) (fuel : Nat) (p : Option Nat) (a e : Nat),
    Seg h.blocks p a l none e → x ≤ a → l.length ≤ fuel →
    find_prev_loop h x fuel p = some none := by
  intro l
  induction l with
  | nil =>
    intro fuel p a e hs _ _
    obtain ⟨rfl, _⟩ := hs
    cases fuel <;> simp [find_prev_loop]
  | cons k l ih =>
    intro fuel p a e hs hx hf
    obtain ⟨rfl, h2, _, _, h5⟩ := hs
    obtain ⟨f, rfl⟩ : ∃ f, fuel = f + 1 := ⟨fuel - 1, by simp at hf; omega⟩
    have hf2 : l.length ≤ f := by simp at hf; omega
    have hne : (h.blocks a).next ≠ some x := by
      cases l with
      | nil => rw [h5.1]; simp
      | cons k2 l2 =>
        rw [h5.1]
        simp only [ne_eq, Option.some.injEq, sizeof_MemoryBlock]
        omega
    simp only [find_prev_loop, hne, ne_eq, not_false_eq_true, if_true]
    exact ih f _ _ _ h5 (by simp only [sizeof_MemoryBlock]; omega) hf2

/-- The search for the previous block stops at the block whose link is `e`. -/
theorem find_prev_found (h : Heap) (e : Nat) (pb : Blk) :
    ∀ (l : List Blk) (fuel : Nat) (p : Option Nat) (a : Nat),
    Seg h.blocks p a (l ++ [pb]) (some e) e → (l ++ [pb]).length ≤ fuel →
    find_prev_loop h e fuel p = some (some pb.off) := by
  intro l
  induction l with
  | nil =>
    intro fuel p a hs hf
    obtain ⟨rfl, h2, _, _, h5, _⟩ := hs
    obtain ⟨f, rfl⟩ : ∃ f, fuel = f + 1 := ⟨fuel - 1, by simp at hf; omega⟩
    simp [find_prev_loop, h5, h2]
  | cons k l ih =>
    intro fuel p a hs hf
    obtain ⟨rfl, h2, _, _, h5⟩ := hs
    obtain ⟨f, rfl⟩ : ∃ f, fuel = f + 1 := ⟨fuel - 1, by simp at hf; omega⟩
    have hf2 : (l ++ [pb]).length ≤ f := by simp at hf ⊢; omega
    have hle : a + sizeof_MemoryBlock + k.size + sizeof_MemoryBlock * (l ++ [pb]).length ≤ e :=
      Seg.le h5
    have hlen : (l ++ [pb]).length = l.length + 1 := by simp
    rw [hlen] at hle
    have hne : (h.blocks a).next ≠ some e := by
      cases l with
      | nil =>
        rw [h5.1]
        simp only [ne_eq, Option.some.injEq, sizeof_MemoryBlock] at hle ⊢
        omega
      | cons k2 l2 =>
        rw [h5.1]
        simp only [ne_eq, Option.some.injEq, sizeof_MemoryBlock] at hle ⊢
        omega
    simp only [find_prev_loop, hne, ne_eq, not_false_eq_true, if_true]
    exact ih f _ _ h5 hf2

theorem memory_free_backward_merge (x pv : Nat) (h : Heap) (hne : x ≠ pv)
    (hf : (h.blocks pv).is_free = true) :
    (memory_free_backward x pv h).first_block = h.first_block ∧
    (memory_free_backward x pv h).blocks
      = Function.update h.blocks pv
          { size := u32 ((h.blocks pv).size + u32 ((h.blocks x).size + sizeof_MemoryBlock)),
            is_free := true, next := (h.blocks x).next } := by
  simp [memory_free_backward, Heap.set_block, Function.update_noteq hne, hf]

/-- The block list after the second part of `memory_free`: the search for the previous
block ends, and the freed block is absorbed by its predecessor if that one is free. -/
theorem free_backward_tiled {h3 : Heap} {pre postm : List Blk} {km : Blk}
    (ht : h3.Tiled (pre ++ km :: postm)) :
    ∃ h2,
      (match find_prev_loop h3 km.off HEAP_SIZE h3.first_block with
        | none => none
        | some none => some h3
        | some (some prev) => some (memory_free_backward km.off prev h3)) = some h2 ∧
      (((∀ pb ∈ pre.getLast?, pb.free = false) ∧ h2.Tiled (pre ++ km :: postm)) ∨
       (∃ pre2 pb, pre = pre2 ++ [pb] ∧ pb.free = true ∧
          h2.Tiled (pre2 ++ { off := pb.off,
                              size := pb.size + km.size + sizeof_MemoryBlock,
                              free := true } :: postm))) := by
  have hS : sizeof_MemoryBlock = 12 := rfl
  have hH : HEAP_SIZE = 32768 := rfl
  have hlen : (pre ++ km :: postm).length ≤ HEAP_SIZE := by
    have := Seg.le ht
    rw [hS] at this
    omega
  rcases List.eq_nil_or_concat pre with rfl | ⟨pre2, pb, hpre⟩
  · have h0 : km.off = 0 := ht.2.1
    have e : find_prev_loop h3 km.off HEAP_SIZE h3.first_block = some none :=
      find_prev_none h3 km.off _ _ _ _ _ ht (by omega) hlen
    rw [e]
    exact ⟨h3, rfl, Or.inl ⟨by simp, ht⟩⟩
  · rw [List.concat_eq_append] at hpre
    subst hpre
    obtain ⟨h1, g2, g3, g4, g5⟩ := ht.split
    have hlen2 : (pre2 ++ [pb]).length ≤ HEAP_SIZE := by
      simp only [List.length_append, List.length_cons, List.length_singleton,
        List.length_nil] at hlen ⊢
      omega
    have e : find_prev_loop h3 km.off HEAP_SIZE h3.first_block = some (some pb.off) :=
      find_prev_found h3 km.off pb pre2 _ _ _ h1 hlen2
    rw [e]
    obtain ⟨pm, m, a1, a2⟩ := Seg.append.mp h1
    obtain ⟨b1, b2, b3, b4, b5, b6⟩ := a2
    subst b2
    subst b1
    by_cases hf : pb.free = true
    · have hne : km.off ≠ pb.off := by rw [← b6, hS]; omega
      obtain ⟨e1, e2⟩ := memory_free_backward_merge km.off pb.off h3 hne (by rw [b4]; exact hf)
      refine ⟨_, rfl, Or.inr ⟨pre2, pb, rfl, hf, ?_⟩⟩
      unfold Heap.Tiled
      rw [e1, e2, b3, g2]
      have c1 : u32 (km.size + sizeof_MemoryBlock) = km.size + sizeof_MemoryBlock :=
        u32_of_lt (by rw [hS, hH] at *; omega)
      have c2 : u32 (pb.size + (km.size + sizeof_MemoryBlock))
          = pb.size + km.size + sizeof_MemoryBlock := by
        rw [u32_of_lt (by rw [hS, hH] at *; omega)]; omega
      rw [c1, c2]
      apply Seg.append.mpr
      refine ⟨some pb.off, pb.off, ?_, ?_⟩
      · apply Seg.frame a1
        intro y _ hy
        exact Function.update_noteq (by omega) _ _
      · refine ⟨rfl, rfl, by simp, by simp, ?_⟩
        simp only [Function.update_same]
        have e3 : pb.off + sizeof_MemoryBlock + (pb.size + km.size + sizeof_MemoryBlock)
            = km.off + sizeof_MemoryBlock + km.size := by rw [← b6]; omega
        rw [e3]
        apply Seg.frame g4
        intro y hy _
        exact Function.update_noteq (by rw [← b6, hS] at hy; omega) _ _
    · have hf2 : pb.free = false := by simpa using hf
      have e4 : memory_free_backward km.off pb.off h3 = h3 := by
        simp [memory_free_backward, b4, hf2]
      exact ⟨h3, by simp only [e4], Or.inl ⟨by simp [hf2], ht⟩⟩

/-! ### Rounding of the request size -/

/-- Clearing the two low bits of a 32-bit value rounds it down to a multiple of 4. -/
theorem land_mask (x : Nat) (hx : x < 2 ^ 32) : x &&& 0xFFFFFFFC = x / 4 * 4 := by
  apply Nat.eq_of_testBit_eq
  intro i
  have hc : (0xFFFFFFFC : Nat) = (2 ^ 30 - 1) <<< 2 := by decide
  have hr : x / 4 * 4 = (x >>> 2) <<< 2 := by
    rw [Nat.shiftLeft_eq, Nat.shiftRight_eq_div_pow]
  rw [Nat.testBit_and, hc, hr, Nat.testBit_shiftLeft, Nat.testBit_shiftLeft,
    Nat.testBit_shiftRight, Nat.testBit_two_pow_sub_one]
  by_cases h2 : 2 ≤ i
  · have e : 2 + (i - 2) = i := by omega
    rw [e]
    by_cases h32 : i < 32
    · have : i - 2 < 30 := by omega
      simp [h2, this]
    · have hlt : x < 2 ^ i := lt_of_lt_of_le hx (Nat.pow_le_pow_right (by decide) (by omega))
      rw [Nat.testBit_lt_two_pow hlt]
      simp
  · simp [h2]

theorem align4_eq (n : Nat) : align4 n = u32 (n + 3) / 4 * 4 :=
  land_mask _ (Nat.mod_lt _ (by decide))

theorem align4_dvd (n : Nat) : 4 ∣ align4 n := by
  rw [align4_eq]
  exact Dvd.intro_left _ rfl

/-- Without wrap-around the rounded size is the request rounded up to a multiple of 4. -/
theorem align4_ge {n : Nat} (hn : n + 3 < 2 ^ 32) : n ≤ align4 n ∧ align4 n < n + 4 := by
  rw [align4_eq, u32_of_lt hn]
  omega

/-! ### The blocks in use -/

theorem mem_used_ptrs {l : List Blk} {p : Nat} :
    p ∈ used_ptrs l ↔ ∃ k ∈ l, k.free = false ∧ p = k.off + sizeof_MemoryBlock := by
  unfold used_ptrs
  simp only [List.mem_map, List.mem_filter, Bool.not_eq_eq_eq_not, Bool.not_true]
  constructor
  · rintro ⟨k, ⟨hk, hf⟩, rfl⟩; exact ⟨k, hk, hf, rfl⟩
  · rintro ⟨k, hk, hf, rfl⟩; exact ⟨k, ⟨hk, hf⟩, rfl⟩

theorem used_ptrs_append (l1 l2 : List Blk) :
    used_ptrs (l1 ++ l2) = used_ptrs l1 ++ used_ptrs l2 := by
  simp [used_ptrs]

theorem used_ptrs_cons_free {k : Blk} (l : List Blk) (hk : k.free = true) :
    used_ptrs (k :: l) = used_ptrs l := by
  simp [used_ptrs, hk]

theorem used_ptrs_cons_used {k : Blk} (l : List Blk) (hk : k.free = false) :
    used_ptrs (k :: l) = (k.off + sizeof_MemoryBlock) :: used_ptrs l := by
  simp [used_ptrs, hk]

/-- In a tiled heap the blocks before a block lie below it and those after it above it, so
the pointer of the block is not the pointer of any other block. -/
theorem Heap.Tiled.ptr_not_mem {h : Heap} {pre post : List Blk} {k : Blk}
    (ht : h.Tiled (pre ++ k :: post)) :
    k.off + sizeof_MemoryBlock ∉ used_ptrs pre ∧ k.off + sizeof_MemoryBlock ∉ used_ptrs post := by
  obtain ⟨h1, _, _, h4, _⟩ := ht.split
  constructor
  · intro hm
    obtain ⟨j, hj, _, e⟩ := mem_used_ptrs.mp hm
    have := (Seg.mem_bounds h1 j hj).2.1
    simp only [sizeof_MemoryBlock] at *
    omega
  · intro hm
    obtain ⟨j, hj, _, e⟩ := mem_used_ptrs.mp hm
    have := (Seg.mem_bounds h4 j hj).1
    simp only [sizeof_MemoryBlock] at *
    omega

/-- What `memory_alloc` does on a tiled heap: it returns `NULL` and leaves the heap as it
is when no free block is large enough, and otherwise takes the first of the smallest free
blocks that are large enough. -/
theorem memory_alloc_cases {h : Heap} {l : List Blk} (ht : h.Tiled l) (n : Nat) :
    (memory_alloc n h = some (none, h) ∧
      ∀ k ∈ l, k.free = true → ¬ align4 n ≤ k.size) ∨
    (∃ pre k post, l = pre ++ k :: post ∧
      memory_alloc n h = some (memory_alloc_take (align4 n) k.off h) ∧
      k.free = true ∧ align4 n ≤ k.size ∧
      (∀ j ∈ pre, j.free = true → align4 n ≤ j.size → k.size < j.size) ∧
      (∀ j ∈ post, j.free = true → align4 n ≤ j.size → k.size ≤ j.size)) := by
  have hS : sizeof_MemoryBlock = 12 := rfl
  have hlen : l.length ≤ HEAP_SIZE := by
    have := Seg.le ht
    rw [hS] at this
    omega
  have hloop := best_fit_loop_eq h (align4 n) l HEAP_SIZE _ _ _ none HEAP_SIZE ht hlen
  rcases best_fit_list_spec (align4 n) l none HEAP_SIZE with
    ⟨h1, h2⟩ | ⟨pre, k, post, h1, h2, h3, h4, _, h6, h7⟩
  · left
    refine ⟨by simp only [memory_alloc, hloop, h1], ?_⟩
    intro k hk hf hs
    have := h2 k hk hf hs
    have := (Seg.mem_bounds ht k hk).2.1
    rw [hS] at this
    omega
  · right
    exact ⟨pre, k, post, h1, by simp only [memory_alloc, hloop, h2], h3, h4, h6, h7⟩

/-! ### The invariant is kept -/

theorem memory_init_inv : HeapInv (memory_init Heap.boot) []
    [{ off := 0, size := HEAP_SIZE - sizeof_MemoryBlock, free := true }] := by
  refine ⟨?_, ?_, ?_, ?_, List.nodup_nil⟩
  · refine ⟨rfl, rfl, ?_, ?_, ?_, ?_⟩ <;>
      simp [memory_init, Heap.set_block, HEAP_SIZE, sizeof_MemoryBlock]
  · intro k hk
    simp only [List.mem_singleton] at hk
    subst hk
    decide
  · simp [NoAdjFree]
  · intro p
    simp [used_ptrs]

/-- A successful `memory_alloc` keeps the invariant, with the returned pointer added to
the allocated pointers. -/
theorem alloc_inv {h : Heap} {L : List Nat} {l : List Blk} (hi : HeapInv h L l)
    {n p : Nat} {h2 : Heap} (ha : memory_alloc n h = some (some p, h2)) :
    ∃ l2, HeapInv h2 (p :: L) l2 := by
  obtain ⟨ht, hd, hc, hu, hn⟩ := hi
  have hS : sizeof_MemoryBlock = 12 := rfl
  rcases memory_alloc_cases ht n with ⟨h1, _⟩ | ⟨pre, k, post, rfl, h1, hkf, hks, _, _⟩
  · rw [h1] at ha
    simp at ha
  · rw [h1] at ha
    have hp : p = k.off + sizeof_MemoryBlock := by
      have := congrArg (fun r => r.map (fun q => q.1)) ha
      simp only [Option.map_some', Option.some.injEq] at this
      exact (Option.some.inj this).symm
    have hh : h2 = (memory_alloc_take (align4 n) k.off h).2 := by
      have := congrArg (fun r => r.map (fun q => q.2)) ha
      simp only [Option.map_some', Option.some.injEq] at this
      exact this.symm
    obtain ⟨hnp, hnq⟩ := ht.ptr_not_mem
    have hflags : List.Chain' (fun x y : Bool => ¬ (x = true ∧ y = true))
        (pre.map (fun k => k.free) ++ true :: post.map (fun k => k.free)) := by
      have := hc
      simp only [NoAdjFree, List.map_append, List.map_cons, hkf] at this
      exact this
    have hA := hflags.left_of_append
    have hB := hflags.right_of_append
    have hpL : p ∉ L := by
      rw [hu, used_ptrs_append, used_ptrs_cons_free _ hkf, hp, List.mem_append]
      exact fun hm => hm.elim hnp hnq
    have hdk : 4 ∣ k.size := hd k (by simp)
    have hdr := align4_dvd n
    subst hh
    by_cases hsp : align4 n + 20 ≤ k.size
    · refine ⟨_, alloc_tiled_split ht (align4 n) hsp, ?_, ?_, ?_, List.nodup_cons.mpr ⟨hpL, hn⟩⟩
      · intro j hj
        simp only [List.mem_append, List.mem_cons] at hj
        rcases hj with hj | rfl | rfl | hj
        · exact hd j (by simp [hj])
        · exact hdr
        · simp only [hS]; omega
        · exact hd j (by simp [hj])
      · simp only [NoAdjFree, List.map_append, List.map_cons]
        exact flags_insert_false hA hB
      · intro q
        rw [List.mem_cons, hu, used_ptrs_append, used_ptrs_append,
          used_ptrs_cons_free _ hkf, used_ptrs_cons_used _ rfl, used_ptrs_cons_free _ rfl, hp]
        simp only [List.mem_append, List.mem_cons]
        tauto
    · refine ⟨_, alloc_tiled_whole ht (align4 n) hks hsp, ?_, ?_, ?_,
        List.nodup_cons.mpr ⟨hpL, hn⟩⟩
      · intro j hj
        simp only [List.mem_append, List.mem_cons] at hj
        rcases hj with hj | rfl | hj
        · exact hd j (by simp [hj])
        · exact hdk
        · exact hd j (by simp [hj])
      · simp only [NoAdjFree, List.map_append, List.map_cons]
        exact flags_insert_false hA hB.tail
      · intro q
        rw [List.mem_cons, hu, used_ptrs_append, used_ptrs_append,
          used_ptrs_cons_free _ hkf, used_ptrs_cons_used _ rfl, hp]
        simp only [List.mem_append, List.mem_cons]
        tauto

theorem memory_free_null (h : Heap) : memory_free none h = some h := rfl

theorem memory_free_some (x : Nat) (h : Heap) :
    memory_free (some (x + sizeof_MemoryBlock)) h =
      (match find_prev_loop (memory_free_forward x h) x HEAP_SIZE
          (memory_free_forward x h).first_block with
        | none => none
        | some none => some (memory_free_forward x h)
        | some (some prev) => some (memory_free_backward x prev (memory_free_forward x h))) := by
  unfold memory_free
  simp only [Nat.add_sub_cancel]

/-- The call `memory_free(p)` on an allocated pointer returns and keeps the invariant,
with `p` removed from the allocated pointers. -/
theorem free_inv {h : Heap} {L : List Nat} {l : List Blk} (hi : HeapInv h L l)
    {p : Nat} (hp : p ∈ L) :
    ∃ h2 l2, memory_free (some p) h = some h2 ∧ HeapInv h2 (L.erase p) l2 := by
  obtain ⟨ht, hd, hc, hu, hn⟩ := hi
  have hS : sizeof_MemoryBlock = 12 := rfl
  obtain ⟨k, hk, hkf, rfl⟩ := mem_used_ptrs.mp ((hu p).mp hp)
  obtain ⟨pre, post, rfl⟩ := List.append_of_mem hk
  obtain ⟨hnp, hnq⟩ := ht.ptr_not_mem
  have hflags : List.Chain' (fun x y : Bool => ¬ (x = true ∧ y = true))
      (pre.map (fun k => k.free) ++ false :: post.map (fun k => k.free)) := by
    have := hc
    simp only [NoAdjFree, List.map_append, List.map_cons, hkf] at this
    exact this
  have hA := hflags.left_of_append
  have hB := hflags.right_of_append.tail
  have hdk : 4 ∣ k.size := hd k (by simp)
  obtain ⟨km, postm, hko, hkmf, htm, hrel⟩ := free_forward_tiled ht
  -- what the first part has done to the blocks after the freed one
  have hAfacts : used_ptrs postm = used_ptrs post ∧ 4 ∣ km.size ∧ (∀ j ∈ postm, 4 ∣ j.size) ∧
      List.Chain' (fun x y : Bool => ¬ (x = true ∧ y = true))
        (true :: postm.map (fun k => k.free)) := by
    rcases hrel with ⟨rfl, hsz, hhead⟩ | ⟨k2, rfl, hk2f, hsz⟩
    · refine ⟨rfl, by rw [hsz]; exact hdk, fun j hj => hd j (by simp [hj]), ?_⟩
      rw [List.chain'_cons']
      refine ⟨?_, hB⟩
      intro y hy
      rw [List.head?_map] at hy
      obtain ⟨k2, hk2, rfl⟩ := Option.mem_map.mp hy
      simp [hhead k2 hk2]
    · have hdk2 : 4 ∣ k2.size := hd k2 (by simp)
      refine ⟨(used_ptrs_cons_free _ hk2f).symm, by rw [hsz, hS]; omega,
        fun j hj => hd j (by simp [hj]), ?_⟩
      simpa only [List.map_cons, hk2f] using hB
  obtain ⟨huA, hdm, hdpm, hcm⟩ := hAfacts
  rw [← hko] at htm
  obtain ⟨h2, he, hfin⟩ := free_backward_tiled htm
  have hfree : memory_free (some (k.off + sizeof_MemoryBlock)) h = some h2 := by
    rw [← hko, memory_free_some]
    exact he
  have hmemL : ∀ q, q ∈ L.erase (k.off + sizeof_MemoryBlock)
      ↔ q ∈ used_ptrs pre ++ used_ptrs postm := by
    intro q
    rw [hn.mem_erase_iff, hu, used_ptrs_append, used_ptrs_cons_used _ hkf, huA]
    simp only [List.mem_append, List.mem_cons]
    constructor
    · rintro ⟨hne, h1 | h1 | h1⟩
      · exact Or.inl h1
      · exact absurd h1 hne
      · exact Or.inr h1
    · rintro (h1 | h1)
      · exact ⟨fun e => hnp (e ▸ h1), Or.inl h1⟩
      · exact ⟨fun e => hnq (e ▸ h1), Or.inr (Or.inr h1)⟩
  refine ⟨h2, ?_⟩
  rcases hfin with ⟨hlast, htf⟩ | ⟨pre2, pb, rfl, hpbf, htf⟩
  · refine ⟨_, hfree, htf, ?_, ?_, ?_, hn.erase _⟩
    · intro j hj
      simp only [List.mem_append, List.mem_cons] at hj
      rcases hj with hj | rfl | hj
      · exact hd j (by simp [hj])
      · exact hdm
      · exact hdpm j hj
    · simp only [NoAdjFree, List.map_append, List.map_cons, hkmf]
      apply flags_join_true hA hcm
      intro a ha
      rw [List.getLast?_map] at ha
      obtain ⟨pb, hpb, rfl⟩ := Option.mem_map.mp ha
      exact hlast pb hpb
    · intro q
      rw [hmemL q, used_ptrs_append, used_ptrs_cons_free _ hkmf]
  · have hdpb : 4 ∣ pb.size := hd pb (by simp)
    refine ⟨_, hfree, htf, ?_, ?_, ?_, hn.erase _⟩
    · intro j hj
      simp only [List.mem_append, List.mem_cons] at hj
      rcases hj with hj | rfl | hj
      · exact hd j (by simp [hj])
      · simp only [hS]; omega
      · exact hdpm j hj
    · simp only [NoAdjFree, List.map_append, List.map_cons]
      apply List.chain'_split.mpr
      refine ⟨?_, hcm⟩
      simpa only [List.map_append, List.map_cons, List.map_nil, hpbf] using hA
    · intro q
      have e1 : used_ptrs (pre2 ++ [pb]) = used_ptrs pre2 := by
        rw [used_ptrs_append, used_ptrs_cons_free _ hpbf]
        simp [used_ptrs]
      rw [hmemL q, e1, used_ptrs_append, used_ptrs_cons_free _ rfl]

/-- Every reachable heap state satisfies the invariant for some list of blocks. -/
theorem reach_inv {h : Heap} {L : List Nat} (hr : Reach h L) : ∃ l, HeapInv h L l := by
  induction hr with
  | init => exact ⟨_, memory_init_inv⟩
  | alloc_ok n p h2 _ ha ih =>
    obtain ⟨l, hi⟩ := ih
    exact alloc_inv hi ha
  | alloc_null n h2 _ ha ih =>
    obtain ⟨l, hi⟩ := ih
    rcases memory_alloc_cases hi.1 n with ⟨h1, _⟩ | ⟨pre, k, post, _, h1, _⟩
    · rw [h1] at ha
      simp only [Option.some.injEq, Prod.mk.injEq, true_and] at ha
      subst ha
      exact ⟨l, hi⟩
    · rw [h1] at ha
      have := congrArg (fun r => r.map (fun q => q.1)) ha
      simp [memory_alloc_take] at this
  | free_null h2 _ hf ih =>
    rw [memory_free_null, Option.some.injEq] at hf
    subst hf
    exact ih
  | free_live p h2 _ hp hf ih =>
    obtain ⟨l, hi⟩ := ih
    obtain ⟨h3, l2, e, hi2⟩ := free_inv hi hp
    rw [e] at hf
    simp only [Option.some.injEq] at hf
    subst hf
    exact ⟨l2, hi2⟩

/-! ### Properties of the allocator -/

/-- In a tiled heap with payload sizes that are multiples of 4, every header offset is a
multiple of 4. -/
theorem Seg.off_dvd {b : Nat → MemoryBlock} : ∀ {l : List Blk} {p : Option Nat} {a : Nat}
    {q : Option Nat} {e : Nat}, Seg b p a l q e → 4 ∣ a → (∀ k ∈ l, 4 ∣ k.size) →
    ∀ k ∈ l, 4 ∣ k.off := by
  intro l
  induction l with
  | nil => intro p a q e _ _ _ k hk; simp at hk
  | cons k0 l ih =>
    intro p a q e hs ha hd k hk
    obtain ⟨_, h2, _, _, h5⟩ := hs
    rcases List.mem_cons.mp hk with rfl | hk
    · rw [h2]; exact ha
    · have hd0 : 4 ∣ k0.size := hd k0 (by simp)
      exact ih h5 (by simp only [sizeof_MemoryBlock]; omega) (fun j hj => hd j (by simp [hj])) k hk

/-- The postcondition of `memory_alloc` for requests whose rounding does not wrap. In
every reachable heap state and for every `n` with `n + 3 < 2^32`: a non-null result is a
multiple of 4, and the header below it is in use and records a payload size that is a
multiple of 4 and at least `n`. -/
theorem memory_alloc_post {h : Heap} {L : List Nat} (hr : Reach h L) {n : Nat}
    (hn : n + 3 < 2 ^ 32) {p : Nat} {h2 : Heap} (ha : memory_alloc n h = some (some p, h2)) :
    4 ∣ p ∧ sizeof_MemoryBlock ≤ p ∧
    (h2.blocks (p - sizeof_MemoryBlock)).is_free = false ∧
    4 ∣ (h2.blocks (p - sizeof_MemoryBlock)).size ∧
    n ≤ (h2.blocks (p - sizeof_MemoryBlock)).size := by
  obtain ⟨l, ht, hd, _, _, _⟩ := reach_inv hr
  have hS : sizeof_MemoryBlock = 12 := rfl
  rcases memory_alloc_cases ht n with ⟨h1, _⟩ | ⟨pre, k, post, rfl, h1, hkf, hks, _, _⟩
  · rw [h1] at ha
    simp at ha
  · rw [h1] at ha
    have hp : p = k.off + sizeof_MemoryBlock := by
      have := congrArg (fun r => r.map (fun q => q.1)) ha
      simp only [Option.map_some', Option.some.injEq] at this
      exact (Option.some.inj this).symm
    have hh : h2 = (memory_alloc_take (align4 n) k.off h).2 := by
      have := congrArg (fun r => r.map (fun q => q.2)) ha
      simp only [Option.map_some', Option.some.injEq] at this
      exact this.symm
    have hoff : 4 ∣ k.off := Seg.off_dvd ht (by decide) hd k (by simp)
    have hdk : 4 ∣ k.size := hd k (by simp)
    have hge := (align4_ge hn).1
    have hdr := align4_dvd n
    subst hp
    subst hh
    rw [Nat.add_sub_cancel]
    refine ⟨by rw [hS]; omega, by omega, ?_⟩
    by_cases hsp : align4 n + 20 ≤ k.size
    · have hm := Seg.mem_bounds (alloc_tiled_split ht (align4 n) hsp)
        { off := k.off, size := align4 n, free := false } (by simp)
      simp only at hm
      rw [hm.2.2.1, hm.2.2.2]
      exact ⟨rfl, hdr, hge⟩
    · have hm := Seg.mem_bounds (alloc_tiled_whole ht (align4 n) hks hsp)
        { off := k.off, size := k.size, free := false } (by simp)
      simp only at hm
      rw [hm.2.2.1, hm.2.2.2]
      exact ⟨rfl, hdk, by omega⟩

/-- C6. On a fresh heap `memory_alloc(4294967295)` returns the non-null pointer
`heap + 12`, and the header below it is in use and records the payload size 0, which is
not at least 4294967295: the rounding `(size + 3) & ~3` wraps around to 0. -/
theorem memory_alloc_size_wraps :
    align4 4294967295 = 0 ∧
    (memory_alloc 4294967295 (memory_init Heap.boot)).map
        (fun r => (r.1, (r.2.blocks 0).size, (r.2.blocks 0).is_free))
      = some (some 12, 0, false) ∧
    ¬ (4294967295
        ≤ ((Heap.after_alloc 4294967295 (memory_init Heap.boot)).blocks 0).size) := by
  refine ⟨by decide, by decide, by decide⟩

/-- The block list of a tiled heap, and the headers of its blocks. -/
theorem Heap.Tiled.block_list_eq {h : Heap} {l : List Blk} (ht : h.Tiled l) :
    h.block_list = l.map (fun k => k.off) := by
  have hS : sizeof_MemoryBlock = 12 := rfl
  have hlen : l.length ≤ HEAP_SIZE := by
    have := Seg.le ht
    rw [hS] at this
    omega
  exact walk_eq h l HEAP_SIZE _ _ _ ht hlen

/-- Best fit and failure, in terms of the value `align4 n = (n + 3) & ~3` that
`memory_alloc` computes in `size_t`. That value is the request rounded up to a multiple of
4 whenever `n + 3 < 2^32`; for the three largest requests it wraps to 0 and is not the
rounded size of `n`. In every heap state reachable from `memory_init` and for every
request `n`: `memory_alloc(n)` returns; it returns `NULL` if and only if no free block of
the block list has a payload size of at least `align4 n`, and then the heap is unchanged;
otherwise the block it hands out is a block of the list that is free before the call, has
a payload of at least `align4 n`, has the smallest payload among the free blocks with a
payload of at least `align4 n`, and is the first in address order among those of that
payload. -/
theorem memory_alloc_best_fit (h : Heap) (L : List Nat) (hr : Reach h L) (n : Nat) :
    (n + 3 < 2 ^ 32 → n ≤ align4 n ∧ align4 n < n + 4 ∧ 4 ∣ align4 n) ∧
    ∃ p h2, memory_alloc n h = some (p, h2) ∧
      (p = none ↔ ∀ a ∈ h.block_list,
        ¬ ((h.blocks a).is_free = true ∧ align4 n ≤ (h.blocks a).size)) ∧
      (p = none → h2 = h) ∧
      (∀ q, p = some q → ∃ x ∈ h.block_list, q = x + sizeof_MemoryBlock ∧
        (h.blocks x).is_free = true ∧ align4 n ≤ (h.blocks x).size ∧
        ∀ a ∈ h.block_list, (h.blocks a).is_free = true → align4 n ≤ (h.blocks a).size →
          (h.blocks x).size ≤ (h.blocks a).size ∧
          ((h.blocks a).size = (h.blocks x).size → x ≤ a)) := by
  refine ⟨fun hn => ⟨(align4_ge hn).1, (align4_ge hn).2, align4_dvd n⟩, ?_⟩
  obtain ⟨l, ht, _, _, _, _⟩ := reach_inv hr
  have hbl := ht.block_list_eq
  have hS : sizeof_MemoryBlock = 12 := rfl
  rcases memory_alloc_cases ht n with ⟨h1, h2⟩ | ⟨pre, k, post, rfl, h1, hkf, hks, h6, h7⟩
  · refine ⟨none, h, h1, ?_, fun _ => rfl, fun q hq => by simp at hq⟩
    refine ⟨fun _ => ?_, fun _ => rfl⟩
    intro a ha
    rw [hbl] at ha
    obtain ⟨j, hj, rfl⟩ := List.mem_map.mp ha
    obtain ⟨_, _, e1, e2⟩ := Seg.mem_bounds ht j hj
    rw [e1, e2]
    rintro ⟨hf, hs⟩
    exact h2 j hj hf hs
  · obtain ⟨s1, s2, s3, s4, _⟩ := ht.split
    have hkm : k.off ∈ h.block_list := by rw [hbl]; exact List.mem_map.mpr ⟨k, by simp, rfl⟩
    refine ⟨some (k.off + sizeof_MemoryBlock), (memory_alloc_take (align4 n) k.off h).2, h1,
      ?_, fun hp => by simp at hp, ?_⟩
    · refine ⟨fun hp => by simp at hp, fun hall => ?_⟩
      exact absurd ⟨by rw [s3]; exact hkf, by rw [s2]; exact hks⟩ (hall k.off hkm)
    · intro q hq
      simp only [Option.some.injEq] at hq
      refine ⟨k.off, hkm, hq.symm, by rw [s3]; exact hkf, by rw [s2]; exact hks, ?_⟩
      intro a ha haf has
      rw [hbl] at ha
      obtain ⟨j, hj, rfl⟩ := List.mem_map.mp ha
      obtain ⟨_, _, e1, e2⟩ := Seg.mem_bounds ht j hj
      rw [e1] at has ⊢
      rw [e2] at haf
      rw [s2]
      simp only [List.mem_append, List.mem_cons] at hj
      rcases hj with hj | rfl | hj
      · have := h6 j hj haf has
        exact ⟨by omega, fun e => by omega⟩
      · exact ⟨Nat.le_refl _, fun _ => Nat.le_refl _⟩
      · have := h7 j hj haf has
        have hb := (Seg.mem_bounds s4 j hj).1
        exact ⟨this, fun _ => by omega⟩

/-- An instance of `memory_alloc_best_fit`: `memory_alloc(64)` on the fresh heap. -/
theorem memory_alloc_best_fit_witness :
    Reach (memory_init Heap.boot) [] ∧
    ∃ p h2, memory_alloc 64 (memory_init Heap.boot) = some (p, h2) ∧
      (p = none ↔ ∀ a ∈ (memory_init Heap.boot).block_list,
        ¬ (((memory_init Heap.boot).blocks a).is_free = true ∧
            align4 64 ≤ ((memory_init Heap.boot).blocks a).size)) :=
  ⟨Reach.init,
    match (memory_alloc_best_fit (memory_init Heap.boot) [] Reach.init 64).2 with
    | ⟨p, h2, e, hiff, _, _⟩ => ⟨p, h2, e, hiff⟩⟩

/-- C7. Best fit and failure do not hold for the largest requests. On the fresh heap the
block list is the single free block at offset 0, with a payload of 32756 bytes, so no
free block has a payload of at least 4294967295 bytes, let alone of the rounded size
`2^32` of that request; yet `memory_alloc(4294967295)` does not return `NULL`: it returns
`heap + 12`, and the heap is changed (the block at offset 0 is no longer free). -/
theorem memory_alloc_wrapped_request_not_null :
    (memory_init Heap.boot).block_list = [0] ∧
    ((memory_init Heap.boot).blocks 0).size = 32756 ∧
    (∀ a ∈ (memory_init Heap.boot).block_list,
      ¬ (((memory_init Heap.boot).blocks a).is_free = true ∧
          4294967295 ≤ ((memory_init Heap.boot).blocks a).size)) ∧
    (memory_alloc 4294967295 (memory_init Heap.boot)).map (fun r => r.1) = some (some 12) ∧
    ((memory_init Heap.boot).blocks 0).is_free = true ∧
    (memory_alloc 4294967295 (memory_init Heap.boot)).map (fun r => (r.2.blocks 0).is_free)
      = some false := by
  refine ⟨by decide, by decide, by decide, by decide, by decide, by decide⟩

theorem free_size_loop_null (h : Heap) (fuel acc : Nat) :
    free_size_loop h fuel none acc = some acc := by
  cases fuel <;> rfl

/-- C8. Free coalesces completely. In every heap state that is reached from a fresh heap
by calls of `memory_alloc` and `memory_free` and in which no pointer is allocated any
more (every pointer returned has been freed, once), the block list is the single block at
offset 0, that block is free with payload `HEAP_SIZE - sizeof(MemoryBlock)` and a null
link, and `memory_get_free_size` returns that payload. -/
theorem memory_free_coalesces (h : Heap) (hr : Reach h []) :
    h.first_block = some 0 ∧ h.block_list = [0] ∧
    h.blocks 0 = { size := HEAP_SIZE - sizeof_MemoryBlock, is_free := true, next := none } ∧
    memory_get_free_size h = some (HEAP_SIZE - sizeof_MemoryBlock) := by
  obtain ⟨l, ht, _, hc, hu, _⟩ := reach_inv hr
  have hS : sizeof_MemoryBlock = 12 := rfl
  have hH : HEAP_SIZE = 32767 + 1 := rfl
  have hfree : ∀ k ∈ l, k.free = true := by
    intro k hk
    by_contra hf
    have hf2 : k.free = false := by simpa using hf
    have hm : k.off + sizeof_MemoryBlock ∈ used_ptrs l := mem_used_ptrs.mpr ⟨k, hk, hf2, rfl⟩
    exact absurd ((hu _).mpr hm) (by simp)
  have hbl := ht.block_list_eq
  cases l with
  | nil =>
    have := ht.2
    rw [hH] at this
    omega
  | cons k l2 =>
    cases l2 with
    | cons k2 l3 =>
      have hk := hfree k (by simp)
      have hk2 := hfree k2 (by simp)
      simp only [NoAdjFree, List.map_cons, hk, hk2] at hc
      have := List.chain'_cons.mp hc
      simp at this
    | nil =>
      obtain ⟨h1, h2, h3, h4, h5, h6⟩ := ht
      have hk := hfree k (by simp)
      have hsz : (h.blocks 0).size = HEAP_SIZE - sizeof_MemoryBlock := by
        rw [h3]; rw [hS] at h6 ⊢; omega
      have hb0 : h.blocks 0
          = { size := HEAP_SIZE - sizeof_MemoryBlock, is_free := true, next := none } := by
        cases hb : h.blocks 0 with
        | mk sz fr nx =>
          rw [hb] at hsz h4 h5
          simp only at hsz h4 h5
          rw [hsz, h4, hk, h5]
      refine ⟨h1, by rw [hbl]; simp [h2], hb0, ?_⟩
      have hstep : memory_get_free_size h = free_size_loop h (32767 + 1) h.first_block 0 := rfl
      rw [hstep, h1]
      simp only [free_size_loop, hb0, if_true, free_size_loop_null]
      rw [Nat.zero_add, u32_of_lt (by decide)]

/-- C8, the instance of the spec: on a fresh heap, `p1 = alloc(64); p2 = alloc(64);
free(p1); free(p2);` with `p1 = heap + 12` and `p2 = heap + 88`. -/
theorem memory_free_coalesces_witness :
    Reach heap_split_coalesce [] ∧
    heap_split_coalesce.block_list = [0] ∧
    heap_split_coalesce.blocks 0
      = { size := HEAP_SIZE - sizeof_MemoryBlock, is_free := true, next := none } ∧
    memory_get_free_size heap_split_coalesce = some (HEAP_SIZE - sizeof_MemoryBlock) :=
  have r1 : Reach (Heap.after_alloc 64 (memory_init Heap.boot)) [12] :=
    Reach.alloc_ok 64 12 _ Reach.init rfl
  have r2 : Reach (Heap.after_alloc 64 (Heap.after_alloc 64 (memory_init Heap.boot))) [88, 12] :=
    Reach.alloc_ok 64 88 _ r1 rfl
  have r3 : Reach (Heap.after_free (some 12)
      (Heap.after_alloc 64 (Heap.after_alloc 64 (memory_init Heap.boot)))) [88] :=
    Reach.free_live 12 _ r2 (by decide) rfl
  have r4 : Reach heap_split_coalesce [] := Reach.free_live 88 _ r3 (by decide) rfl
  ⟨r4, (memory_free_coalesces heap_split_coalesce r4).2.1,
    (memory_free_coalesces heap_split_coalesce r4).2.2.1,
    (memory_free_coalesces heap_split_coalesce r4).2.2.2⟩

/-! ## Creation of a queue -/

/-- In a reachable heap state `memory_alloc` returns. -/
theorem memory_alloc_returns {h : Heap} {L : List Nat} (hr : Reach h L) (n : Nat) :
    (memory_alloc n h = some (none, h)) ∨
    (∃ p h2, memory_alloc n h = some (some p, h2)) := by
  obtain ⟨l, ht, _⟩ := reach_inv hr
  rcases memory_alloc_cases ht n with ⟨h1, _⟩ | ⟨pre, k, post, _, h1, _⟩
  · exact Or.inl h1
  · exact Or.inr ⟨k.off + sizeof_MemoryBlock, (memory_alloc_take (align4 n) k.off h).2, h1⟩

/-- The function `queue_create` when the size of the payload does not wrap. In every
reachable heap state, for `item_size * queue_length + 3 < 2^32`: if `queue_create` returns
`QUEUE_OK`, the block of the payload buffer is in use and holds at least `item_size *
queue_length` bytes, and the queue is created empty with `head = tail = 0`, no waiters and
both counters 0. -/
theorem queue_create_post {h : Heap} {L : List Nat} (hr : Reach h L)
    (item_size queue_length : Nat) (hprod : item_size * queue_length + 3 < 2 ^ 32)
    (raw : Queue) (out : Option Nat) {c : Option (Nat × Queue)} {h2 : Heap}
    (hc : queue_create (some out) item_size queue_length raw h
      = some (QueueStatus.QUEUE_OK, c, h2)) :
    ∃ new_queue q buffer, c = some (new_queue, q) ∧ q.buffer_ptr = some buffer ∧
      (h2.blocks (buffer - sizeof_MemoryBlock)).is_free = false ∧
      item_size * queue_length ≤ (h2.blocks (buffer - sizeof_MemoryBlock)).size ∧
      q.item_size = item_size ∧ q.queue_length = queue_length ∧
      q.items_count = 0 ∧ q.head = 0 ∧ q.tail = 0 ∧
      q.waiting_count_send = 0 ∧ q.waiting_count_recv = 0 ∧
      q.overflow_count = 0 ∧ q.underflow_count = 0 := by
  unfold queue_create at hc
  split at hc
  · simp at hc
  · rcases memory_alloc_returns hr sizeof_Queue with e1 | ⟨p1, h1, e1⟩
    · rw [e1] at hc
      simp at hc
    · rw [e1] at hc
      simp only at hc
      have hr1 : Reach h1 (p1 :: L) := Reach.alloc_ok _ _ _ hr e1
      rcases memory_alloc_returns hr1 (u32 (item_size * queue_length)) with e2 | ⟨p2, h3, e2⟩
      · rw [e2] at hc
        simp only at hc
        cases hf : memory_free (some p1) h1 with
        | none => rw [hf] at hc; simp at hc
        | some h4 => rw [hf] at hc; simp at hc
      · rw [e2] at hc
        simp only [Option.some.injEq, Prod.mk.injEq, true_and] at hc
        obtain ⟨hc1, hc2⟩ := hc
        subst hc2
        have hu : u32 (item_size * queue_length) = item_size * queue_length :=
          u32_of_lt (by omega)
        rw [hu] at e2
        obtain ⟨_, _, g3, _, g5⟩ := memory_alloc_post hr1 hprod e2
        exact ⟨p1, _, p2, hc1.symm, rfl, g3, g5, rfl, rfl, rfl, rfl, rfl, rfl, rfl, rfl, rfl⟩

/-- C5. On a fresh heap `queue_create(&q, 4, 1073741826)` returns `QUEUE_OK` with
`items_count = 0`, `head = tail = 0`, both wait counts and both counters 0, but its payload
buffer (at `heap + 336`, header at `heap + 324`) holds 8 bytes, not the
`4 * 1073741826 = 4294967304` bytes of the product: the argument `item_size *
queue_length` of `memory_alloc` is computed in `uint32_t` and wraps to 8. Slot 2 of the
ring starts at offset 8 of the buffer, outside it. -/
theorem queue_create_buffer_too_small :
    (queue_create (some none) 4 1073741826 (Queue.zero 0 0) (memory_init Heap.boot)).map
        (fun r => r.1) = some QueueStatus.QUEUE_OK ∧
    (queue_create (some none) 4 1073741826 (Queue.zero 0 0) (memory_init Heap.boot)).map
        (fun r => r.2.1.map (fun c => c.2.buffer_ptr)) = some (some (some 336)) ∧
    (queue_create (some none) 4 1073741826 (Queue.zero 0 0) (memory_init Heap.boot)).map
        (fun r => ((r.2.2.blocks 324).size, (r.2.2.blocks 324).is_free)) = some (8, false) ∧
    (queue_create (some none) 4 1073741826 (Queue.zero 0 0) (memory_init Heap.boot)).map
        (fun r => r.2.1.map (fun c => [c.2.item_size, c.2.queue_length, c.2.items_count,
            c.2.head, c.2.tail, c.2.waiting_count_send, c.2.waiting_count_recv,
            c.2.overflow_count, c.2.underflow_count]))
      = some (some [4, 1073741826, 0, 0, 0, 0, 0, 0, 0]) ∧
    ¬ (4 * 1073741826 ≤ 8) ∧ u32 (2 * 4) + 4 > 8 := by
  refine ⟨by decide, by decide, by decide, by decide, by decide, by decide⟩

/-! ## Semaphore -/

theorem set_task_tasks (s : Scheduler) (i : Nat) (t : TCB) (j : Nat) :
    (s.set_task i t).tasks j = if j = i then t else s.tasks j := by
  unfold Scheduler.set_task
  by_cases h : j = i
  · subst h; simp
  · simp [Function.update_noteq h, h]

/-- The timeout loop and the selection of `schedule` leave `waiting_on` and `next` of
every TCB as they are. -/
theorem schedule_timeout_step_links (s : Scheduler) (i j : Nat) :
    ((schedule_timeout_step s i).tasks j).waiting_on = (s.tasks j).waiting_on ∧
    ((schedule_timeout_step s i).tasks j).next = (s.tasks j).next := by
  unfold schedule_timeout_step
  split
  · simp only []
    split <;> (simp only [set_task_tasks]; split <;> simp_all)
  · exact ⟨rfl, rfl⟩

theorem schedule_timeout_loop_links (l : List Nat) : ∀ (s : Scheduler) (j : Nat),
    ((l.foldl schedule_timeout_step s).tasks j).waiting_on = (s.tasks j).waiting_on ∧
    ((l.foldl schedule_timeout_step s).tasks j).next = (s.tasks j).next := by
  induction l with
  | nil => intro s j; exact ⟨rfl, rfl⟩
  | cons i l ih =>
    intro s j
    simp only [List.foldl_cons]
    rw [(ih _ j).1, (ih _ j).2]
    exact schedule_timeout_step_links s i j

theorem schedule_links (s : Scheduler) (j : Nat) :
    ((schedule s).tasks j).waiting_on = (s.tasks j).waiting_on ∧
    ((schedule s).tasks j).next = (s.tasks j).next := by
  unfold schedule
  split
  · exact ⟨rfl, rfl⟩
  · simp only []
    split
    · simp only [set_task_tasks]
      have h := schedule_timeout_loop_links (List.range s.task_count)
        { s with system_ticks := u32 (s.system_ticks + 1) } j
      split <;> split <;> simp_all
    · exact schedule_timeout_loop_links (List.range s.task_count)
        { s with system_ticks := u32 (s.system_ticks + 1) } j

/-- An assignment to a TCB that keeps its `waiting_on` and `next` keeps the links of all
TCBs. -/
theorem set_task_links (s : Scheduler) (i : Nat) (t : TCB)
    (h1 : t.waiting_on = (s.tasks i).waiting_on) (h2 : t.next = (s.tasks i).next) (j : Nat) :
    ((s.set_task i t).tasks j).waiting_on = (s.tasks j).waiting_on ∧
    ((s.set_task i t).tasks j).next = (s.tasks j).next := by
  rw [set_task_tasks]
  by_cases h : j = i
  · subst h; simp [h1, h2]
  · simp [h]

theorem block_task_links (timeout : Nat) (s : Scheduler) (j : Nat) :
    ((block_task timeout s).tasks j).waiting_on = (s.tasks j).waiting_on ∧
    ((block_task timeout s).tasks j).next = (s.tasks j).next := by
  unfold block_task
  split
  · exact ⟨rfl, rfl⟩
  · simp only []
    rw [(schedule_links _ j).1, (schedule_links _ j).2]
    have a := set_task_links s s.current_task
      { s.tasks s.current_task with state := TaskState.TASK_BLOCKED } rfl rfl
    have b := set_task_links (s.set_task s.current_task
        { s.tasks s.current_task with state := TaskState.TASK_BLOCKED })
      (s.set_task s.current_task
        { s.tasks s.current_task with state := TaskState.TASK_BLOCKED }).current_task
      { (s.set_task s.current_task
          { s.tasks s.current_task with state := TaskState.TASK_BLOCKED }).tasks
          (s.set_task s.current_task
            { s.tasks s.current_task with state := TaskState.TASK_BLOCKED }).current_task with
        blocked_timeout := timeout } rfl rfl
    rw [(b j).1, (b j).2]
    exact a j

theorem sem_wait_fast (sem_ptr : Nat) (sem : Semaphore) (timeout : Nat) (s : Scheduler)
    (others : SemWorld → SemWorld) (h : sem.count > 0) :
    sem_wait sem_ptr sem timeout s others = (true, { sem with count := sem.count - 1 }, s) := by
  simp [sem_wait, h]

/-- A `sem_wait` that finds the count at 0 and during which nothing else runs returns
false and leaves its caller at the head of the wait list. -/
theorem sem_wait_slow (sem_ptr : Nat) (sem : Semaphore) (timeout : Nat) (s : Scheduler)
    (h : sem.count = 0) :
    (sem_wait sem_ptr sem timeout s id).1 = false ∧
    (sem_wait sem_ptr sem timeout s id).2.1
      = { sem with waiting_list := some (get_current_task s) } := by
  have hc : ¬ sem.count > 0 := by omega
  simp only [sem_wait, hc, if_false, id]
  refine ⟨?_, trivial⟩
  rw [decide_eq_false_iff_not, (block_task_links _ _ _).1]
  simp [set_task_tasks]

theorem sem_wait_n_succ (sem_ptr timeout n : Nat) (sem : Semaphore) (s : Scheduler) :
    sem_wait_n sem_ptr timeout (n + 1) sem s
      = ((sem_wait sem_ptr sem timeout s id).1 ::
          (sem_wait_n sem_ptr timeout n (sem_wait sem_ptr sem timeout s id).2.1
            (sem_wait sem_ptr sem timeout s id).2.2).1,
         (sem_wait_n sem_ptr timeout n (sem_wait sem_ptr sem timeout s id).2.1
            (sem_wait sem_ptr sem timeout s id).2.2).2) := rfl

/-- With the count at 0 every `sem_wait` fails and leaves the count at 0. -/
theorem sem_wait_n_zero (sem_ptr timeout : Nat) : ∀ (n : Nat) (sem : Semaphore) (s : Scheduler),
    sem.count = 0 →
    (sem_wait_n sem_ptr timeout n sem s).1 = List.replicate n false ∧
    (sem_wait_n sem_ptr timeout n sem s).2.1.count = 0 ∧
    (0 < n → (sem_wait_n sem_ptr timeout n sem s).2.1.waiting_list ≠ none) := by
  intro n
  induction n with
  | zero => intro sem s h; exact ⟨rfl, h, fun hn => absurd hn (Nat.lt_irrefl 0)⟩
  | succ n ih =>
    intro sem s h
    obtain ⟨h1, h2⟩ := sem_wait_slow sem_ptr sem timeout s h
    have hc : (sem_wait sem_ptr sem timeout s id).2.1.count = 0 := by rw [h2]; exact h
    obtain ⟨g1, g2, g3⟩ := ih _ (sem_wait sem_ptr sem timeout s id).2.2 hc
    rw [sem_wait_n_succ]
    refine ⟨by simp only [h1, g1, List.replicate_succ], g2, fun _ => ?_⟩
    rcases Nat.eq_zero_or_pos n with rfl | hn
    · simp only [sem_wait_n, h2]
      simp
    · exact g3 hn

/-- As long as the count lasts, `sem_wait` succeeds; the call after that fails. -/
theorem sem_wait_n_spec (sem_ptr timeout : Nat) : ∀ (k : Nat) (sem : Semaphore) (s : Scheduler),
    sem.count = k →
    (sem_wait_n sem_ptr timeout (k + 1) sem s).1 = List.replicate k true ++ [false] ∧
    (sem_wait_n sem_ptr timeout (k + 1) sem s).2.1.count = 0 ∧
    (sem_wait_n sem_ptr timeout (k + 1) sem s).2.1.waiting_list ≠ none := by
  intro k
  induction k with
  | zero =>
    intro sem s h
    obtain ⟨g1, g2, g3⟩ := sem_wait_n_zero sem_ptr timeout 1 sem s h
    exact ⟨g1, g2, g3 Nat.one_pos⟩
  | succ k ih =>
    intro sem s h
    have hf := sem_wait_fast sem_ptr sem timeout s id (by omega)
    obtain ⟨g1, g2, g3⟩ := ih { sem with count := sem.count - 1 } s (by simp only; omega)
    rw [sem_wait_n_succ, hf]
    exact ⟨by simp only [g1, List.replicate_succ, List.cons_append], g2, g3⟩

/-- A `sem_signal` on a semaphore with count 0 and a waiter leaves the count at 0. -/
theorem sem_signal_count_zero (sem : Semaphore) (s : Scheduler) (hc : sem.count = 0)
    (hw : sem.waiting_list ≠ none) : (sem_signal sem s).1.count = 0 := by
  obtain ⟨t, ht⟩ := Option.ne_none_iff_exists'.mp hw
  simp only [sem_signal, ht, hc]
  decide

/-- C9. The test `sem_init(s, k)`, `k + 1` calls `sem_wait(s, 0)`, `sem_signal(s)`, two
calls `sem_wait(s, 0)`, run by one task while nothing else runs, for every `k`, every
address of the semaphore and every scheduler state: the first `k` calls return true and
call `k + 1` returns false, but the call after `sem_signal` returns false as well. The
failed call `k + 1` left its caller on the wait list, so `sem_signal` hands its unit to
that stale entry and takes the count back to 0. -/
theorem sem_wait_after_signal_fails (sem_ptr k : Nat) (s : Scheduler) :
    counting_test sem_ptr k s = (List.replicate k true ++ [false], [false, false]) := by
  obtain ⟨g1, g2, g3⟩ := sem_wait_n_spec sem_ptr 0 k
    (sem_init { count := 0, waiting_list := none } k) s rfl
  have g4 := sem_signal_count_zero _ (sem_wait_n sem_ptr 0 (k + 1)
    (sem_init { count := 0, waiting_list := none } k) s).2.2 g2 g3
  obtain ⟨e1, _, _⟩ := sem_wait_n_zero sem_ptr 0 2 _ (sem_signal (sem_wait_n sem_ptr 0 (k + 1)
    (sem_init { count := 0, waiting_list := none } k) s).2.1 (sem_wait_n sem_ptr 0 (k + 1)
    (sem_init { count := 0, waiting_list := none } k) s).2.2).2 g4
  unfold counting_test
  simp only [g1, e1]
  rfl

/-! ### Wait lists -/

/-- A pointer is the head of at most one null-terminated list. -/
theorem WaitList.det {tasks : Nat → TCB} : ∀ {l1 l2 : List Nat} {p : Option Nat},
    WaitList tasks p l1 → WaitList tasks p l2 → l1 = l2 := by
  intro l1
  induction l1 with
  | nil =>
    intro l2 p h1 h2
    cases l2 with
    | nil => rfl
    | cons t l =>
      have e1 : p = none := h1
      have e2 : p = some t := h2.1
      rw [e1] at e2
      exact absurd e2 (by simp)
  | cons t l ih =>
    intro l2 p h1 h2
    cases l2 with
    | nil =>
      have e1 : p = some t := h1.1
      have e2 : p = none := h2
      rw [e1] at e2
      exact absurd e2 (by simp)
    | cons t2 l2 =>
      have e1 : p = some t := h1.1
      have e2 : p = some t2 := h2.1
      rw [e1] at e2
      have e3 : t = t2 := Option.some.inj e2
      subst e3
      rw [ih h1.2 h2.2]

/-- The part of a wait list behind one of its members is the wait list of that member. -/
theorem WaitList.suffix {tasks : Nat → TCB} : ∀ {a : List Nat} {t : Nat} {b : List Nat}
    {p : Option Nat}, WaitList tasks p (a ++ t :: b) → WaitList tasks (tasks t).next b := by
  intro a
  induction a with
  | nil => intro t b p h; exact h.2
  | cons x a ih => intro t b p h; exact ih h.2

/-- The head of a wait list does not occur again in the list. -/
theorem WaitList.head_not_mem {tasks : Nat → TCB} {t : Nat} {rest : List Nat}
    {p : Option Nat} (h : WaitList tasks p (t :: rest)) : t ∉ rest := by
  intro hm
  obtain ⟨a, b, e⟩ := List.append_of_mem hm
  have h2 : WaitList tasks (tasks t).next rest := h.2
  have h3 : WaitList tasks (tasks t).next b := by
    rw [e] at h2
    exact WaitList.suffix h2
  have e2 := WaitList.det h2 h3
  have e3 := congrArg List.length e2
  rw [e] at e3
  simp at e3
  omega

/-- A wait list only depends on the `next` links of its members. -/
theorem WaitList.same_links {tasks tasks2 : Nat → TCB} : ∀ {l : List Nat} {p : Option Nat},
    WaitList tasks p l → (∀ i ∈ l, (tasks2 i).next = (tasks i).next) →
    WaitList tasks2 p l := by
  intro l
  induction l with
  | nil => intro p h _; exact h
  | cons t l ih =>
    intro p h hf
    refine ⟨h.1, ?_⟩
    rw [hf t (by simp)]
    exact ih h.2 (fun i hi => hf i (by simp [hi]))

/-- What `sem_signal` does when the wait list starts with the TCB `t`. -/
theorem sem_signal_waiter (sem : Semaphore) (s : Scheduler) (t : Nat)
    (hw : sem.waiting_list = some t) :
    (sem_signal sem s).1 =
      { count := u32 (u32 (sem.count + 1) + 2 ^ 32 - 1), waiting_list := (s.tasks t).next } ∧
    (sem_signal sem s).2.tasks t =
      { s.tasks t with next := none, waiting_on := none, state := TaskState.TASK_READY } ∧
    (∀ i, i ≠ t → (sem_signal sem s).2.tasks i = s.tasks i) ∧
    (sem_signal sem s).2.current_task = s.current_task ∧
    (sem_signal sem s).2.next_task = s.next_task ∧
    (sem_signal sem s).2.task_count = s.task_count ∧
    (sem_signal sem s).2.scheduler_started = s.scheduler_started ∧
    (sem_signal sem s).2.system_ticks = s.system_ticks := by
  have e : sem_signal sem s =
      ({ count := u32 (u32 (sem.count + 1) + 2 ^ 32 - 1), waiting_list := (s.tasks t).next },
       ((s.set_task t { s.tasks t with next := none }).set_task t
          { (s.set_task t { s.tasks t with next := none }).tasks t with
            waiting_on := none }).set_task t
          { ((s.set_task t { s.tasks t with next := none }).set_task t
              { (s.set_task t { s.tasks t with next := none }).tasks t with
                waiting_on := none }).tasks t with state := TaskState.TASK_READY }) := by
    unfold sem_signal
    simp only [hw]
  rw [e]
  refine ⟨rfl, ?_, ?_, rfl, rfl, rfl, rfl, rfl⟩
  · simp only [set_task_tasks, if_true]
  · intro i hi
    simp only [set_task_tasks, hi, if_false]

/-- C10, as amended. For every semaphore (with a 32-bit count) and every scheduler state:
if the wait list is `t, rest`, then after `sem_signal` the wait list is `rest` (the other
waiters, in the same order, and `t` is not among them), the TCB `t` has `next` and
`waiting_on` null and state READY and keeps its other fields, all other TCBs and the
other scheduler fields are unchanged, and `count` is unchanged; if the wait list is empty,
`sem_signal` adds 1 to `count` modulo 2^32 (exactly 1 when `count < 2^32 - 1`) and changes
nothing else. -/
theorem sem_signal_spec (sem : Semaphore) (s : Scheduler) (hc : sem.count < 2 ^ 32) :
    (∀ t rest, WaitList s.tasks sem.waiting_list (t :: rest) →
      WaitList (sem_signal sem s).2.tasks (sem_signal sem s).1.waiting_list rest ∧
      t ∉ rest ∧
      (sem_signal sem s).2.tasks t =
        { s.tasks t with next := none, waiting_on := none, state := TaskState.TASK_READY } ∧
      (∀ i, i ≠ t → (sem_signal sem s).2.tasks i = s.tasks i) ∧
      (sem_signal sem s).1.count = sem.count ∧
      (sem_signal sem s).2.current_task = s.current_task ∧
      (sem_signal sem s).2.next_task = s.next_task ∧
      (sem_signal sem s).2.task_count = s.task_count ∧
      (sem_signal sem s).2.scheduler_started = s.scheduler_started ∧
      (sem_signal sem s).2.system_ticks = s.system_ticks) ∧
    (sem.waiting_list = none →
      sem_signal sem s = ({ sem with count := (sem.count + 1) % 2 ^ 32 }, s) ∧
      (sem.count + 1 < 2 ^ 32 → (sem_signal sem s).1.count = sem.count + 1)) := by
  constructor
  · intro t rest hl
    have hw : sem.waiting_list = some t := hl.1
    obtain ⟨h1, h2, h3, h4, h5, h6, h7, h8⟩ := sem_signal_waiter sem s t hw
    have hnm := WaitList.head_not_mem hl
    refine ⟨?_, hnm, h2, h3, ?_, h4, h5, h6, h7, h8⟩
    · rw [h1]
      apply WaitList.same_links hl.2
      intro i hi
      rw [h3 i (fun e => hnm (e ▸ hi))]
    · rw [h1]
      show u32 (u32 (sem.count + 1) + 2 ^ 32 - 1) = sem.count
      unfold u32
      omega
  · intro hw
    have e : sem_signal sem s = ({ sem with count := u32 (sem.count + 1) }, s) := by
      simp only [sem_signal, hw]
    refine ⟨e, fun hlt => ?_⟩
    rw [e]
    exact u32_of_lt hlt

/-- C10, an instance of the amended statement: tasks 3 and 5 wait, in this order, on a
semaphore with count 0. -/
theorem sem_signal_spec_witness :
    WaitList two_waiters_scheduler.tasks (some 3) [3, 5] ∧
    WaitList (sem_signal { count := 0, waiting_list := some 3 } two_waiters_scheduler).2.tasks
      (sem_signal { count := 0, waiting_list := some 3 } two_waiters_scheduler).1.waiting_list
      [5] ∧
    (sem_signal { count := 0, waiting_list := some 3 } two_waiters_scheduler).1.count = 0 :=
  ⟨⟨rfl, rfl, rfl⟩,
   ((sem_signal_spec { count := 0, waiting_list := some 3 } two_waiters_scheduler
      (by decide)).1 3 [5] ⟨rfl, rfl, rfl⟩).1,
   ((sem_signal_spec { count := 0, waiting_list := some 3 } two_waiters_scheduler
      (by decide)).1 3 [5] ⟨rfl, rfl, rfl⟩).2.2.2.2.1⟩

/-- C10 as stated fails: on a semaphore with an empty wait list and count 2^32 - 1,
`sem_signal` leaves the count at 0 instead of incrementing it by 1. -/
theorem sem_signal_count_wraps :
    (sem_signal { count := 4294967295, waiting_list := none } Scheduler.zero).1.count = 0 ∧
    ¬ ((sem_signal { count := 4294967295, waiting_list := none } Scheduler.zero).1.count
        = 4294967295 + 1) := by
  refine ⟨by decide, by decide⟩

/-! ## Mutex -/

theorem mutex_lock_owner (mutex_ptr timeout : Nat) (m : Mutex) (s : Scheduler)
    (others : MutexWorld → MutexWorld) (h : m.owner = some (get_current_task s)) :
    mutex_lock mutex_ptr m timeout s others = (true, { m with count := u32 (m.count + 1) }, s) := by
  simp [mutex_lock, h]

theorem mutex_lock_free (mutex_ptr timeout : Nat) (m : Mutex) (s : Scheduler)
    (others : MutexWorld → MutexWorld) (h : m.owner = none) :
    mutex_lock mutex_ptr m timeout s others
      = (true, { m with owner := some (get_current_task s), count := 1 }, s) := by
  simp [mutex_lock, h]

theorem mutex_lock_n_succ (mutex_ptr timeout n : Nat) (m : Mutex) (s : Scheduler) :
    mutex_lock_n mutex_ptr timeout (n + 1) m s
      = ((mutex_lock mutex_ptr m timeout s id).1 ::
          (mutex_lock_n mutex_ptr timeout n (mutex_lock mutex_ptr m timeout s id).2.1
            (mutex_lock mutex_ptr m timeout s id).2.2).1,
         (mutex_lock_n mutex_ptr timeout n (mutex_lock mutex_ptr m timeout s id).2.1
            (mutex_lock mutex_ptr m timeout s id).2.2).2) := rfl

/-- Locks by the owner: all succeed and each adds one to the count, modulo 2^32. -/
theorem mutex_lock_n_owner (mutex_ptr timeout : Nat) : ∀ (n : Nat) (m : Mutex) (s : Scheduler),
    m.owner = some (get_current_task s) → m.count < 2 ^ 32 →
    mutex_lock_n mutex_ptr timeout n m s
      = (List.replicate n true, { m with count := u32 (m.count + n) }, s) := by
  intro n
  induction n with
  | zero =>
    intro m s _ hc
    show ([], m, s) = ([], { m with count := u32 (m.count + 0) }, s)
    rw [Nat.add_zero, u32_of_lt hc]
  | succ n ih =>
    intro m s h hc
    rw [mutex_lock_n_succ, mutex_lock_owner mutex_ptr timeout m s id h]
    simp only
    rw [ih { m with count := u32 (m.count + 1) } s h (Nat.mod_lt _ (by decide))]
    have e : u32 (u32 (m.count + 1) + n) = u32 (m.count + (n + 1)) := by
      unfold u32; omega
    simp only [List.replicate_succ, e]

/-- The locks of a free mutex by one task: all succeed, and the count is the number of
locks modulo 2^32. -/
theorem mutex_lock_n_free (mutex_ptr timeout : Nat) (n : Nat) (m : Mutex) (s : Scheduler)
    (hn : 1 ≤ n) (ho : m.owner = none) :
    mutex_lock_n mutex_ptr timeout n m s
      = (List.replicate n true,
         { m with owner := some (get_current_task s), count := u32 n }, s) := by
  obtain ⟨k, rfl⟩ : ∃ k, n = k + 1 := ⟨n - 1, by omega⟩
  rw [mutex_lock_n_succ, mutex_lock_free mutex_ptr timeout m s id ho]
  simp only
  rw [mutex_lock_n_owner mutex_ptr timeout k _ s rfl (show (1 : Nat) < 2 ^ 32 by decide)]
  have e : u32 (1 + k) = u32 (k + 1) := by rw [Nat.add_comm]
  simp only [List.replicate_succ, e]

theorem mutex_unlock_not_owner (m : Mutex) (s : Scheduler)
    (h : m.owner ≠ some (get_current_task s)) : mutex_unlock m s = (m, s) := by
  simp [mutex_unlock, h]

theorem mutex_unlock_nested (m : Mutex) (s : Scheduler)
    (h : m.owner = some (get_current_task s)) (h1 : 1 < m.count) (h2 : m.count < 2 ^ 32) :
    mutex_unlock m s = ({ m with count := m.count - 1 }, s) := by
  have e : u32 (m.count + 2 ^ 32 - 1) = m.count - 1 := by unfold u32; omega
  have e0 : ¬ (m.count - 1 = 0) := by omega
  unfold mutex_unlock
  simp only [h, ne_eq, not_true_eq_false, if_false, e, e0]

theorem mutex_unlock_last_empty (m : Mutex) (s : Scheduler)
    (h : m.owner = some (get_current_task s)) (h1 : m.count = 1) (hw : m.waiting_list = none) :
    mutex_unlock m s = ({ m with owner := none, count := 0 }, s) := by
  have e : u32 (m.count + 2 ^ 32 - 1) = 0 := by rw [h1]; decide
  unfold mutex_unlock
  simp only [h, ne_eq, not_true_eq_false, if_false, e, if_true, hw]

/-- What the last `mutex_unlock` of the owner does when the wait list starts with the
TCB `t`. -/
theorem mutex_unlock_last_waiter (m : Mutex) (s : Scheduler) (t : Nat)
    (h : m.owner = some (get_current_task s)) (h1 : m.count = 1)
    (hw : m.waiting_list = some t) :
    (mutex_unlock m s).1 = { owner := some t, count := 1, waiting_list := (s.tasks t).next } ∧
    (mutex_unlock m s).2.tasks t =
      { s.tasks t with next := none, waiting_on := none, state := TaskState.TASK_READY } ∧
    (∀ i, i ≠ t → (mutex_unlock m s).2.tasks i = s.tasks i) ∧
    (mutex_unlock m s).2.current_task = s.current_task ∧
    (mutex_unlock m s).2.next_task = s.next_task ∧
    (mutex_unlock m s).2.task_count = s.task_count ∧
    (mutex_unlock m s).2.scheduler_started = s.scheduler_started ∧
    (mutex_unlock m s).2.system_ticks = s.system_ticks := by
  have e0 : u32 (m.count + 2 ^ 32 - 1) = 0 := by rw [h1]; decide
  have e : mutex_unlock m s =
      ({ owner := some t, count := 1, waiting_list := (s.tasks t).next },
       ((s.set_task t { s.tasks t with next := none }).set_task t
          { (s.set_task t { s.tasks t with next := none }).tasks t with
            waiting_on := none }).set_task t
          { ((s.set_task t { s.tasks t with next := none }).set_task t
              { (s.set_task t { s.tasks t with next := none }).tasks t with
                waiting_on := none }).tasks t with state := TaskState.TASK_READY }) := by
    unfold mutex_unlock
    simp only [h, ne_eq, not_true_eq_false, if_false, e0, if_true, hw]
  rw [e]
  refine ⟨rfl, ?_, ?_, rfl, rfl, rfl, rfl, rfl⟩
  · simp only [set_task_tasks, if_true]
  · intro i hi
    simp only [set_task_tasks, hi, if_false]

theorem mutex_unlock_n_nested : ∀ (i : Nat) (m : Mutex) (s : Scheduler),
    m.owner = some (get_current_task s) → i < m.count → m.count < 2 ^ 32 →
    mutex_unlock_n i m s = ({ m with count := m.count - i }, s) := by
  intro i
  induction i with
  | zero => intro m s _ _ _; rfl
  | succ i ih =>
    intro m s h h1 h2
    show mutex_unlock_n i (mutex_unlock m s).1 (mutex_unlock m s).2 = _
    rw [mutex_unlock_nested m s h (by omega) h2]
    simp only
    rw [ih { m with count := m.count - 1 } s h (by simp only; omega) (by simp only; omega)]
    have e : m.count - 1 - i = m.count - (i + 1) := by omega
    simp only [e]

theorem mutex_unlock_n_succ_last (i : Nat) (m : Mutex) (s : Scheduler) :
    mutex_unlock_n (i + 1) m s
      = mutex_unlock (mutex_unlock_n i m s).1 (mutex_unlock_n i m s).2 := by
  induction i generalizing m s with
  | zero => rfl
  | succ i ih =>
    show mutex_unlock_n (i + 1) (mutex_unlock m s).1 (mutex_unlock m s).2 = _
    rw [ih]
    rfl

/-- C11, as amended. For every `n` with `1 ≤ n < 2^32`, every mutex that is unowned with an
empty wait list and every scheduler state: `n` calls `mutex_lock(m, t)` by the current task
all return true, leave the scheduler as it was and the mutex with `owner` = that task,
`count = n` and an empty wait list; after the following `i` calls `mutex_unlock(m)` by that
task, for `i < n`, the owner is still that task and `count = n - i`; after `n` calls the
owner is null and `count = 0`. -/
theorem mutex_recursive_round_trip (mutex_ptr timeout : Nat) (m : Mutex) (s : Scheduler)
    (n : Nat) (hn : 1 ≤ n) (hb : n < 2 ^ 32) (ho : m.owner = none)
    (hw : m.waiting_list = none) :
    mutex_lock_n mutex_ptr timeout n m s
      = (List.replicate n true,
         { owner := some (get_current_task s), count := n, waiting_list := none }, s) ∧
    (∀ i, i < n →
      mutex_unlock_n i (mutex_lock_n mutex_ptr timeout n m s).2.1
          (mutex_lock_n mutex_ptr timeout n m s).2.2
        = ({ owner := some (get_current_task s), count := n - i, waiting_list := none }, s)) ∧
    mutex_unlock_n n (mutex_lock_n mutex_ptr timeout n m s).2.1
        (mutex_lock_n mutex_ptr timeout n m s).2.2
      = ({ owner := none, count := 0, waiting_list := none }, s) := by
  have e : mutex_lock_n mutex_ptr timeout n m s
      = (List.replicate n true,
         { owner := some (get_current_task s), count := n, waiting_list := none }, s) := by
    rw [mutex_lock_n_free mutex_ptr timeout n m s hn ho, u32_of_lt hb, hw]
  have hi : ∀ i, i < n →
      mutex_unlock_n i { owner := some (get_current_task s), count := n, waiting_list := none } s
        = ({ owner := some (get_current_task s), count := n - i, waiting_list := none }, s) :=
    fun i h => mutex_unlock_n_nested i _ s rfl h hb
  rw [e]
  refine ⟨rfl, hi, ?_⟩
  obtain ⟨k, rfl⟩ : ∃ k, n = k + 1 := ⟨n - 1, by omega⟩
  simp only
  rw [mutex_unlock_n_succ_last, hi k (by omega)]
  simp only
  rw [mutex_unlock_last_empty _ s rfl (by simp only; omega) rfl]

/-- C11, an instance: lock; lock; unlock; unlock by task 0 on a fresh mutex returns the
ownership to null. -/
theorem mutex_recursive_round_trip_witness :
    mutex_lock_n 1000 0 2 (mutex_init { owner := none, count := 0, waiting_list := none })
        Scheduler.zero
      = ([true, true], { owner := some 0, count := 2, waiting_list := none }, Scheduler.zero) ∧
    mutex_unlock_n 2
        (mutex_lock_n 1000 0 2 (mutex_init { owner := none, count := 0, waiting_list := none })
          Scheduler.zero).2.1
        (mutex_lock_n 1000 0 2 (mutex_init { owner := none, count := 0, waiting_list := none })
          Scheduler.zero).2.2
      = ({ owner := none, count := 0, waiting_list := none }, Scheduler.zero) :=
  ⟨(mutex_recursive_round_trip 1000 0
      (mutex_init { owner := none, count := 0, waiting_list := none }) Scheduler.zero 2
      (by decide) (by decide) rfl rfl).1,
   (mutex_recursive_round_trip 1000 0
      (mutex_init { owner := none, count := 0, waiting_list := none }) Scheduler.zero 2
      (by decide) (by decide) rfl rfl).2.2⟩

/-- C11 as stated fails for `n = 2^32`: after 2^32 calls `mutex_lock` by one task on a fresh
mutex, all of which return true, the count is 0 and not `n`. -/
theorem mutex_lock_count_wraps :
    (mutex_lock_n 1000 0 4294967296
        (mutex_init { owner := none, count := 0, waiting_list := none }) Scheduler.zero).2.1
      = { owner := some 0, count := 0, waiting_list := none } ∧
    ¬ ((mutex_lock_n 1000 0 4294967296
        (mutex_init { owner := none, count := 0, waiting_list := none }) Scheduler.zero).2.1.count
        = 4294967296) := by
  have e := mutex_lock_n_free 1000 0 4294967296
    (mutex_init { owner := none, count := 0, waiting_list := none }) Scheduler.zero
    (by decide) rfl
  rw [e]
  exact ⟨rfl, by decide⟩

/-- C12. For every mutex (with a 32-bit count) and every scheduler state: if the caller is
not the owner, `mutex_unlock` changes nothing; if the caller is the owner and `count > 1`,
only `count` changes, to `count - 1`; if the caller is the owner, `count = 1` and the wait
list is `W, rest`, then after the call the owner is `W` with `count = 1`, the wait list is
`rest` (the other waiters in the same order, `W` not among them), the TCB `W` has state
READY and `waiting_on` and `next` null and keeps its other fields, and all other TCBs and
scheduler fields are unchanged; if the caller is the owner, `count = 1` and the wait list is
empty, the owner becomes null and `count` 0, and nothing else changes. -/
theorem mutex_unlock_spec (m : Mutex) (s : Scheduler) (hc : m.count < 2 ^ 32) :
    (m.owner ≠ some (get_current_task s) → mutex_unlock m s = (m, s)) ∧
    (m.owner = some (get_current_task s) → 1 < m.count →
      mutex_unlock m s = ({ m with count := m.count - 1 }, s)) ∧
    (m.owner = some (get_current_task s) → m.count = 1 →
      ∀ W rest, WaitList s.tasks m.waiting_list (W :: rest) →
        (mutex_unlock m s).1.owner = some W ∧
        (mutex_unlock m s).1.count = 1 ∧
        WaitList (mutex_unlock m s).2.tasks (mutex_unlock m s).1.waiting_list rest ∧
        W ∉ rest ∧
        (mutex_unlock m s).2.tasks W =
          { s.tasks W with next := none, waiting_on := none, state := TaskState.TASK_READY } ∧
        (∀ i, i ≠ W → (mutex_unlock m s).2.tasks i = s.tasks i) ∧
        (mutex_unlock m s).2.current_task = s.current_task ∧
        (mutex_unlock m s).2.next_task = s.next_task ∧
        (mutex_unlock m s).2.task_count = s.task_count ∧
        (mutex_unlock m s).2.scheduler_started = s.scheduler_started ∧
        (mutex_unlock m s).2.system_ticks = s.system_ticks) ∧
    (m.owner = some (get_current_task s) → m.count = 1 → m.waiting_list = none →
      mutex_unlock m s = ({ m with owner := none, count := 0 }, s)) := by
  refine ⟨mutex_unlock_not_owner m s, fun ho h1 => mutex_unlock_nested m s ho h1 hc, ?_,
    mutex_unlock_last_empty m s⟩
  intro ho h1 W rest hl
  obtain ⟨g1, g2, g3, g4, g5, g6, g7, g8⟩ := mutex_unlock_last_waiter m s W ho h1 hl.1
  have hnm := WaitList.head_not_mem hl
  refine ⟨by rw [g1], by rw [g1], ?_, hnm, g2, g3, g4, g5, g6, g7, g8⟩
  rw [g1]
  apply WaitList.same_links hl.2
  intro i hi
  rw [g3 i (fun e => hnm (e ▸ hi))]

/-- C12, an instance: task 0 owns a mutex, locked once, on which tasks 3 and 5 wait in this
order; its `mutex_unlock` makes task 3 the owner and leaves task 5 waiting. -/
theorem mutex_unlock_spec_witness :
    WaitList two_waiters_scheduler.tasks (some 3) [3, 5] ∧
    (mutex_unlock { owner := some 0, count := 1, waiting_list := some 3 }
      two_waiters_scheduler).1.owner = some 3 ∧
    WaitList
      (mutex_unlock { owner := some 0, count := 1, waiting_list := some 3 }
        two_waiters_scheduler).2.tasks
      (mutex_unlock { owner := some 0, count := 1, waiting_list := some 3 }
        two_waiters_scheduler).1.waiting_list [5] :=
  ⟨⟨rfl, rfl, rfl⟩,
   ((mutex_unlock_spec { owner := some 0, count := 1, waiting_list := some 3 }
      two_waiters_scheduler (by decide)).2.2.1 rfl rfl 3 [5] ⟨rfl, rfl, rfl⟩).1,
   ((mutex_unlock_spec { owner := some 0, count := 1, waiting_list := some 3 }
      two_waiters_scheduler (by decide)).2.2.1 rfl rfl 3 [5] ⟨rfl, rfl, rfl⟩).2.2.1⟩

/-- A `mutex_lock` by a task other than the owner of an owned mutex: the caller is linked
in front of the wait list and blocked, and the rest of the system runs on that state. -/
theorem mutex_lock_blocks (mutex_ptr timeout : Nat) (m : Mutex) (s : Scheduler)
    (k : MutexWorld → MutexWorld) (O : Nat) (ho : m.owner = some O)
    (hne : O ≠ get_current_task s) :
    ∃ s2 : Scheduler,
      ((mutex_lock mutex_ptr m timeout s k).2.1, (mutex_lock mutex_ptr m timeout s k).2.2)
        = k ({ m with waiting_list := some (get_current_task s) }, s2) ∧
      (mutex_lock mutex_ptr m timeout s k).1
        = decide (((k ({ m with waiting_list := some (get_current_task s) }, s2)).2.tasks
            (get_current_task s)).waiting_on = none) ∧
      (s2.tasks (get_current_task s)).next = m.waiting_list ∧
      (s2.tasks (get_current_task s)).waiting_on = some mutex_ptr ∧
      (∀ j, j ≠ get_current_task s → (s2.tasks j).next = (s.tasks j).next) := by
  have h1 : ¬ (m.owner = some (get_current_task s)) := by
    rw [ho]; intro e; exact hne (Option.some.inj e)
  have h2 : ¬ (m.owner = none) := by rw [ho]; simp
  refine ⟨block_task timeout
    (((s.set_task (get_current_task s)
        { s.tasks (get_current_task s) with waiting_on := some mutex_ptr }).set_task
        (get_current_task s)
        { (s.set_task (get_current_task s)
            { s.tasks (get_current_task s) with waiting_on := some mutex_ptr }).tasks
            (get_current_task s) with blocked_timeout := timeout }).set_task
      (get_current_task s)
      { ((s.set_task (get_current_task s)
          { s.tasks (get_current_task s) with waiting_on := some mutex_ptr }).set_task
          (get_current_task s)
          { (s.set_task (get_current_task s)
              { s.tasks (get_current_task s) with waiting_on := some mutex_ptr }).tasks
              (get_current_task s) with blocked_timeout := timeout }).tasks
          (get_current_task s) with next := m.waiting_list }), ?_, ?_, ?_, ?_, ?_⟩
  · simp only [mutex_lock, h1, h2, if_false]
  · simp only [mutex_lock, h1, h2, if_false]
  · rw [(block_task_links _ _ _).2]
    simp [set_task_tasks]
  · rw [(block_task_links _ _ _).1]
    simp [set_task_tasks]
  · intro j hj
    rw [(block_task_links _ _ _).2]
    simp [set_task_tasks, hj]

theorem as_task_tasks (s : Scheduler) (i : Nat) : (s.as_task i).tasks = s.tasks := rfl

theorem as_task_current (s : Scheduler) (i : Nat) : get_current_task (s.as_task i) = i := rfl

/-- When the tasks `ts`, distinct and none of them the owner, call `mutex_lock` one after
the other on an owned mutex, the rest of the system runs on a state in which the wait list
is `ts` in reverse order, in front of the waiters that were there before. -/
theorem mutex_lock_nested_enqueues (mutex_ptr timeout : Nat) (k : MutexWorld → MutexWorld)
    (O : Nat) : ∀ (ts : List Nat) (m : Mutex) (s : Scheduler) (l : List Nat),
    m.owner = some O → O ∉ ts → ts.Nodup → WaitList s.tasks m.waiting_list l →
    (∀ T ∈ ts, T ∉ l) →
    ∃ (p : Option Nat) (s2 : Scheduler),
      mutex_lock_nested mutex_ptr timeout ts k (m, s) = k ({ m with waiting_list := p }, s2) ∧
      WaitList s2.tasks p (ts.reverse ++ l) := by
  intro ts
  induction ts with
  | nil =>
    intro m s l _ _ _ hl _
    exact ⟨m.waiting_list, s, rfl, hl⟩
  | cons T ts ih =>
    intro m s l ho hO hd hl hdis
    obtain ⟨s2, e1, _, e3, _, e5⟩ := mutex_lock_blocks mutex_ptr timeout m (s.as_task T)
      (mutex_lock_nested mutex_ptr timeout ts k) O ho
      (fun e => hO (by rw [e]; exact List.mem_cons_self _ _))
    rw [as_task_current] at e1 e3 e5
    have hTl : T ∉ l := hdis T (List.mem_cons_self _ _)
    have hl2 : WaitList s2.tasks (some T) (T :: l) := by
      refine ⟨rfl, ?_⟩
      rw [e3]
      apply WaitList.same_links hl
      intro i hi
      rw [e5 i (fun e => hTl (e ▸ hi))]
      rfl
    have hd2 := List.nodup_cons.mp hd
    obtain ⟨p, s3, g1, g2⟩ := ih { m with waiting_list := some T } s2 (T :: l) ho
      (fun h => hO (List.mem_cons_of_mem _ h)) hd2.2 hl2
      (fun X hX hm => by
        rcases List.mem_cons.mp hm with e | hm
        · exact hd2.1 (e ▸ hX)
        · exact hdis X (List.mem_cons_of_mem _ hX) hm)
    refine ⟨p, s3, ?_, ?_⟩
    · show ((mutex_lock mutex_ptr m timeout (s.as_task T)
          (mutex_lock_nested mutex_ptr timeout ts k)).2.1,
        (mutex_lock mutex_ptr m timeout (s.as_task T)
          (mutex_lock_nested mutex_ptr timeout ts k)).2.2) = _
      rw [e1, g1]
    · rw [List.reverse_cons, List.append_assoc]
      exact g2

/-- Successive final unlocks by the owner hand the mutex to the tasks of the wait list
from its head on. -/
theorem mutex_unlock_by_owner_order : ∀ (j : Nat) (l : List Nat) (m : Mutex) (s : Scheduler)
    (o : Nat), m.owner = some o → m.count = 1 → WaitList s.tasks m.waiting_list l →
    j < l.length → (mutex_unlock_by_owner^[j + 1] (m, s)).1.owner = l[j]? := by
  intro j
  induction j with
  | zero =>
    intro l m s o ho hc hl hj
    cases l with
    | nil => simp at hj
    | cons W rest =>
      have e : mutex_unlock_by_owner (m, s) = mutex_unlock m (s.as_task o) := by
        simp only [mutex_unlock_by_owner, ho]
      obtain ⟨g1, _⟩ := mutex_unlock_last_waiter m (s.as_task o) W ho hc hl.1
      simp only [Function.iterate_succ, Function.iterate_zero, Function.comp, id, e, g1]
      simp
  | succ j ih =>
    intro l m s o ho hc hl hj
    cases l with
    | nil => simp at hj
    | cons W rest =>
      have e : mutex_unlock_by_owner (m, s) = mutex_unlock m (s.as_task o) := by
        simp only [mutex_unlock_by_owner, ho]
      obtain ⟨g1, _, g3, _⟩ := mutex_unlock_last_waiter m (s.as_task o) W ho hc hl.1
      have hnm := WaitList.head_not_mem hl
      have hl2 : WaitList (mutex_unlock m (s.as_task o)).2.tasks
          (mutex_unlock m (s.as_task o)).1.waiting_list rest := by
        rw [g1]
        apply WaitList.same_links hl.2
        intro i hi
        rw [g3 i (fun e => hnm (e ▸ hi))]
        rfl
      have hj2 : j < rest.length := by simpa using hj
      have := ih rest (mutex_unlock m (s.as_task o)).1 (mutex_unlock m (s.as_task o)).2 W
        (by rw [g1]) (by rw [g1]) hl2 hj2
      rw [Function.iterate_succ_apply, e]
      simpa using this

/-- The order in which the code hands a mutex over, which is the reverse of the order of
arrival. For a mutex owned by a task `O` that has locked it once, with an empty wait list,
and all tasks `T_1, ..., T_k`, distinct and none of them `O`, that call `mutex_lock` in
this order and are suspended in it: the final `mutex_unlock` of the owner hands the
ownership to `T_k`, the latest waiter, and the successive final unlocks of the new owners
hand it to `T_(k-1)`, ..., `T_1`: after `j + 1` unlocks, `j < k`, the owner is the element
`j` of the reversed list. -/
theorem mutex_wait_list_lifo (mutex_ptr timeout : Nat) (O : Nat) (ts : List Nat)
    (s : Scheduler) (hd : ts.Nodup) (hO : O ∉ ts) (j : Nat) (hj : j < ts.length) :
    (mutex_lock_nested mutex_ptr timeout ts (mutex_unlock_by_owner^[j + 1])
      ({ owner := some O, count := 1, waiting_list := none }, s)).1.owner
      = ts.reverse[j]? := by
  obtain ⟨p, s2, e, hl⟩ := mutex_lock_nested_enqueues mutex_ptr timeout
    (mutex_unlock_by_owner^[j + 1]) O ts
    { owner := some O, count := 1, waiting_list := none } s [] rfl hO hd rfl
    (fun _ _ h => by simp at h)
  rw [e]
  rw [List.append_nil] at hl
  exact mutex_unlock_by_owner_order j ts.reverse _ s2 O rfl rfl hl (by simpa using hj)

/-- An instance of `mutex_wait_list_lifo`: task 0 owns the mutex, then task 1 and then
task 2 call `mutex_lock`; the second final unlock hands the mutex to task 1. -/
theorem mutex_wait_list_lifo_witness :
    (mutex_lock_nested 1000 0 [1, 2] (mutex_unlock_by_owner^[1 + 1])
      ({ owner := some 0, count := 1, waiting_list := none }, three_tasks_scheduler)).1.owner
      = some 1 :=
  Eq.trans
    (mutex_wait_list_lifo 1000 0 0 [1, 2] three_tasks_scheduler (by decide) (by decide) 1
      (by decide))
    (by decide)

/-- C13. The mutex wait list is not first-in first-out: task 0 owns the mutex, task 1 and
then task 2 call `mutex_lock` and are suspended; the final unlock of task 0 hands the
mutex to task 2, the latest waiter, and not to task 1, the longest waiter. -/
theorem mutex_handoff_not_fifo :
    (mutex_lock_nested 1000 0 [1, 2] (mutex_unlock_by_owner^[0 + 1])
      ({ owner := some 0, count := 1, waiting_list := none }, three_tasks_scheduler)).1.owner
      = some 2 ∧
    ¬ ((mutex_lock_nested 1000 0 [1, 2] (mutex_unlock_by_owner^[0 + 1])
      ({ owner := some 0, count := 1, waiting_list := none }, three_tasks_scheduler)).1.owner
      = some 1) := by
  refine ⟨by decide, by decide⟩

/-! ## Wait lists of a queue -/

theorem shift_loop_spec (a : Nat → Nat) : ∀ (m : Nat),
    (∀ i, i < m →
      ((List.range m).foldl (fun b i => Function.update b i (b (i + 1))) a) i = a (i + 1)) ∧
    (∀ i, m ≤ i →
      ((List.range m).foldl (fun b i => Function.update b i (b (i + 1))) a) i = a i) := by
  intro m
  induction m with
  | zero => exact ⟨fun i h => absurd h (Nat.not_lt_zero i), fun i _ => rfl⟩
  | succ m ih =>
    rw [List.range_succ, List.foldl_append]
    simp only [List.foldl_cons, List.foldl_nil]
    constructor
    · intro i hi
      by_cases e : i = m
      · subst e
        rw [Function.update_same]
        exact ih.2 (i + 1) (by omega)
      · rw [Function.update_noteq e]
        exact ih.1 i (by omega)
    · intro i hi
      rw [Function.update_noteq (by omega)]
      exact ih.2 i (by omega)

/-- The shift loop moves every entry behind the first one place to the front. -/
theorem shift_waiting_spec (a : Nat → Nat) (count i : Nat) (h : i < count - 1) :
    shift_waiting a count i = a (i + 1) :=
  (shift_loop_spec a (count - 1)).1 i h

/-- After the shift loop and the decrement of the count, the wait list is the old one
without its first entry. -/
theorem shift_waiting_tail (a : Nat → Nat) (count : Nat) :
    (List.range (count - 1)).map (shift_waiting a count) = ((List.range count).map a).tail := by
  apply List.ext_getElem
  · simp
  · intro i h1 h2
    simp only [List.length_map, List.length_range] at h1
    simp [shift_waiting_spec a count i h1]

theorem waiters_head_tail (a : Nat → Nat) (count r : Nat) (rest : List Nat)
    (hl : (List.range count).map a = r :: rest) :
    count > 0 ∧ a 0 = r ∧ (List.range (count - 1)).map (shift_waiting a count) = rest := by
  have hpos : count > 0 := by
    rcases Nat.eq_zero_or_pos count with h0 | h0
    · subst h0; simp at hl
    · exact h0
  refine ⟨hpos, ?_, ?_⟩
  · obtain ⟨k, hk⟩ : ∃ k, count = k + 1 := ⟨count - 1, by omega⟩
    subst hk
    have := congrArg List.head? hl
    simpa [List.range_succ_eq_map] using this
  · rw [shift_waiting_tail, hl]
    rfl

/-- A successful `queue_send` resumes the first task of the receiver wait list and removes
it from the list by a shift; a successful `queue_receive` does the same with the sender
wait list. -/
theorem queue_send_receive_pop_first (q : Queue) (x buf : Item) (t : Nat) (s : Scheduler)
    (others : QueueWorld → QueueWorld) :
    (q.items_count ≠ q.queue_length → ∀ r rest, q.recv_waiters = r :: rest →
      (queue_send q (some x) t s others).1 = QueueStatus.QUEUE_OK ∧
      (queue_send q (some x) t s others).2.1.recv_waiters = rest ∧
      (queue_send q (some x) t s others).2.2 = resume_task r s) ∧
    (q.items_count ≠ 0 → ∀ r rest, q.send_waiters = r :: rest →
      (queue_receive q (some buf) t s others).1 = QueueStatus.QUEUE_OK ∧
      (queue_receive q (some buf) t s others).2.1.send_waiters = rest ∧
      (queue_receive q (some buf) t s others).2.2.2 = resume_task r s) := by
  constructor
  · intro hf r rest hl
    have hfull : queue_is_full q = false := by simp [queue_is_full, hf]
    obtain ⟨hpos, h0, ht⟩ := waiters_head_tail _ _ r rest hl
    simp only [queue_send, hfull, Bool.not_false, if_true]
    simp only [copy_to_queue, hpos, if_true]
    refine ⟨trivial, ?_, ?_⟩
    · simp only [Queue.recv_waiters, notify_queue_event_fields]
      exact ht
    · rw [h0]
  · intro hf r rest hl
    have hempty : queue_is_empty q = false := by simp [queue_is_empty, hf]
    obtain ⟨hpos, h0, ht⟩ := waiters_head_tail _ _ r rest hl
    simp only [queue_receive, hempty, Bool.not_false, if_true]
    simp only [hpos, if_true]
    refine ⟨trivial, ?_, ?_⟩
    · simp only [Queue.send_waiters, notify_queue_event_fields]
      exact ht
    · rw [h0]

/-- What a successful `queue_send_to_front` does to the receiver wait list: it resumes the
first task and only decrements the count, so that the list loses its last entry and keeps
its first one. -/
theorem queue_send_to_front_drops_last (q : Queue) (x : Item) (t : Nat) (s : Scheduler)
    (others : QueueWorld → QueueWorld) (hf : q.items_count ≠ q.queue_length)
    (hpos : q.waiting_count_recv > 0) :
    (queue_send_to_front q (some x) t s others).1 = QueueStatus.QUEUE_OK ∧
    (queue_send_to_front q (some x) t s others).2.1.recv_waiters = q.recv_waiters.dropLast ∧
    (queue_send_to_front q (some x) t s others).2.2 = resume_task (q.waiting_tasks_recv 0) s := by
  have hfull : queue_is_full q = false := by simp [queue_is_full, hf]
  simp only [queue_send_to_front, hfull, Bool.not_false, if_true]
  simp only [copy_to_queue, hpos, if_true]
  refine ⟨trivial, ?_, trivial⟩
  simp only [Queue.recv_waiters, notify_queue_event_fields]
  obtain ⟨k, hk⟩ : ∃ k, q.waiting_count_recv = k + 1 := ⟨q.waiting_count_recv - 1, by omega⟩
  rw [hk, Nat.add_sub_cancel, List.range_succ, List.map_append]
  simp

/-- C14. Tasks 1 and 2 wait, in this order, to receive from an empty queue, and task 0
sends. After a successful `queue_send` the receiver wait list is `[2]`, as the claim says.
After a successful `queue_send_to_front` task 1 is resumed but the receiver wait list is
`[1]` and not `[2]`: the resumed task stays in front of the list and task 2 has left it. A
second `queue_send_to_front` resumes task 1 again and empties the list, and task 2 is still
blocked. -/
theorem queue_send_to_front_keeps_first_waiter :
    two_receivers_queue.recv_waiters = [1, 2] ∧
    (queue_send two_receivers_queue (some (Item.word 7)) 0 blocked_pair_scheduler id).1
      = QueueStatus.QUEUE_OK ∧
    (queue_send two_receivers_queue (some (Item.word 7)) 0
      blocked_pair_scheduler id).2.1.recv_waiters = [2] ∧
    (queue_send_to_front two_receivers_queue (some (Item.word 7)) 0
      blocked_pair_scheduler id).1 = QueueStatus.QUEUE_OK ∧
    (queue_send_to_front two_receivers_queue (some (Item.word 7)) 0
      blocked_pair_scheduler id).2.1.recv_waiters = [1] ∧
    ((queue_send_to_front two_receivers_queue (some (Item.word 7)) 0
      blocked_pair_scheduler id).2.2.tasks 1).state = TaskState.TASK_READY ∧
    (queue_send_to_front
      (queue_send_to_front two_receivers_queue (some (Item.word 7)) 0
        blocked_pair_scheduler id).2.1 (some (Item.word 8)) 0
      (queue_send_to_front two_receivers_queue (some (Item.word 7)) 0
        blocked_pair_scheduler id).2.2 id).1 = QueueStatus.QUEUE_OK ∧
    (queue_send_to_front
      (queue_send_to_front two_receivers_queue (some (Item.word 7)) 0
        blocked_pair_scheduler id).2.1 (some (Item.word 8)) 0
      (queue_send_to_front two_receivers_queue (some (Item.word 7)) 0
        blocked_pair_scheduler id).2.2 id).2.1.recv_waiters = [] ∧
    ((queue_send_to_front
      (queue_send_to_front two_receivers_queue (some (Item.word 7)) 0
        blocked_pair_scheduler id).2.1 (some (Item.word 8)) 0
      (queue_send_to_front two_receivers_queue (some (Item.word 7)) 0
        blocked_pair_scheduler id).2.2 id).2.2.tasks 2).state = TaskState.TASK_BLOCKED := by
  refine ⟨by decide, by decide, by decide, by decide, by decide, by decide, by decide,
    by decide, by decide⟩

/-! ## Waiters whose wait has failed -/

theorem schedule_iterate_links (n : Nat) : ∀ (s : Scheduler) (j : Nat),
    ((schedule^[n] s).tasks j).waiting_on = (s.tasks j).waiting_on ∧
    ((schedule^[n] s).tasks j).next = (s.tasks j).next := by
  induction n with
  | zero => intro s j; exact ⟨rfl, rfl⟩
  | succ n ih =>
    intro s j
    rw [Function.iterate_succ_apply, (ih _ j).1, (ih _ j).2]
    exact schedule_links s j

/-- A `sem_wait` that finds the count at 0 and during which only timer ticks occur returns
false, leaves its caller at the head of the wait list and links it to the former head. -/
theorem sem_wait_ticks (sem_ptr : Nat) (sem : Semaphore) (timeout : Nat) (s : Scheduler)
    (n : Nat) (h : sem.count = 0) :
    (sem_wait sem_ptr sem timeout s (ticks n)).1 = false ∧
    (sem_wait sem_ptr sem timeout s (ticks n)).2.1
      = { sem with waiting_list := some (get_current_task s) } ∧
    ((sem_wait sem_ptr sem timeout s (ticks n)).2.2.tasks (get_current_task s)).next
      = sem.waiting_list := by
  have hc : ¬ sem.count > 0 := by omega
  simp only [sem_wait, hc, if_false, ticks]
  refine ⟨?_, trivial, ?_⟩
  · rw [decide_eq_false_iff_not, (schedule_iterate_links _ _ _).1, (block_task_links _ _ _).1]
    simp [set_task_tasks]
  · rw [(schedule_iterate_links _ _ _).2, (block_task_links _ _ _).2]
    simp [set_task_tasks]

theorem mutex_lock_ticks (mutex_ptr : Nat) (m : Mutex) (timeout : Nat) (s : Scheduler)
    (n : Nat) (O : Nat) (ho : m.owner = some O) (hne : O ≠ get_current_task s) :
    (mutex_lock mutex_ptr m timeout s (ticks n)).1 = false ∧
    (mutex_lock mutex_ptr m timeout s (ticks n)).2.1
      = { m with waiting_list := some (get_current_task s) } ∧
    ((mutex_lock mutex_ptr m timeout s (ticks n)).2.2.tasks (get_current_task s)).next
      = m.waiting_list := by
  have h1 : ¬ (m.owner = some (get_current_task s)) := by
    rw [ho]; intro e; exact hne (Option.some.inj e)
  have h2 : ¬ (m.owner = none) := by rw [ho]; simp
  simp only [mutex_lock, h1, h2, if_false, ticks]
  refine ⟨?_, trivial, ?_⟩
  · rw [decide_eq_false_iff_not, (schedule_iterate_links _ _ _).1, (block_task_links _ _ _).1]
    simp [set_task_tasks]
  · rw [(schedule_iterate_links _ _ _).2, (block_task_links _ _ _).2]
    simp [set_task_tasks]

theorem mem_waiters_update (a : Nat → Nat) (c x : Nat) (hc : c + 1 < 2 ^ 32) :
    x ∈ (List.range (u32 (c + 1))).map (Function.update a c x) := by
  rw [u32_of_lt hc]
  exact List.mem_map.mpr ⟨c, List.mem_range.mpr (by omega), by simp⟩

/-- C15. A wait with a timeout during which nothing but timer ticks occur, for every
number of ticks, every timeout `t ≠ 0` and every scheduler state. `sem_wait` on a semaphore
with count 0 returns false and its caller is the head of the wait list when the call
returns; if the caller was the head already, left there by an earlier wait that failed, it
is now linked to itself. `mutex_lock` on a mutex owned by another task returns false and
its caller is the head of the wait list. `queue_send` and `queue_send_to_front` on a full
queue return QUEUE_TIMEOUT and the caller is in the sender wait list (for a wait array
that is not full); `queue_receive` on an empty queue returns QUEUE_TIMEOUT and the caller
is in the receiver wait list. -/
theorem timed_out_waiter_stays_linked (n p t : Nat) (s : Scheduler) (ht : t ≠ 0) :
    (∀ sem : Semaphore, sem.count = 0 →
      (sem_wait p sem t s (ticks n)).1 = false ∧
      (sem_wait p sem t s (ticks n)).2.1.waiting_list = some (get_current_task s) ∧
      (sem.waiting_list = some (get_current_task s) →
        ((sem_wait p sem t s (ticks n)).2.2.tasks (get_current_task s)).next
          = some (get_current_task s))) ∧
    (∀ (m : Mutex) (O : Nat), m.owner = some O → O ≠ get_current_task s →
      (mutex_lock p m t s (ticks n)).1 = false ∧
      (mutex_lock p m t s (ticks n)).2.1.waiting_list = some (get_current_task s)) ∧
    (∀ (q : Queue) (x : Item), q.items_count = q.queue_length → q.waiting_count_send < 32 →
      (queue_send q (some x) t s (ticks n)).1 = QueueStatus.QUEUE_TIMEOUT ∧
      get_current_task_id s ∈ (queue_send q (some x) t s (ticks n)).2.1.send_waiters) ∧
    (∀ (q : Queue) (x : Item), q.items_count = q.queue_length → q.waiting_count_send < 32 →
      (queue_send_to_front q (some x) t s (ticks n)).1 = QueueStatus.QUEUE_TIMEOUT ∧
      get_current_task_id s ∈ (queue_send_to_front q (some x) t s (ticks n)).2.1.send_waiters) ∧
    (∀ (q : Queue) (buf : Item), q.items_count = 0 → q.waiting_count_recv < 32 →
      (queue_receive q (some buf) t s (ticks n)).1 = QueueStatus.QUEUE_TIMEOUT ∧
      get_current_task_id s ∈ (queue_receive q (some buf) t s (ticks n)).2.1.recv_waiters) := by
  refine ⟨?_, ?_, ?_, ?_, ?_⟩
  · intro sem hc
    obtain ⟨h1, h2, h3⟩ := sem_wait_ticks p sem t s n hc
    refine ⟨h1, by rw [h2], fun hw => ?_⟩
    rw [h3, hw]
  · intro m O ho hne
    obtain ⟨h1, h2, _⟩ := mutex_lock_ticks p m t s n O ho hne
    exact ⟨h1, by rw [h2]⟩
  · intro q x hf hw
    have hfull : queue_is_full q = true := by simp [queue_is_full, hf]
    have h2 : queue_is_full
        { q with
          waiting_tasks_send := Function.update q.waiting_tasks_send q.waiting_count_send
            (get_current_task_id s),
          waiting_count_send := u32 (q.waiting_count_send + 1) } = true := by
      simp [queue_is_full, hf]
    simp only [queue_send, hfull, Bool.not_true, ht, if_false, ticks, Bool.false_eq_true, h2,
      if_true, Queue.send_waiters]
    refine ⟨trivial, ?_⟩
    exact mem_waiters_update q.waiting_tasks_send q.waiting_count_send _ (by omega)
  · intro q x hf hw
    have hfull : queue_is_full q = true := by simp [queue_is_full, hf]
    have h2 : queue_is_full
        { q with
          waiting_tasks_send := Function.update q.waiting_tasks_send q.waiting_count_send
            (get_current_task_id s),
          waiting_count_send := u32 (q.waiting_count_send + 1) } = true := by
      simp [queue_is_full, hf]
    simp only [queue_send_to_front, hfull, Bool.not_true, ht, if_false, ticks, Bool.false_eq_true, h2,
      if_true, Queue.send_waiters]
    refine ⟨trivial, ?_⟩
    exact mem_waiters_update q.waiting_tasks_send q.waiting_count_send _ (by omega)
  · intro q buf hf hw
    have hempty : queue_is_empty q = true := by simp [queue_is_empty, hf]
    have h2 : queue_is_empty
        { q with
          waiting_tasks_recv := Function.update q.waiting_tasks_recv q.waiting_count_recv
            (get_current_task_id s),
          waiting_count_recv := u32 (q.waiting_count_recv + 1) } = true := by
      simp [queue_is_empty, hf]
    simp only [queue_receive, hempty, Bool.not_true, ht, if_false, ticks, Bool.false_eq_true, h2,
      if_true, Queue.recv_waiters]
    refine ⟨trivial, ?_⟩
    exact mem_waiters_update q.waiting_tasks_recv q.waiting_count_recv _ (by omega)

/-- C15, an instance: task 0 calls `sem_wait(s, 5)` on a semaphore with count 0 and an
empty wait list and one tick occurs; the call returns false and task 0 is the head of the
wait list. -/
theorem timed_out_waiter_stays_linked_witness :
    (sem_wait 1000 { count := 0, waiting_list := none } 5 handoff_scheduler (ticks 1)).1
      = false ∧
    (sem_wait 1000 { count := 0, waiting_list := none } 5 handoff_scheduler
      (ticks 1)).2.1.waiting_list = some 0 :=
  ⟨((timed_out_waiter_stays_linked 1 1000 5 handoff_scheduler (by decide)).1
      { count := 0, waiting_list := none } rfl).1,
   ((timed_out_waiter_stays_linked 1 1000 5 handoff_scheduler (by decide)).1
      { count := 0, waiting_list := none } rfl).2.1⟩

/-! ## Scheduler -/

theorem create_task_full (f a p nm : Nat) (s : Scheduler) (h : s.task_count ≥ MAX_TASKS) :
    create_task f a p nm s = (-1, s) := by
  simp [create_task, h]

theorem create_task_room (f a p nm : Nat) (s : Scheduler) (h : s.task_count < MAX_TASKS) :
    (create_task f a p nm s).1 = (s.task_count : Int) ∧
    (create_task f a p nm s).2.task_count = s.task_count + 1 ∧
    ((create_task f a p nm s).2.tasks s.task_count).state = TaskState.TASK_READY ∧
    ((create_task f a p nm s).2.tasks s.task_count).priority = p ∧
    ((create_task f a p nm s).2.tasks s.task_count).task_function = f ∧
    ((create_task f a p nm s).2.tasks s.task_count).arg = a ∧
    ((create_task f a p nm s).2.tasks s.task_count).name = nm ∧
    ((create_task f a p nm s).2.tasks s.task_count).blocked_timeout = 0 ∧
    (∀ j, j ≠ s.task_count → (create_task f a p nm s).2.tasks j = s.tasks j) := by
  have h1 : ¬ s.task_count ≥ MAX_TASKS := by omega
  have h2 : u32 (s.task_count + 1) = s.task_count + 1 := by
    apply u32_of_lt
    simp only [MAX_TASKS] at h
    omega
  simp only [create_task, h1, if_false]
  refine ⟨rfl, h2, ?_, ?_, ?_, ?_, ?_, ?_, ?_⟩
  all_goals first
    | (intro j hj; simp only [set_task_tasks, hj, if_false])
    | simp only [set_task_tasks, if_true]

theorem create_tasks_cons (a : TaskArgs) (rest : List TaskArgs) (s : Scheduler) :
    create_tasks (a :: rest) s
      = ((create_task a.task_func a.arg a.priority a.name s).1 ::
          (create_tasks rest (create_task a.task_func a.arg a.priority a.name s).2).1,
         (create_tasks rest (create_task a.task_func a.arg a.priority a.name s).2).2) := rfl

/-- A sequence of calls of `create_task` on a table that holds `c ≤ 32` tasks. -/
theorem create_tasks_spec : ∀ (calls : List TaskArgs) (s : Scheduler),
    s.task_count ≤ MAX_TASKS →
    (create_tasks calls s).1
      = (List.range calls.length).map
          (fun i => if s.task_count + i < MAX_TASKS then ((s.task_count + i : Nat) : Int) else -1) ∧
    (create_tasks calls s).2.task_count = min (s.task_count + calls.length) MAX_TASKS ∧
    (∀ j, j < s.task_count → (create_tasks calls s).2.tasks j = s.tasks j) ∧
    (∀ i a, s.task_count + i < MAX_TASKS → calls[i]? = some a →
      ((create_tasks calls s).2.tasks (s.task_count + i)).state = TaskState.TASK_READY ∧
      ((create_tasks calls s).2.tasks (s.task_count + i)).priority = a.priority ∧
      ((create_tasks calls s).2.tasks (s.task_count + i)).task_function = a.task_func ∧
      ((create_tasks calls s).2.tasks (s.task_count + i)).arg = a.arg ∧
      ((create_tasks calls s).2.tasks (s.task_count + i)).name = a.name ∧
      ((create_tasks calls s).2.tasks (s.task_count + i)).blocked_timeout = 0) := by
  intro calls
  induction calls with
  | nil =>
    intro s hs
    refine ⟨rfl, ?_, fun j _ => rfl, ?_⟩
    · show s.task_count = min (s.task_count + 0) MAX_TASKS
      rw [Nat.add_zero, Nat.min_eq_left hs]
    · intro i a _ h
      simp at h
  | cons x rest ih =>
    intro s hs
    rw [create_tasks_cons]
    by_cases hc : s.task_count < MAX_TASKS
    · obtain ⟨c1, c2, c3, c4, c5, c6, c7, c8, c9⟩ :=
        create_task_room x.task_func x.arg x.priority x.name s hc
      obtain ⟨i1, i2, i3, i4⟩ := ih (create_task x.task_func x.arg x.priority x.name s).2
        (by rw [c2]; omega)
      simp only
      refine ⟨?_, ?_, ?_, ?_⟩
      · rw [i1, c1, c2, List.length_cons, List.range_succ_eq_map, List.map_cons, List.map_map]
        simp only [Nat.add_zero, hc, if_true]
        congr 1
        apply List.map_congr_left
        intro i _
        simp only [Function.comp, Nat.succ_eq_add_one]
        have e : s.task_count + 1 + i = s.task_count + (i + 1) := by omega
        rw [e]
      · rw [i2, c2, List.length_cons]
        congr 1
        omega
      · intro j hj
        rw [i3 j (by rw [c2]; omega), c9 j (by omega)]
      · intro i a hi ha
        cases i with
        | zero =>
          simp only [List.getElem?_cons_zero, Option.some.injEq] at ha
          subst ha
          rw [Nat.add_zero, i3 _ (by rw [c2]; omega)]
          exact ⟨c3, c4, c5, c6, c7, c8⟩
        | succ i =>
          simp only [List.getElem?_cons_succ] at ha
          have := i4 i a (by rw [c2]; omega) ha
          rw [c2] at this
          have e : s.task_count + 1 + i = s.task_count + (i + 1) := by omega
          rw [e] at this
          exact this
    · have hfull : s.task_count ≥ MAX_TASKS := by omega
      have e := create_task_full x.task_func x.arg x.priority x.name s hfull
      obtain ⟨i1, i2, i3, i4⟩ := ih s hs
      rw [e]
      simp only
      refine ⟨?_, ?_, i3, ?_⟩
      · rw [i1, List.length_cons, List.range_succ_eq_map, List.map_cons, List.map_map]
        simp only [Nat.add_zero, hc, if_false]
        congr 1
        apply List.map_congr_left
        intro i _
        have h1 : ¬ (s.task_count + i < MAX_TASKS) := by omega
        have h2 : ¬ (s.task_count + (i + 1) < MAX_TASKS) := by omega
        simp only [Function.comp, Nat.succ_eq_add_one, h1, h2, if_false]
      · rw [i2, List.length_cons]
        have : s.task_count = MAX_TASKS := by omega
        rw [this]
        simp
      · intro i a hi _
        omega

/-- C16. After `scheduler_init`, for every sequence of calls of `create_task`: call `i`
(counted from 0) returns `i` when `i < 32` and -1 otherwise; `task_count` ends as the
number of calls, at most 32; for `i < 32` task `i` is READY with the priority, function,
argument and name of call `i` and `blocked_timeout = 0`; and in every scheduler state with
`task_count = 32` a call of `create_task` returns -1 and leaves the scheduler unchanged. -/
theorem create_task_capacity (s0 : Scheduler) (calls : List TaskArgs) :
    (create_tasks calls (scheduler_init s0)).1
      = (List.range calls.length).map (fun (i : Nat) => if i < 32 then (i : Int) else -1) ∧
    (create_tasks calls (scheduler_init s0)).2.task_count = min calls.length 32 ∧
    (∀ i a, i < 32 → calls[i]? = some a →
      ((create_tasks calls (scheduler_init s0)).2.tasks i).state = TaskState.TASK_READY ∧
      ((create_tasks calls (scheduler_init s0)).2.tasks i).priority = a.priority ∧
      ((create_tasks calls (scheduler_init s0)).2.tasks i).task_function = a.task_func ∧
      ((create_tasks calls (scheduler_init s0)).2.tasks i).arg = a.arg ∧
      ((create_tasks calls (scheduler_init s0)).2.tasks i).name = a.name ∧
      ((create_tasks calls (scheduler_init s0)).2.tasks i).blocked_timeout = 0) ∧
    (∀ (s : Scheduler) (f a p nm : Nat), s.task_count = 32 →
      create_task f a p nm s = (-1, s)) := by
  obtain ⟨h1, h2, _, h4⟩ := create_tasks_spec calls (scheduler_init s0)
    (by simp [scheduler_init, MAX_TASKS])
  have hz : (scheduler_init s0).task_count = 0 := rfl
  rw [hz] at h1 h2 h4
  simp only [Nat.zero_add, MAX_TASKS] at h1 h2 h4
  refine ⟨h1, h2, h4, ?_⟩
  intro s f a p nm hs
  exact create_task_full f a p nm s (by rw [hs]; decide)

/-- C17. The only READY task has priority 0 and the current task is blocked:
`find_next_task` returns the current task, which is not READY, and not the READY task. -/
theorem find_next_task_skips_priority_zero :
    idle_ready_scheduler.task_count = 2 ∧
    (idle_ready_scheduler.tasks 1).state = TaskState.TASK_READY ∧
    (idle_ready_scheduler.tasks 1).priority = 0 ∧
    (idle_ready_scheduler.tasks 0).state = TaskState.TASK_BLOCKED ∧
    find_next_task idle_ready_scheduler = 0 ∧
    ¬ (find_next_task idle_ready_scheduler = 1) := by
  refine ⟨by decide, by decide, by decide, by decide, by decide, by decide⟩

/-- C18. The current task runs with priority 5 and the only READY task has priority 3: a
tick switches to the task of priority 3 and leaves the task of priority 5 READY, so that
after the tick a READY task has a priority greater than that of the RUNNING task. -/
theorem schedule_preempts_for_lower_priority :
    (lower_ready_scheduler.tasks lower_ready_scheduler.current_task).state
      = TaskState.TASK_RUNNING ∧
    (lower_ready_scheduler.tasks lower_ready_scheduler.current_task).priority = 5 ∧
    (lower_ready_scheduler.tasks 1).state = TaskState.TASK_READY ∧
    (lower_ready_scheduler.tasks 1).priority = 3 ∧
    (schedule lower_ready_scheduler).current_task = 1 ∧
    ((schedule lower_ready_scheduler).tasks 1).state = TaskState.TASK_RUNNING ∧
    ((schedule lower_ready_scheduler).tasks 1).priority = 3 ∧
    ((schedule lower_ready_scheduler).tasks 0).state = TaskState.TASK_READY ∧
    ((schedule lower_ready_scheduler).tasks 0).priority = 5 := by
  refine ⟨by decide, by decide, by decide, by decide, by decide, by decide, by decide,
    by decide, by decide⟩

/-- C19. Task 0 runs and calls `block_task(5)`. When task 1 is READY, task 0 is READY
after the call, with `blocked_timeout = 4`, and task 1 runs. When task 0 is the only task,
it is BLOCKED after the call but with `blocked_timeout = 4`; and after `block_task(1)` it
is READY with `blocked_timeout = 0`. -/
theorem block_task_leaves_caller_ready :
    (block_task 5 handoff_scheduler).current_task = 1 ∧
    ((block_task 5 handoff_scheduler).tasks 0).state = TaskState.TASK_READY ∧
    ((block_task 5 handoff_scheduler).tasks 0).blocked_timeout = 4 ∧
    ((block_task 5 single_task_scheduler).tasks 0).state = TaskState.TASK_BLOCKED ∧
    ((block_task 5 single_task_scheduler).tasks 0).blocked_timeout = 4 ∧
    ((block_task 1 single_task_scheduler).tasks 0).state = TaskState.TASK_READY ∧
    ((block_task 1 single_task_scheduler).tasks 0).blocked_timeout = 0 := by
  refine ⟨by decide, by decide, by decide, by decide, by decide, by decide, by decide⟩

/-- The loop of `find_next_task` after the tasks below `m`: either no READY task of nonzero
priority has been met and the choice is still the current task, or the choice is the first
READY task of greatest priority among the tasks below `m`. -/
theorem find_next_task_loop (s : Scheduler) : ∀ (m : Nat),
    (((List.range m).foldl (find_next_task_step s) (LOWEST_PRIORITY, s.current_task)).1 = 0 ∧
      ((List.range m).foldl (find_next_task_step s) (LOWEST_PRIORITY, s.current_task)).2
        = s.current_task ∧
      (∀ j, j < m → (s.tasks j).state = TaskState.TASK_READY → (s.tasks j).priority = 0)) ∨
    (((List.range m).foldl (find_next_task_step s) (LOWEST_PRIORITY, s.current_task)).2 < m ∧
      (s.tasks ((List.range m).foldl (find_next_task_step s)
        (LOWEST_PRIORITY, s.current_task)).2).state = TaskState.TASK_READY ∧
      (s.tasks ((List.range m).foldl (find_next_task_step s)
        (LOWEST_PRIORITY, s.current_task)).2).priority
        = ((List.range m).foldl (find_next_task_step s) (LOWEST_PRIORITY, s.current_task)).1 ∧
      0 < ((List.range m).foldl (find_next_task_step s) (LOWEST_PRIORITY, s.current_task)).1 ∧
      (∀ j, j < m → (s.tasks j).state = TaskState.TASK_READY →
        (s.tasks j).priority
          ≤ ((List.range m).foldl (find_next_task_step s) (LOWEST_PRIORITY, s.current_task)).1) ∧
      (∀ j, j < ((List.range m).foldl (find_next_task_step s)
          (LOWEST_PRIORITY, s.current_task)).2 →
        (s.tasks j).state = TaskState.TASK_READY →
        (s.tasks j).priority
          < ((List.range m).foldl (find_next_task_step s) (LOWEST_PRIORITY, s.current_task)).1)) := by
  intro m
  induction m with
  | zero =>
    left
    exact ⟨rfl, rfl, fun j h => absurd h (Nat.not_lt_zero j)⟩
  | succ m ih =>
    rw [List.range_succ, List.foldl_append]
    simp only [List.foldl_cons, List.foldl_nil]
    generalize (List.range m).foldl (find_next_task_step s) (LOWEST_PRIORITY, s.current_task)
      = acc at ih
    unfold find_next_task_step
    by_cases hc : (s.tasks m).state = TaskState.TASK_READY ∧ (s.tasks m).priority > acc.1
    · rw [if_pos hc]
      right
      refine ⟨Nat.lt_succ_self m, hc.1, rfl, by simp only; omega, ?_, ?_⟩
      · intro j hj hr
        simp only
        rcases Nat.lt_succ_iff_lt_or_eq.mp hj with h | h
        · rcases ih with ⟨a1, _, a3⟩ | ⟨_, _, _, _, b5, _⟩
          · rw [a3 j h hr]; exact Nat.zero_le _
          · exact Nat.le_of_lt (Nat.lt_of_le_of_lt (b5 j h hr) hc.2)
        · rw [h]
      · intro j hj hr
        simp only at hj ⊢
        rcases ih with ⟨a1, _, a3⟩ | ⟨_, _, _, _, b5, _⟩
        · rw [a3 j hj hr]; omega
        · exact Nat.lt_of_le_of_lt (b5 j hj hr) hc.2
    · rw [if_neg hc]
      rcases ih with ⟨a1, a2, a3⟩ | ⟨b1, b2, b3, b4, b5, b6⟩
      · left
        refine ⟨a1, a2, ?_⟩
        intro j hj hr
        rcases Nat.lt_succ_iff_lt_or_eq.mp hj with h | h
        · exact a3 j h hr
        · subst h
          by_contra hne
          exact hc ⟨hr, by omega⟩
      · right
        refine ⟨Nat.lt_succ_of_lt b1, b2, b3, b4, ?_, b6⟩
        intro j hj hr
        rcases Nat.lt_succ_iff_lt_or_eq.mp hj with h | h
        · exact b5 j h hr
        · subst h
          by_contra hne
          exact hc ⟨hr, by omega⟩

/-- What `find_next_task` returns. If some registered task is READY with a nonzero
priority, it is the first READY task of greatest priority; if every READY task has priority
0 (or none is READY), it is the current task, whatever its state. -/
theorem find_next_task_spec (s : Scheduler) :
    ((∃ i, i < s.task_count ∧ (s.tasks i).state = TaskState.TASK_READY ∧
        0 < (s.tasks i).priority) →
      find_next_task s < s.task_count ∧
      (s.tasks (find_next_task s)).state = TaskState.TASK_READY ∧
      0 < (s.tasks (find_next_task s)).priority ∧
      (∀ j, j < s.task_count → (s.tasks j).state = TaskState.TASK_READY →
        (s.tasks j).priority ≤ (s.tasks (find_next_task s)).priority) ∧
      (∀ j, j < find_next_task s → (s.tasks j).state = TaskState.TASK_READY →
        (s.tasks j).priority < (s.tasks (find_next_task s)).priority)) ∧
    ((∀ i, i < s.task_count → (s.tasks i).state = TaskState.TASK_READY →
        (s.tasks i).priority = 0) →
      find_next_task s = s.current_task) := by
  unfold find_next_task
  rcases find_next_task_loop s s.task_count with ⟨a1, a2, a3⟩ | ⟨b1, b2, b3, b4, b5, b6⟩
  · constructor
    · rintro ⟨i, hi, hr, hp⟩
      rw [a3 i hi hr] at hp
      exact absurd hp (Nat.lt_irrefl 0)
    · intro _
      exact a2
  · constructor
    · intro _
      refine ⟨b1, b2, by rw [b3]; exact b4, ?_, ?_⟩
      · intro j hj hr; rw [b3]; exact b5 j hj hr
      · intro j hj hr; rw [b3]; exact b6 j hj hr
    · intro h
      have := h _ b1 b2
      rw [b3] at this
      omega

/-- The task returned by `find_next_task` is the current task or a registered READY
task. -/
theorem find_next_task_cases (s : Scheduler) :
    find_next_task s = s.current_task ∨
    (find_next_task s < s.task_count ∧
      (s.tasks (find_next_task s)).state = TaskState.TASK_READY ∧
      0 < (s.tasks (find_next_task s)).priority) := by
  unfold find_next_task
  rcases find_next_task_loop s s.task_count with ⟨_, a2, _⟩ | ⟨b1, b2, b3, b4, _, _⟩
  · left; exact a2
  · right; exact ⟨b1, b2, by rw [b3]; exact b4⟩

theorem schedule_timeout_step_other (s : Scheduler) (i j : Nat) (h : j ≠ i) :
    (schedule_timeout_step s i).tasks j = s.tasks j := by
  unfold schedule_timeout_step
  split
  · simp only []
    split <;> simp only [set_task_tasks, h, if_false]
  · rfl

theorem schedule_timeout_step_fields (s : Scheduler) (i : Nat) :
    (schedule_timeout_step s i).current_task = s.current_task ∧
    (schedule_timeout_step s i).next_task = s.next_task ∧
    (schedule_timeout_step s i).task_count = s.task_count ∧
    (schedule_timeout_step s i).scheduler_started = s.scheduler_started ∧
    (schedule_timeout_step s i).system_ticks = s.system_ticks := by
  unfold schedule_timeout_step
  split
  · simp only []
    split <;> exact ⟨rfl, rfl, rfl, rfl, rfl⟩
  · exact ⟨rfl, rfl, rfl, rfl, rfl⟩

/-- What the body of the timeout loop does to the TCB it looks at: a BLOCKED task with a
timeout `t > 0` gets the timeout `t - 1` and becomes READY when `t = 1`; any other task is
left as it is. -/
theorem schedule_timeout_step_self (s : Scheduler) (i : Nat) :
    (schedule_timeout_step s i).tasks i =
      if (s.tasks i).state = TaskState.TASK_BLOCKED ∧ (s.tasks i).blocked_timeout > 0 then
        if (s.tasks i).blocked_timeout - 1 = 0 then
          { s.tasks i with blocked_timeout := (s.tasks i).blocked_timeout - 1,
                           state := TaskState.TASK_READY }
        else { s.tasks i with blocked_timeout := (s.tasks i).blocked_timeout - 1 }
      else s.tasks i := by
  unfold schedule_timeout_step
  split
  · simp only []
    split <;> simp only [set_task_tasks, if_true]
  · rfl

/-- The timeout loop of `schedule` over the tasks below `n` applies its body once to each
of them, on the TCB as it was before the loop. -/
theorem schedule_timeout_loop_task : ∀ (n : Nat) (s : Scheduler),
    (∀ i, i < n → ((List.range n).foldl schedule_timeout_step s).tasks i
      = (schedule_timeout_step s i).tasks i) ∧
    (∀ i, n ≤ i → ((List.range n).foldl schedule_timeout_step s).tasks i = s.tasks i) ∧
    ((List.range n).foldl schedule_timeout_step s).current_task = s.current_task ∧
    ((List.range n).foldl schedule_timeout_step s).next_task = s.next_task ∧
    ((List.range n).foldl schedule_timeout_step s).task_count = s.task_count ∧
    ((List.range n).foldl schedule_timeout_step s).scheduler_started = s.scheduler_started ∧
    ((List.range n).foldl schedule_timeout_step s).system_ticks = s.system_ticks := by
  intro n
  induction n with
  | zero =>
    intro s
    exact ⟨fun i h => absurd h (Nat.not_lt_zero i), fun i _ => rfl, rfl, rfl, rfl, rfl, rfl⟩
  | succ n ih =>
    intro s
    obtain ⟨h1, h2, h3, h4, h5, h6, h7⟩ := ih s
    obtain ⟨f1, f2, f3, f4, f5⟩ :=
      schedule_timeout_step_fields ((List.range n).foldl schedule_timeout_step s) n
    rw [List.range_succ, List.foldl_append]
    simp only [List.foldl_cons, List.foldl_nil]
    refine ⟨?_, ?_, by rw [f1, h3], by rw [f2, h4], by rw [f3, h5], by rw [f4, h6],
      by rw [f5, h7]⟩
    · intro i hi
      by_cases e : i = n
      · subst e
        rw [schedule_timeout_step_self, schedule_timeout_step_self, h2 i (Nat.le_refl i)]
      · rw [schedule_timeout_step_other _ _ _ e]
        exact h1 i (by omega)
    · intro i hi
      rw [schedule_timeout_step_other _ _ _ (by omega)]
      exact h2 i (by omega)

/-- The scheduler after `schedule` on a started scheduler with tasks: with `s2` the state
after the timeout loop and `r = find_next_task s2`, every TCB other than the old current
task and `r` is as in `s2`; when `r` is not the current task, the old current task is as in
`s2` but READY and `r` is as in `s2` but RUNNING. -/
theorem schedule_started (s : Scheduler) (hs : s.scheduler_started = true)
    (hc : s.task_count ≠ 0) :
    ∃ s2 : Scheduler,
      (∀ i, i < s.task_count → s2.tasks i = (schedule_timeout_step s i).tasks i) ∧
      (∀ i, s.task_count ≤ i → s2.tasks i = s.tasks i) ∧
      s2.current_task = s.current_task ∧ s2.task_count = s.task_count ∧
      (find_next_task s2 = s.current_task → (schedule s).tasks = s2.tasks) ∧
      (schedule s).current_task = find_next_task s2 ∧
      (find_next_task s2 ≠ s.current_task →
        (schedule s).tasks (find_next_task s2)
          = { s2.tasks (find_next_task s2) with state := TaskState.TASK_RUNNING } ∧
        (schedule s).tasks s.current_task
          = { s2.tasks s.current_task with state := TaskState.TASK_READY } ∧
        (∀ i, i ≠ s.current_task → i ≠ find_next_task s2 →
          (schedule s).tasks i = s2.tasks i)) := by
  obtain ⟨h1, h2, h3, h4, h5, h6, h7⟩ := schedule_timeout_loop_task s.task_count
    { s with system_ticks := u32 (s.system_ticks + 1) }
  have hcond : (!s.scheduler_started || s.task_count == 0) = false := by
    simp [hs, hc]
  refine ⟨(List.range s.task_count).foldl schedule_timeout_step
    { s with system_ticks := u32 (s.system_ticks + 1) }, ?_, h2, h3, h5, ?_, ?_, ?_⟩
  · intro i hi
    rw [h1 i hi, schedule_timeout_step_self, schedule_timeout_step_self]
  · intro e
    unfold schedule
    rw [if_neg (by rw [hcond]; decide)]
    simp only []
    rw [if_neg (by rw [h3]; simp only [ne_eq, not_not]; exact e.symm)]
  · unfold schedule
    rw [if_neg (by rw [hcond]; decide)]
    simp only []
    split
    · rfl
    · rename_i hne
      simp only [ne_eq, not_not] at hne
      rw [← hne]
  · intro hne
    unfold schedule
    rw [if_neg (by rw [hcond]; decide)]
    simp only []
    rw [if_pos (by rw [h3]; exact fun e => hne e.symm)]
    simp only [Scheduler.set_task, h3]
    refine ⟨?_, ?_, ?_⟩
    · rw [Function.update_same, Function.update_noteq hne]
    · rw [Function.update_noteq (fun e => hne e.symm), Function.update_same]
    · intro i hi1 hi2
      rw [Function.update_noteq hi2, Function.update_noteq hi1]

/-- A tick preempts the RUNNING current task whenever some registered task is READY with a
nonzero priority, whatever the two priorities are: the current task becomes READY and
another task runs. -/
theorem schedule_switches_to_ready (s : Scheduler) (hs : s.scheduler_started = true)
    (hrun : (s.tasks s.current_task).state = TaskState.TASK_RUNNING)
    (j : Nat) (hj : j < s.task_count) (hjr : (s.tasks j).state = TaskState.TASK_READY)
    (hjp : 0 < (s.tasks j).priority) :
    (schedule s).current_task ≠ s.current_task ∧
    ((schedule s).tasks s.current_task).state = TaskState.TASK_READY ∧
    ((schedule s).tasks s.current_task).priority = (s.tasks s.current_task).priority ∧
    ((schedule s).tasks (schedule s).current_task).state = TaskState.TASK_RUNNING := by
  obtain ⟨s2, g1, g2, g3, g4, g5, g6, g7⟩ := schedule_started s hs (by omega)
  have hj2 : s2.tasks j = s.tasks j := by
    rw [g1 j hj, schedule_timeout_step_self, if_neg (by rw [hjr]; simp)]
  have hcur2 : s2.tasks s.current_task = s.tasks s.current_task := by
    by_cases hc : s.current_task < s.task_count
    · rw [g1 _ hc, schedule_timeout_step_self, if_neg (by rw [hrun]; simp)]
    · exact g2 _ (by omega)
  obtain ⟨r1, r2, _⟩ := (find_next_task_spec s2).1
    ⟨j, by rw [g4]; exact hj, by rw [hj2]; exact hjr, by rw [hj2]; exact hjp⟩
  have hne : find_next_task s2 ≠ s.current_task := by
    intro e
    rw [e, hcur2, hrun] at r2
    exact absurd r2 (by decide)
  obtain ⟨k1, k2, _⟩ := g7 hne
  refine ⟨by rw [g6]; exact hne, by rw [k2], by rw [k2, hcur2], by rw [g6, k1]⟩

/-- After `block_task(t)` with `t > 0` on a started scheduler, the timeout of the caller
is `t - 1`, and the caller is READY if another task has been selected. -/
theorem block_task_timeout (t : Nat) (s : Scheduler) (hs : s.scheduler_started = true)
    (hcur : s.current_task < s.task_count) (ht : 0 < t) :
    ((block_task t s).tasks s.current_task).blocked_timeout = t - 1 ∧
    ((block_task t s).current_task ≠ s.current_task →
      ((block_task t s).tasks s.current_task).state = TaskState.TASK_READY) := by
  have e : block_task t s = schedule
      ((s.set_task s.current_task
          { s.tasks s.current_task with state := TaskState.TASK_BLOCKED }).set_task
        s.current_task
        { (s.set_task s.current_task
            { s.tasks s.current_task with state := TaskState.TASK_BLOCKED }).tasks
            s.current_task with blocked_timeout := t }) := by
    unfold block_task
    rw [if_neg (by rw [hs]; decide)]
    rfl
  rw [e]
  generalize hb : (s.set_task s.current_task
          { s.tasks s.current_task with state := TaskState.TASK_BLOCKED }).set_task
        s.current_task
        { (s.set_task s.current_task
            { s.tasks s.current_task with state := TaskState.TASK_BLOCKED }).tasks
            s.current_task with blocked_timeout := t } = b
  have b1 : b.current_task = s.current_task := by rw [← hb]; rfl
  have b2 : b.task_count = s.task_count := by rw [← hb]; rfl
  have b3 : b.scheduler_started = true := by rw [← hb]; exact hs
  have b4 : (b.tasks s.current_task).state = TaskState.TASK_BLOCKED := by
    rw [← hb]; simp only [set_task_tasks, if_true]
  have b5 : (b.tasks s.current_task).blocked_timeout = t := by
    rw [← hb]; simp only [set_task_tasks, if_true]
  obtain ⟨s2, g1, _, _, _, g5, g6, g7⟩ := schedule_started b b3 (by rw [b2]; omega)
  rw [b1] at g5 g7
  have h2 : (s2.tasks s.current_task).blocked_timeout = t - 1 := by
    rw [g1 _ (by rw [b2]; exact hcur), schedule_timeout_step_self,
      if_pos ⟨b4, by rw [b5]; exact ht⟩, b5]
    split <;> simp only
  by_cases hr : find_next_task s2 = s.current_task
  · refine ⟨by rw [g5 hr]; exact h2, fun h => ?_⟩
    rw [g6] at h
    exact absurd hr h
  · obtain ⟨_, k2, _⟩ := g7 hr
    exact ⟨by rw [k2]; exact h2, fun _ => by rw [k2]⟩

/-- The timeout accounting of a tick for a registered task other than the current task:
a BLOCKED task with timeout `t ≥ 2` stays BLOCKED with timeout `t - 1`; with `t = 1` it gets
the timeout 0 and is no longer BLOCKED; with `t = 0` it stays BLOCKED with timeout 0. -/
theorem schedule_tick_other_task (s : Scheduler) (hs : s.scheduler_started = true)
    (i : Nat) (hi : i < s.task_count) (hne : i ≠ s.current_task)
    (hb : (s.tasks i).state = TaskState.TASK_BLOCKED) :
    (2 ≤ (s.tasks i).blocked_timeout →
      ((schedule s).tasks i).state = TaskState.TASK_BLOCKED ∧
      ((schedule s).tasks i).blocked_timeout = (s.tasks i).blocked_timeout - 1) ∧
    ((s.tasks i).blocked_timeout = 1 →
      ((schedule s).tasks i).state ≠ TaskState.TASK_BLOCKED ∧
      ((schedule s).tasks i).blocked_timeout = 0) ∧
    ((s.tasks i).blocked_timeout = 0 →
      ((schedule s).tasks i).state = TaskState.TASK_BLOCKED ∧
      ((schedule s).tasks i).blocked_timeout = 0) := by
  obtain ⟨s2, g1, _, g3, _, g5, _, g7⟩ := schedule_started s hs (by omega)
  have hi2 := g1 i hi
  rw [schedule_timeout_step_self] at hi2
  -- the TCB after the tick is the TCB after the timeout loop, up to a change from READY
  -- to RUNNING
  have hfin : (schedule s).tasks i = s2.tasks i ∨
      ((s2.tasks i).state = TaskState.TASK_READY ∧
        (schedule s).tasks i = { s2.tasks i with state := TaskState.TASK_RUNNING }) := by
    by_cases hr : find_next_task s2 = s.current_task
    · left; rw [g5 hr]
    · obtain ⟨k1, _, k3⟩ := g7 hr
      by_cases e : i = find_next_task s2
      · right
        rcases find_next_task_cases s2 with c | ⟨_, c, _⟩
        · rw [g3] at c; exact absurd c hr
        · rw [e]; exact ⟨c, k1⟩
      · left; exact k3 i hne e
  refine ⟨?_, ?_, ?_⟩
  · intro ht
    rw [if_pos ⟨hb, by omega⟩, if_neg (by omega)] at hi2
    rcases hfin with h | ⟨h, _⟩
    · rw [h, hi2]; exact ⟨hb, rfl⟩
    · rw [hi2] at h
      simp only [hb] at h
      exact absurd h (by decide)
  · intro ht
    rw [if_pos ⟨hb, by omega⟩, if_pos (by omega)] at hi2
    rcases hfin with h | ⟨_, h⟩
    · rw [h, hi2]; exact ⟨by simp, by simp only; omega⟩
    · rw [h, hi2]; exact ⟨by simp, by simp only; omega⟩
  · intro ht
    rw [if_neg (by omega)] at hi2
    rcases hfin with h | ⟨h, _⟩
    · rw [h, hi2]; exact ⟨hb, ht⟩
    · rw [hi2, hb] at h
      exact absurd h (by decide)

/-! ## Initial task frame -/

/-- A heap has one list of blocks. -/
theorem Seg.same_list {b : Nat → MemoryBlock} : ∀ {l l2 : List Blk} {p : Option Nat} {a e e2 : Nat},
    Seg b p a l none e → Seg b p a l2 none e2 → l = l2 := by
  intro l
  induction l with
  | nil =>
    intro l2 p a e e2 h1 h2
    cases l2 with
    | nil => rfl
    | cons k2 l2 =>
      have e1 : p = none := h1.1
      have e3 : p = some a := h2.1
      rw [e1] at e3
      exact absurd e3 (by simp)
  | cons k l ih =>
    intro l2 p a e e2 h1 h2
    cases l2 with
    | nil =>
      have e1 : p = some a := h1.1
      have e3 : p = none := h2.1
      rw [e1] at e3
      exact absurd e3 (by simp)
    | cons k2 l2 =>
      obtain ⟨_, a2, a3, a4, a5⟩ := h1
      obtain ⟨_, b2, b3, b4, b5⟩ := h2
      have hk : k = k2 := by
        cases k; cases k2
        simp only at a2 a3 a4 b2 b3 b4
        simp only [Blk.mk.injEq]
        exact ⟨a2.trans b2.symm, a3.symm.trans b3, a4.symm.trans b4⟩
      subst hk
      rw [ih a5 b5]

/-- The blocks of a segment, with their headers, fill it exactly. -/
theorem Seg.total {b : Nat → MemoryBlock} : ∀ {l : List Blk} {p : Option Nat} {a : Nat}
    {q : Option Nat} {e : Nat}, Seg b p a l q e →
    a + (l.map (fun k => k.size + sizeof_MemoryBlock)).sum = e := by
  intro l
  induction l with
  | nil => intro p a q e h; simp [h.2]
  | cons k l ih =>
    intro p a q e h
    obtain ⟨_, _, _, _, h5⟩ := h
    have := ih h5
    simp only [List.map_cons, List.sum_cons]
    omega

/-- In a segment each block is linked to the next one, which begins where its payload
ends. -/
theorem Seg.chain {b : Nat → MemoryBlock} : ∀ {l : List Blk} {p : Option Nat} {a : Nat}
    {q : Option Nat} {e : Nat}, Seg b p a l q e →
    List.Chain' (fun x y => (b x).next = some y ∧ y = x + sizeof_MemoryBlock + (b x).size)
      (l.map (fun k => k.off)) := by
  intro l
  induction l with
  | nil => intro p a q e _; exact List.chain'_nil
  | cons k l ih =>
    intro p a q e h
    obtain ⟨_, h2, h3, _, h5⟩ := h
    cases l with
    | nil => exact List.chain'_singleton _
    | cons k2 l2 =>
      have hc := ih h5
      obtain ⟨g1, g2, _⟩ := h5
      simp only [List.map_cons] at hc ⊢
      refine List.Chain'.cons ?_ hc
      rw [h2, h3, g2]
      exact ⟨g1, rfl⟩

/-- The link of the last block of a segment is the link that ends the segment. -/
theorem Seg.last_next {b : Nat → MemoryBlock} : ∀ {l : List Blk} {p : Option Nat} {a : Nat}
    {q : Option Nat} {e : Nat}, Seg b p a l q e →
    ∀ x ∈ (l.map (fun k => k.off)).getLast?, (b x).next = q := by
  intro l
  induction l with
  | nil => intro p a q e _ x hx; simp at hx
  | cons k l ih =>
    intro p a q e h x hx
    obtain ⟨_, h2, _, _, h5⟩ := h
    cases l with
    | nil =>
      simp only [List.map_cons, List.map_nil, List.getLast?_singleton, Option.mem_def,
        Option.some.injEq] at hx
      rw [← hx, h2]
      exact h5.1
    | cons k2 l2 =>
      apply ih h5 x
      simpa only [List.map_cons, List.getLast?_cons_cons] using hx

/-- The offsets of the blocks of a segment increase strictly. -/
theorem Seg.increasing {b : Nat → MemoryBlock} : ∀ {l : List Blk} {p : Option Nat} {a : Nat}
    {q : Option Nat} {e : Nat}, Seg b p a l q e →
    (l.map (fun k => k.off)).Pairwise (fun x y => x < y) := by
  intro l
  induction l with
  | nil => intro p a q e _; exact List.Pairwise.nil
  | cons k l ih =>
    intro p a q e h
    obtain ⟨_, h2, _, _, h5⟩ := h
    simp only [List.map_cons]
    refine List.Pairwise.cons ?_ (ih h5)
    intro y hy
    obtain ⟨j, hj, rfl⟩ := List.mem_map.mp hy
    have := (Seg.mem_bounds h5 j hj).1
    simp only [sizeof_MemoryBlock] at this
    omega

/-- C23. In every heap state reachable from `memory_init` by `memory_alloc` (of any size)
and by `memory_free` of null or of a currently allocated pointer, the block list that
starts at `first_block`: starts at offset 0; ends with a block whose link is null, after at
most `HEAP_SIZE / sizeof(MemoryBlock)` blocks; has no block twice; is in strictly
increasing address order; links each block to the block that begins exactly where its
payload ends; and the sum over its blocks of payload size plus header size is
`HEAP_SIZE`. -/
theorem heap_tiling_invariant (h : Heap) (L : List Nat) (hr : Reach h L) :
    h.block_list.head? = some 0 ∧
    (∀ a ∈ h.block_list.getLast?, (h.blocks a).next = none) ∧
    h.block_list.length ≤ HEAP_SIZE / sizeof_MemoryBlock ∧
    h.block_list.Nodup ∧
    h.block_list.Pairwise (fun a b => a < b) ∧
    List.Chain' (fun a b => (h.blocks a).next = some b ∧
      b = a + sizeof_MemoryBlock + (h.blocks a).size) h.block_list ∧
    (h.block_list.map (fun a => (h.blocks a).size + sizeof_MemoryBlock)).sum = HEAP_SIZE := by
  obtain ⟨l, ht, _⟩ := reach_inv hr
  have hbl := ht.block_list_eq
  have hinc := Seg.increasing ht
  have hS : sizeof_MemoryBlock = 12 := rfl
  have hH : HEAP_SIZE = 32768 := rfl
  rw [hbl]
  refine ⟨?_, Seg.last_next ht, ?_, ?_, hinc, Seg.chain ht, ?_⟩
  · cases l with
    | nil =>
      have : (0 : Nat) = HEAP_SIZE := ht.2
      rw [hH] at this
      omega
    | cons k l2 =>
      have : k.off = 0 := ht.2.1
      simp [this]
  · have := Seg.le ht
    rw [List.length_map, Nat.le_div_iff_mul_le (by decide)]
    rw [hS] at this ⊢
    omega
  · exact hinc.imp (fun hlt => Nat.ne_of_lt hlt)
  · have := Seg.total ht
    rw [List.map_map]
    have e : l.map ((fun a => (h.blocks a).size + sizeof_MemoryBlock) ∘ fun k => k.off)
        = l.map (fun k => k.size + sizeof_MemoryBlock) := by
      apply List.map_congr_left
      intro k hk
      simp only [Function.comp]
      rw [(Seg.mem_bounds ht k hk).2.2.1]
    rw [e]
    omega

/-- C23, an instance: the heap after two allocations of 64 bytes. -/
theorem heap_tiling_invariant_witness :
    Reach (Heap.after_alloc 64 (Heap.after_alloc 64 (memory_init Heap.boot))) [88, 12] ∧
    (Heap.after_alloc 64 (Heap.after_alloc 64 (memory_init Heap.boot))).block_list.Nodup ∧
    ((Heap.after_alloc 64 (Heap.after_alloc 64 (memory_init Heap.boot))).block_list.map
      (fun a => ((Heap.after_alloc 64 (Heap.after_alloc 64 (memory_init Heap.boot))).blocks
        a).size + sizeof_MemoryBlock)).sum = HEAP_SIZE :=
  have r1 : Reach (Heap.after_alloc 64 (memory_init Heap.boot)) [12] :=
    Reach.alloc_ok 64 12 _ Reach.init rfl
  have r2 : Reach (Heap.after_alloc 64 (Heap.after_alloc 64 (memory_init Heap.boot))) [88, 12] :=
    Reach.alloc_ok 64 88 _ r1 rfl
  ⟨r2, (heap_tiling_invariant _ _ r2).2.2.2.1, (heap_tiling_invariant _ _ r2).2.2.2.2.2.2⟩

/-! ### Usage accounting -/

theorem used_sum_append (l1 l2 : List Blk) : used_sum (l1 ++ l2) = used_sum l1 + used_sum l2 := by
  simp [used_sum]

theorem used_sum_cons_free {k : Blk} (l : List Blk) (hk : k.free = true) :
    used_sum (k :: l) = used_sum l := by
  simp [used_sum, hk]

theorem used_sum_cons_used {k : Blk} (l : List Blk) (hk : k.free = false) :
    used_sum (k :: l) = k.size + used_sum l := by
  simp [used_sum, hk]

theorem used_sum_le (l : List Blk) :
    used_sum l ≤ (l.map (fun k => k.size + sizeof_MemoryBlock)).sum := by
  induction l with
  | nil => simp [used_sum]
  | cons k l ih =>
    cases hk : k.free with
    | true => rw [used_sum_cons_free _ hk]; simp only [List.map_cons, List.sum_cons]; omega
    | false => rw [used_sum_cons_used _ hk]; simp only [List.map_cons, List.sum_cons]; omega

/-- The payload in use in a tiled heap is less than `HEAP_SIZE`. -/
theorem Heap.Tiled.used_le_heap {h : Heap} {l : List Blk} (ht : h.Tiled l) :
    used_sum l ≤ HEAP_SIZE := by
  have h1 := Seg.total ht
  have h2 := used_sum_le l
  omega

/-- The usage counters after `memory_alloc_take`: the payload size of the block handed
out is added to `current_usage`, and `peak_usage` follows. -/
theorem memory_alloc_take_usage (size x : Nat) (h : Heap) :
    (memory_alloc_take size x h).2.current_usage
      = u32 (h.current_usage + ((memory_alloc_take size x h).2.blocks x).size) ∧
    (memory_alloc_take size x h).2.peak_usage
      = max h.peak_usage (memory_alloc_take size x h).2.current_usage := by
  unfold memory_alloc_take
  simp only []
  split <;> split <;> simp_all [Heap.set_block] <;> omega

theorem memory_free_forward_usage (x : Nat) (h : Heap) :
    (memory_free_forward x h).current_usage
      = u32 (h.current_usage + 2 ^ 32 - (h.blocks x).size) ∧
    (memory_free_forward x h).peak_usage = h.peak_usage := by
  unfold memory_free_forward
  simp only []
  split
  · split <;> simp [Heap.set_block]
  · simp [Heap.set_block]

theorem memory_free_backward_usage (x pv : Nat) (h : Heap) :
    (memory_free_backward x pv h).current_usage = h.current_usage ∧
    (memory_free_backward x pv h).peak_usage = h.peak_usage := by
  unfold memory_free_backward
  split <;> simp [Heap.set_block]

/-- The second part of `memory_free` leaves the usage counters as they are. -/
theorem free_backward_usage (x : Nat) (h3 h2 : Heap) (r : Option (Option Nat))
    (e : (match r with
        | none => none
        | some none => some h3
        | some (some prev) => some (memory_free_backward x prev h3)) = some h2) :
    h2.current_usage = h3.current_usage ∧ h2.peak_usage = h3.peak_usage := by
  cases r with
  | none => simp at e
  | some r2 =>
    cases r2 with
    | none =>
      simp only [Option.some.injEq] at e
      subst e
      exact ⟨rfl, rfl⟩
    | some prev =>
      simp only [Option.some.injEq] at e
      subst e
      exact memory_free_backward_usage x prev h3

/-- A successful `memory_alloc` keeps the invariant of the usage counters. -/
theorem alloc_usage {h : Heap} {L : List Nat} {l : List Blk} (hi : HeapInv h L l)
    (hu : h.current_usage = used_sum l) (hph : h.peak_usage ≤ HEAP_SIZE)
    {n p : Nat} {h2 : Heap} (ha : memory_alloc n h = some (some p, h2)) :
    ∃ l2, HeapInv h2 (p :: L) l2 ∧ h2.current_usage = used_sum l2 ∧
      h2.current_usage ≤ h2.peak_usage ∧ h2.peak_usage ≤ HEAP_SIZE := by
  have hH : HEAP_SIZE = 32768 := rfl
  obtain ⟨l2, hi2⟩ := alloc_inv hi ha
  refine ⟨l2, hi2, ?_⟩
  have ht := hi.1
  rcases memory_alloc_cases ht n with ⟨h1, _⟩ | ⟨pre, k, post, rfl, h1, hkf, hks, _, _⟩
  · rw [h1] at ha
    simp at ha
  · rw [h1] at ha
    have hh : h2 = (memory_alloc_take (align4 n) k.off h).2 := by
      have := congrArg (fun r => r.map (fun q => q.2)) ha
      simp only [Option.map_some', Option.some.injEq] at this
      exact this.symm
    obtain ⟨u1, u2⟩ := memory_alloc_take_usage (align4 n) k.off h
    rw [← hh] at u1 u2
    -- the block list after the call, and the payload of the block handed out
    have hnew : ∃ sz post2, h2.Tiled
        (pre ++ { off := k.off, size := sz, free := false } :: post2) ∧
        used_sum post2 = used_sum post := by
      by_cases hsp : align4 n + 20 ≤ k.size
      · refine ⟨align4 n,
          { off := k.off + sizeof_MemoryBlock + align4 n,
            size := k.size - align4 n - sizeof_MemoryBlock, free := true } :: post, ?_, ?_⟩
        · rw [hh]; exact alloc_tiled_split ht (align4 n) hsp
        · rw [used_sum_cons_free _ rfl]
      · exact ⟨k.size, post, by rw [hh]; exact alloc_tiled_whole ht (align4 n) hks hsp, rfl⟩
    obtain ⟨sz, post2, ht2, hpost⟩ := hnew
    have hl2 : l2 = pre ++ { off := k.off, size := sz, free := false } :: post2 :=
      Seg.same_list hi2.1 ht2
    have hsz : (h2.blocks k.off).size = sz := ht2.split.2.1
    have hsum2 : used_sum l2 = used_sum (pre ++ k :: post) + sz := by
      rw [hl2, used_sum_append, used_sum_append, used_sum_cons_used _ rfl,
        used_sum_cons_free _ hkf, hpost]
      dsimp only
      omega
    have hle2 : used_sum l2 ≤ HEAP_SIZE := hi2.1.used_le_heap
    have hcur : h2.current_usage = used_sum l2 := by
      rw [u1, hsz, hu, hsum2]
      exact u32_of_lt (by omega)
    refine ⟨hcur, ?_, ?_⟩
    · rw [u2]; exact Nat.le_max_right _ _
    · rw [u2, hcur]; exact Nat.max_le.mpr ⟨hph, hle2⟩

/-- A `memory_free` of an allocated pointer keeps the invariant of the usage counters. -/
theorem free_usage {h : Heap} {L : List Nat} {l : List Blk} (hi : HeapInv h L l)
    (hu : h.current_usage = used_sum l) (hcp : h.current_usage ≤ h.peak_usage)
    (hph : h.peak_usage ≤ HEAP_SIZE) {p : Nat} (hp : p ∈ L) :
    ∃ h2 l2, memory_free (some p) h = some h2 ∧ HeapInv h2 (L.erase p) l2 ∧
      h2.current_usage = used_sum l2 ∧
      h2.current_usage ≤ h2.peak_usage ∧ h2.peak_usage ≤ HEAP_SIZE := by
  have hH : HEAP_SIZE = 32768 := rfl
  obtain ⟨h3, l2, e, hi2⟩ := free_inv hi hp
  refine ⟨h3, l2, e, hi2, ?_⟩
  obtain ⟨ht, _, _, hmem, _⟩ := hi
  obtain ⟨k, hk, hkf, rfl⟩ := mem_used_ptrs.mp ((hmem p).mp hp)
  obtain ⟨pre, post, rfl⟩ := List.append_of_mem hk
  have hkf2 : k.free = false := by simpa using hkf
  obtain ⟨km, postm, hko, hkmf, htm, hrel⟩ := free_forward_tiled ht
  have hpostm : used_sum postm = used_sum post := by
    rcases hrel with ⟨rfl, _, _⟩ | ⟨k2, rfl, hk2f, _⟩
    · rfl
    · rw [used_sum_cons_free _ hk2f]
  obtain ⟨f1, f2⟩ := memory_free_forward_usage k.off h
  rw [← hko] at htm
  obtain ⟨h4, he, hfin⟩ := free_backward_tiled htm
  rw [hko] at he
  have e4 : h4 = h3 := by
    rw [memory_free_some, he] at e
    exact Option.some.inj e
  subst e4
  obtain ⟨b1, b2⟩ := free_backward_usage _ _ _ _ he
  have hsum2 : used_sum l2 + k.size = used_sum (pre ++ k :: post) := by
    rcases hfin with ⟨_, htf⟩ | ⟨pre2, pb, rfl, hpbf, htf⟩
    · rw [Seg.same_list hi2.1 htf, used_sum_append, used_sum_append, used_sum_cons_free _ hkmf,
        used_sum_cons_used _ hkf2, hpostm]
      omega
    · rw [Seg.same_list hi2.1 htf, used_sum_append, used_sum_append, used_sum_append,
        used_sum_cons_free _ rfl, used_sum_cons_free _ hpbf, used_sum_cons_used _ hkf2,
        hpostm]
      simp only [used_sum, List.filter_nil, List.map_nil, List.sum_nil]
      omega
  have hsz : (h.blocks k.off).size = k.size := ht.split.2.1
  have hle2 : used_sum l2 ≤ HEAP_SIZE := hi2.1.used_le_heap
  have hcur : h4.current_usage = used_sum l2 := by
    rw [b1, f1, hsz, hu, ← hsum2]
    rw [show used_sum l2 + k.size + 2 ^ 32 - k.size = used_sum l2 + 2 ^ 32 by omega]
    unfold u32
    rw [Nat.add_mod_right]
    exact Nat.mod_eq_of_lt (by omega)
  refine ⟨hcur, ?_, ?_⟩
  · rw [b2, f2, hcur]
    omega
  · rw [b2, f2]; exact hph

/-- The invariant of the usage counters: `current_usage` is the payload in use, and
`current_usage ≤ peak_usage ≤ HEAP_SIZE`. It holds, with the invariant of the allocator, in
every reachable heap state. -/
theorem reach_usage {h : Heap} {L : List Nat} (hr : Reach h L) :
    ∃ l, HeapInv h L l ∧ h.current_usage = used_sum l ∧
      h.current_usage ≤ h.peak_usage ∧ h.peak_usage ≤ HEAP_SIZE := by
  induction hr with
  | init =>
    refine ⟨_, memory_init_inv, ?_, ?_, ?_⟩
    · simp [memory_init, Heap.set_block, Heap.boot, used_sum]
    · simp [memory_init, Heap.set_block, Heap.boot]
    · simp [memory_init, Heap.set_block, Heap.boot]
  | alloc_ok n p h2 _ ha ih =>
    obtain ⟨l, hi, hu, _, hph⟩ := ih
    exact alloc_usage hi hu hph ha
  | alloc_null n h2 _ ha ih =>
    obtain ⟨l, hi, hu⟩ := ih
    rcases memory_alloc_cases hi.1 n with ⟨h1, _⟩ | ⟨pre, k, post, _, h1, _⟩
    · rw [h1] at ha
      simp only [Option.some.injEq, Prod.mk.injEq, true_and] at ha
      subst ha
      exact ⟨l, hi, hu⟩
    · rw [h1] at ha
      have := congrArg (fun r => r.map (fun q => q.1)) ha
      simp [memory_alloc_take] at this
  | free_null h2 _ hf ih =>
    rw [memory_free_null, Option.some.injEq] at hf
    subst hf
    exact ih
  | free_live p h2 _ hp hf ih =>
    obtain ⟨l, hi, hu, hcp, hph⟩ := ih
    obtain ⟨h3, l2, e, hi2⟩ := free_usage hi hu hcp hph hp
    rw [e] at hf
    simp only [Option.some.injEq] at hf
    subst hf
    exact ⟨l2, hi2⟩

/-- The payload in use, read off the headers of the block list. -/
theorem used_sum_headers (b : Nat → MemoryBlock) : ∀ (l : List Blk),
    (∀ k ∈ l, (b k.off).size = k.size ∧ (b k.off).is_free = k.free) →
    ((((l.map (fun k => k.off)).filter (fun a => !(b a).is_free)).map
      (fun a => (b a).size)).sum = used_sum l) := by
  intro l
  induction l with
  | nil => intro _; rfl
  | cons k l ih =>
    intro hm
    obtain ⟨h1, h2⟩ := hm k (by simp)
    have ih2 := ih (fun j hj => hm j (by simp [hj]))
    cases hk : k.free with
    | true =>
      rw [used_sum_cons_free _ hk, ← ih2]
      simp [h2, hk]
    | false =>
      rw [used_sum_cons_used _ hk, ← ih2]
      simp [h1, h2, hk]

/-- C24. In every heap state reachable from `memory_init` by `memory_alloc` and by
`memory_free` of null or of a currently allocated pointer: `current_usage` is the sum of the
payload sizes of the blocks of the block list that are in use; `current_usage ≤ peak_usage
≤ HEAP_SIZE`; and `memory_get_stats` reports `HEAP_SIZE`, `current_usage` and
`peak_usage`. -/
theorem heap_usage_accounting (h : Heap) (L : List Nat) (hr : Reach h L) :
    h.current_usage
      = ((h.block_list.filter (fun a => !(h.blocks a).is_free)).map
          (fun a => (h.blocks a).size)).sum ∧
    h.current_usage ≤ h.peak_usage ∧ h.peak_usage ≤ HEAP_SIZE ∧
    memory_get_stats h = (HEAP_SIZE, h.current_usage, h.peak_usage) := by
  obtain ⟨l, hi, hu, hcp, hph⟩ := reach_usage hr
  refine ⟨?_, hcp, hph, rfl⟩
  rw [hi.1.block_list_eq, hu]
  exact (used_sum_headers h.blocks l
    (fun k hk => (Seg.mem_bounds hi.1 k hk).2.2)).symm

/-- C24, an instance: after two allocations of 64 bytes and the release of the first
one, 64 bytes are in use and the peak is 128. -/
theorem heap_usage_accounting_witness :
    Reach (Heap.after_free (some 12)
      (Heap.after_alloc 64 (Heap.after_alloc 64 (memory_init Heap.boot)))) [88] ∧
    memory_get_stats (Heap.after_free (some 12)
      (Heap.after_alloc 64 (Heap.after_alloc 64 (memory_init Heap.boot))))
      = (HEAP_SIZE, 64, 128) ∧
    (Heap.after_free (some 12)
      (Heap.after_alloc 64 (Heap.after_alloc 64 (memory_init Heap.boot)))).current_usage
      = (((Heap.after_free (some 12)
          (Heap.after_alloc 64 (Heap.after_alloc 64 (memory_init Heap.boot)))).block_list.filter
          (fun a => !((Heap.after_free (some 12)
            (Heap.after_alloc 64 (Heap.after_alloc 64 (memory_init Heap.boot)))).blocks
              a).is_free)).map
          (fun a => ((Heap.after_free (some 12)
            (Heap.after_alloc 64 (Heap.after_alloc 64 (memory_init Heap.boot)))).blocks
              a).size)).sum :=
  have r1 : Reach (Heap.after_alloc 64 (memory_init Heap.boot)) [12] :=
    Reach.alloc_ok 64 12 _ Reach.init rfl
  have r2 : Reach (Heap.after_alloc 64 (Heap.after_alloc 64 (memory_init Heap.boot))) [88, 12] :=
    Reach.alloc_ok 64 88 _ r1 rfl
  have r3 : Reach (Heap.after_free (some 12)
      (Heap.after_alloc 64 (Heap.after_alloc 64 (memory_init Heap.boot)))) [88] :=
    Reach.free_live 12 _ r2 (by decide) rfl
  ⟨r3, (heap_usage_accounting _ _ r3).2.2.2, (heap_usage_accounting _ _ r3).1⟩

/-! ## Invariants of a queue -/

theorem notify_queue_event_flag (q : Queue) (e : QueueNotifyType) :
    (notify_queue_event q e).is_isr_enabled = q.is_isr_enabled :=
  (notify_queue_event_fields q e).2.2.2.2.2.2.2.2.2.2.2.2

/-- No queue function assigns the field `is_isr_enabled` of the queue it is called on: a
step leaves the field of its own structure as it is. (A write beyond the bounds of a
buffer or of a wait array, which lands in another object, is outside `Queue`.) -/
theorem QueueOp.apply_flag (op : QueueOp) (w : QueueWorld) :
    (op.apply w).1.is_isr_enabled = w.1.is_isr_enabled := by
  cases op with
  | send item timeout =>
    cases item with
    | none => rfl
    | some x =>
      simp only [QueueOp.apply, queue_send]
      split
      · split <;> simp only [notify_queue_event_flag, copy_to_queue]
      · split
        · rfl
        · rfl
  | send_to_front item timeout =>
    cases item with
    | none => rfl
    | some x =>
      simp only [QueueOp.apply, queue_send_to_front]
      split
      · split <;> simp only [notify_queue_event_flag, copy_to_queue]
      · split
        · rfl
        · rfl
  | send_from_isr item =>
    cases item with
    | none => rfl
    | some x =>
      simp only [QueueOp.apply, queue_send_from_isr]
      split
      · rfl
      · split
        · simp only [notify_queue_event_flag, copy_to_queue]
        · rfl
  | receive buffer timeout =>
    cases buffer with
    | none => rfl
    | some x =>
      simp only [QueueOp.apply, queue_receive]
      split
      · split <;> simp only [notify_queue_event_flag]
      · split
        · rfl
        · rfl
  | receive_from_isr buffer =>
    cases buffer with
    | none => rfl
    | some x =>
      simp only [QueueOp.apply, queue_receive_from_isr]
      split
      · rfl
      · split
        · simp only [notify_queue_event_flag]
        · rfl
  | overwrite item =>
    cases item with
    | none => rfl
    | some x =>
      simp only [QueueOp.apply, queue_overwrite, notify_queue_event_flag]
      split <;> simp only [copy_to_queue]
  | reset => rfl
  | set_notification callback context type => rfl
  | other f => rfl

/-- A sequence of steps on a queue assigns no value to the field `is_isr_enabled` of that
queue. -/
theorem run_queue_ops_flag (ops : List QueueOp) : ∀ (w : QueueWorld),
    (run_queue_ops ops w).1.is_isr_enabled = w.1.is_isr_enabled := by
  induction ops with
  | nil => intro w; rfl
  | cons op ops ih =>
    intro w
    show (run_queue_ops ops (op.apply w)).1.is_isr_enabled = _
    rw [ih, QueueOp.apply_flag]

/-- The queue that a successful `queue_create` returns: its ring is empty, there are no
waiters, the from-ISR functions are disabled and the capacity is not 0. -/
theorem queue_create_fields {queue : Option (Option Nat)} {item_size queue_length : Nat}
    {raw : Queue} {h h2 : Heap} {new_queue : Nat} {q : Queue}
    (hc : queue_create queue item_size queue_length raw h
      = some (QueueStatus.QUEUE_OK, some (new_queue, q), h2)) :
    q.is_isr_enabled = false ∧ q.item_size = item_size ∧ q.queue_length = queue_length ∧
    q.items_count = 0 ∧ q.head = 0 ∧ q.tail = 0 ∧
    q.waiting_count_send = 0 ∧ q.waiting_count_recv = 0 ∧
    item_size ≠ 0 ∧ queue_length ≠ 0 := by
  unfold queue_create at hc
  split at hc
  · simp at hc
  · rename_i hg
    have hg2 : item_size ≠ 0 ∧ queue_length ≠ 0 := by
      constructor
      · intro e; exact hg (Or.inr (Or.inl e))
      · intro e; exact hg (Or.inr (Or.inr e))
    cases e1 : memory_alloc sizeof_Queue h with
    | none => rw [e1] at hc; simp at hc
    | some r1 =>
      obtain ⟨p1, h1⟩ := r1
      cases p1 with
      | none => rw [e1] at hc; simp at hc
      | some nq =>
        rw [e1] at hc
        simp only at hc
        cases e2 : memory_alloc (u32 (item_size * queue_length)) h1 with
        | none => rw [e2] at hc; simp at hc
        | some r2 =>
          obtain ⟨p2, h3⟩ := r2
          cases p2 with
          | none =>
            rw [e2] at hc
            simp only at hc
            cases hf : memory_free (some nq) h3 with
            | none => rw [hf] at hc; simp at hc
            | some h4 => rw [hf] at hc; simp at hc
          | some buffer =>
            rw [e2] at hc
            simp only [Option.some.injEq, Prod.mk.injEq, true_and] at hc
            obtain ⟨⟨_, hq⟩, _⟩ := hc
            subst hq
            exact ⟨rfl, rfl, rfl, rfl, rfl, rfl, rfl, rfl, hg2.1, hg2.2⟩

/-- C27. The flag `is_isr_enabled` of a queue is changed through the queue functions, by
a send to another queue. On a fresh heap `queue_create(&q1, 4, 1073741826)` returns
`QUEUE_OK` with the structure at `heap + 12` and the buffer at `heap + 336`, a payload of
8 bytes (the block at offset 324); `queue_create(&q2, 4, 1)` then returns `QUEUE_OK` with
the structure at `heap + 356` and the flag false. 78 calls `queue_send(q1, &x, 0)` with
`x = 1` all return `QUEUE_OK`; the 78th writes slot 77, at the buffer offset
`77 * 4 = 308 = 356 + 288 - 336`, beyond the 8 bytes of the payload: the byte at that
offset is 0 before the call and 1 after it, and it is the byte at `heap + 644`, the field
`is_isr_enabled` of `q2`. The earlier calls have written the word 1 at the buffer offsets
of the fields `items_count` and `queue_length` of `q2`. On a queue whose flag is set and
whose count equals its capacity, `queue_send_from_isr` returns `QUEUE_FULL`, not
`QUEUE_ERROR`. -/
theorem queue_send_overruns_isr_flag :
    (queue_create (some none) 4 1073741826 (Queue.zero 0 0) (memory_init Heap.boot)).map
        (fun r => (r.1, r.2.1.map (fun c => (c.1, c.2.buffer_ptr))))
      = some (QueueStatus.QUEUE_OK, some (12, some 336)) ∧
    ((fresh_queue_heap 4 1073741826).blocks 324).size = 8 ∧
    (queue_create (some none) 4 1 (Queue.zero 0 0) (fresh_queue_heap 4 1073741826)).map
        (fun r => (r.1, r.2.1.map (fun c => (c.1, c.2.is_isr_enabled))))
      = some (QueueStatus.QUEUE_OK, some (356, false)) ∧
    (send_all 0 id (List.replicate 78 (Item.word 1)) (fresh_queue 4 1073741826)
        Scheduler.zero).1 = List.replicate 78 QueueStatus.QUEUE_OK ∧
    (send_all 0 id (List.replicate 77 (Item.word 1)) (fresh_queue 4 1073741826)
        Scheduler.zero).2.1.tail = 77 ∧
    u32 (77 * (fresh_queue 4 1073741826).item_size) = 356 + offsetof_is_isr_enabled - 336 ∧
    ¬ (u32 (77 * (fresh_queue 4 1073741826).item_size) < 8) ∧
    (send_all 0 id (List.replicate 77 (Item.word 1)) (fresh_queue 4 1073741826)
        Scheduler.zero).2.1.buffer (356 + offsetof_is_isr_enabled - 336) = 0 ∧
    (send_all 0 id (List.replicate 78 (Item.word 1)) (fresh_queue 4 1073741826)
        Scheduler.zero).2.1.buffer (356 + offsetof_is_isr_enabled - 336) = 1 ∧
    Item.bytes 4 (fun j => (send_all 0 id (List.replicate 78 (Item.word 1))
        (fresh_queue 4 1073741826) Scheduler.zero).2.1.buffer
          (356 + offsetof_items_count - 336 + j)) = Item.bytes 4 (Item.word 1) ∧
    Item.bytes 4 (fun j => (send_all 0 id (List.replicate 78 (Item.word 1))
        (fresh_queue 4 1073741826) Scheduler.zero).2.1.buffer
          (356 + offsetof_queue_length - 336 + j)) = Item.bytes 4 (Item.word 1) ∧
    (∀ (q : Queue) (y : Item), q.is_isr_enabled = true → q.items_count = q.queue_length →
      (queue_send_from_isr q (some y)).1 = QueueStatus.QUEUE_FULL) := by
  set_option maxRecDepth 100000 in
  refine ⟨by decide, by decide, by decide, by decide, by decide, by decide, by decide,
    by decide, by decide, by decide, by decide, ?_⟩
  intro q y h1 h2
  simp [queue_send_from_isr, queue_is_full, h1, h2]

/-! ### The ring invariant -/

theorem ring_inv_same {q q2 : Queue} (hr : q.ring_inv) (e1 : q2.queue_length = q.queue_length)
    (e2 : q2.head = q.head) (e3 : q2.tail = q.tail) (e4 : q2.items_count = q.items_count) :
    q2.ring_inv := by
  unfold Queue.ring_inv at hr ⊢
  rw [e1, e2, e3, e4]
  exact hr

theorem ring_inv_push_back {q q2 : Queue} (hr : q.ring_inv) (hL : q.queue_length < 2 ^ 32)
    (hlt : q.items_count < q.queue_length) (e1 : q2.queue_length = q.queue_length)
    (e2 : q2.head = q.head) (e3 : q2.tail = u32 (q.tail + 1) % q.queue_length)
    (e4 : q2.items_count = u32 (q.items_count + 1)) : q2.ring_inv := by
  have hc : q2.items_count = q.items_count + 1 := by rw [e4]; exact u32_of_lt (by omega)
  apply Queue.ring_inv_of_tail
  · rw [e2, e1]; exact hr.1
  · rw [hc, e1]; omega
  · rw [e3, e2, hc, e1, u32_of_lt (by have := hr.2.1; omega), Queue.ring_inv_tail hr,
      Nat.mod_add_mod]
    rfl

theorem ring_inv_pop_front {q q2 : Queue} (hr : q.ring_inv) (hL : q.queue_length < 2 ^ 32)
    (hc0 : q.items_count ≠ 0) (e1 : q2.queue_length = q.queue_length)
    (e2 : q2.head = u32 (q.head + 1) % q.queue_length) (e3 : q2.tail = q.tail)
    (e4 : q2.items_count = q.items_count - 1) : q2.ring_inv := by
  have hpos : 0 < q.queue_length := by have := hr.1; omega
  apply Queue.ring_inv_of_tail
  · rw [e2, e1]; exact Nat.mod_lt _ hpos
  · rw [e4, e1]; have := hr.2.2.1; omega
  · rw [e3, e2, e4, e1, u32_of_lt (by have := hr.1; omega), Queue.ring_inv_tail hr,
      Nat.mod_add_mod]
    congr 1
    omega

theorem ring_inv_push_front {q q2 : Queue} (hr : q.ring_inv) (hL : q.queue_length ≤ 2 ^ 31)
    (hlt : q.items_count < q.queue_length) (e1 : q2.queue_length = q.queue_length)
    (e2 : q2.head = u32 (u32 (q.head + 2 ^ 32 - 1) + q.queue_length) % q.queue_length)
    (e3 : q2.tail = q.tail) (e4 : q2.items_count = u32 (q.items_count + 1)) :
    q2.ring_inv := by
  have hpos : 0 < q.queue_length := by have := hr.1; omega
  have hc : q2.items_count = q.items_count + 1 := by rw [e4]; exact u32_of_lt (by omega)
  apply Queue.ring_inv_of_tail
  · rw [e2, e1]; exact Nat.mod_lt _ hpos
  · rw [hc, e1]; omega
  · rw [e3, e2, hc, e1, head_decrement hr.1 hL, Queue.ring_inv_tail hr, Nat.mod_add_mod]
    have e : q.head + q.queue_length - 1 + (q.items_count + 1)
        = q.head + q.items_count + q.queue_length := by have := hr.1; omega
    rw [e, Nat.add_mod_right]

theorem ring_inv_overwrite {q q2 : Queue} (hr : q.ring_inv) (hL : q.queue_length < 2 ^ 32)
    (hfull : q.items_count = q.queue_length) (e1 : q2.queue_length = q.queue_length)
    (e2 : q2.head = u32 (q.head + 1) % q.queue_length)
    (e3 : q2.tail = u32 (q.tail + 1) % q.queue_length)
    (e4 : q2.items_count = q.items_count) : q2.ring_inv := by
  have hpos : 0 < q.queue_length := by have := hr.1; omega
  have ht : q.head = q.tail := hr.2.2.2.2 hfull
  apply Queue.ring_inv_of_tail
  · rw [e2, e1]; exact Nat.mod_lt _ hpos
  · rw [e4, e1, hfull]
  · rw [e3, e2, e4, e1, hfull, ← ht, Nat.add_mod_right, Nat.mod_mod]

theorem notify_queue_event_ring (q : Queue) (e : QueueNotifyType) :
    (notify_queue_event q e).queue_length = q.queue_length ∧
    (notify_queue_event q e).head = q.head ∧
    (notify_queue_event q e).tail = q.tail ∧
    (notify_queue_event q e).items_count = q.items_count := by
  obtain ⟨_, _, h3, h4, h5, h6, _⟩ := notify_queue_event_fields q e
  exact ⟨h3, h5, h6, h4⟩

/-- The ring after a step, for the cases of the step: it is unchanged, or an item has
been added at the tail, or at the head, or taken at the head, or the oldest item has been
overwritten, or the ring has been reset. -/
theorem QueueOp.apply_ring_cases (op : QueueOp) (w : QueueWorld) :
    (op.apply w).1.queue_length = w.1.queue_length ∧
    (((op.apply w).1.head = w.1.head ∧ (op.apply w).1.tail = w.1.tail ∧
        (op.apply w).1.items_count = w.1.items_count) ∨
     (w.1.items_count ≠ w.1.queue_length ∧ (op.apply w).1.head = w.1.head ∧
        (op.apply w).1.tail = u32 (w.1.tail + 1) % w.1.queue_length ∧
        (op.apply w).1.items_count = u32 (w.1.items_count + 1)) ∨
     (w.1.items_count ≠ w.1.queue_length ∧
        (op.apply w).1.head
          = u32 (u32 (w.1.head + 2 ^ 32 - 1) + w.1.queue_length) % w.1.queue_length ∧
        (op.apply w).1.tail = w.1.tail ∧
        (op.apply w).1.items_count = u32 (w.1.items_count + 1)) ∨
     (w.1.items_count ≠ 0 ∧
        (op.apply w).1.head = u32 (w.1.head + 1) % w.1.queue_length ∧
        (op.apply w).1.tail = w.1.tail ∧
        (op.apply w).1.items_count = w.1.items_count - 1) ∨
     (w.1.items_count = w.1.queue_length ∧
        (op.apply w).1.head = u32 (w.1.head + 1) % w.1.queue_length ∧
        (op.apply w).1.tail = u32 (w.1.tail + 1) % w.1.queue_length ∧
        (op.apply w).1.items_count = w.1.items_count) ∨
     ((op.apply w).1.head = 0 ∧ (op.apply w).1.tail = 0 ∧
        (op.apply w).1.items_count = 0)) := by
  cases op with
  | send item timeout =>
    cases item with
    | none => exact ⟨rfl, Or.inl ⟨rfl, rfl, rfl⟩⟩
    | some x =>
      by_cases hf : w.1.items_count = w.1.queue_length
      · have hfull : queue_is_full w.1 = true := by simp [queue_is_full, hf]
        simp only [QueueOp.apply, queue_send, hfull]
        by_cases ht : timeout = 0
        · simp [ht]
        · simp [ht]
      · obtain ⟨_, _, _, h4, h5, h6, h7, _⟩ := queue_send_not_full w.1 x timeout w.2 id hf
        exact ⟨h4, Or.inr (Or.inl ⟨hf, h6, h7, h5⟩)⟩
  | send_to_front item timeout =>
    cases item with
    | none => exact ⟨rfl, Or.inl ⟨rfl, rfl, rfl⟩⟩
    | some x =>
      by_cases hf : w.1.items_count = w.1.queue_length
      · have hfull : queue_is_full w.1 = true := by simp [queue_is_full, hf]
        simp only [QueueOp.apply, queue_send_to_front, hfull]
        by_cases ht : timeout = 0
        · simp [ht]
        · simp [ht]
      · obtain ⟨_, h2, _, _, h5, h6, h7⟩ :=
          queue_send_to_front_not_full w.1 x timeout w.2 id hf
        exact ⟨h5, Or.inr (Or.inr (Or.inl ⟨hf, h2, h7, h6⟩))⟩
  | send_from_isr item =>
    cases item with
    | none => exact ⟨rfl, Or.inl ⟨rfl, rfl, rfl⟩⟩
    | some x =>
      by_cases hi : w.1.is_isr_enabled = true
      · by_cases hf : w.1.items_count = w.1.queue_length
        · have hfull : queue_is_full w.1 = true := by simp [queue_is_full, hf]
          simp [QueueOp.apply, queue_send_from_isr, hfull, hi]
        · have hfull : queue_is_full w.1 = false := by simp [queue_is_full, hf]
          refine ⟨?_, Or.inr (Or.inl ⟨hf, ?_, ?_, ?_⟩)⟩ <;>
            simp [QueueOp.apply, queue_send_from_isr, hfull, hi, notify_queue_event_ring,
              copy_to_queue]
      · simp [QueueOp.apply, queue_send_from_isr, hi]
  | receive buffer timeout =>
    cases buffer with
    | none => exact ⟨rfl, Or.inl ⟨rfl, rfl, rfl⟩⟩
    | some x =>
      by_cases hf : w.1.items_count = 0
      · have hempty : queue_is_empty w.1 = true := by simp [queue_is_empty, hf]
        simp only [QueueOp.apply, queue_receive, hempty]
        by_cases ht : timeout = 0
        · simp [ht]
        · simp [ht]
      · obtain ⟨_, _, _, _, h5, h6, h7, h8⟩ :=
          queue_receive_not_empty w.1 x timeout w.2 id hf
        exact ⟨h5, Or.inr (Or.inr (Or.inr (Or.inl ⟨hf, h7, h8, h6⟩)))⟩
  | receive_from_isr buffer =>
    cases buffer with
    | none => exact ⟨rfl, Or.inl ⟨rfl, rfl, rfl⟩⟩
    | some x =>
      by_cases hi : w.1.is_isr_enabled = true
      · by_cases hf : w.1.items_count = 0
        · have hempty : queue_is_empty w.1 = true := by simp [queue_is_empty, hf]
          simp [QueueOp.apply, queue_receive_from_isr, hempty, hi]
        · have hempty : queue_is_empty w.1 = false := by simp [queue_is_empty, hf]
          refine ⟨?_, Or.inr (Or.inr (Or.inr (Or.inl ⟨hf, ?_, ?_, ?_⟩)))⟩ <;>
            simp [QueueOp.apply, queue_receive_from_isr, hempty, hi, notify_queue_event_ring]
      · simp [QueueOp.apply, queue_receive_from_isr, hi]
  | overwrite item =>
    cases item with
    | none => exact ⟨rfl, Or.inl ⟨rfl, rfl, rfl⟩⟩
    | some x =>
      by_cases hf : w.1.items_count = w.1.queue_length
      · have hfull : queue_is_full w.1 = true := by simp [queue_is_full, hf]
        refine ⟨?_, Or.inr (Or.inr (Or.inr (Or.inr (Or.inl ⟨hf, ?_, ?_, ?_⟩))))⟩ <;>
          simp [QueueOp.apply, queue_overwrite, hfull, notify_queue_event_ring, copy_to_queue]
      · have hfull : queue_is_full w.1 = false := by simp [queue_is_full, hf]
        refine ⟨?_, Or.inr (Or.inl ⟨hf, ?_, ?_, ?_⟩)⟩ <;>
          simp [QueueOp.apply, queue_overwrite, hfull, notify_queue_event_ring, copy_to_queue]
  | reset => exact ⟨rfl, Or.inr (Or.inr (Or.inr (Or.inr (Or.inr ⟨rfl, rfl, rfl⟩))))⟩
  | set_notification callback context type => exact ⟨rfl, Or.inl ⟨rfl, rfl, rfl⟩⟩
  | other f => exact ⟨rfl, Or.inl ⟨rfl, rfl, rfl⟩⟩

/-- Every step keeps the ring invariant of a queue of at most 2^31 items. -/
theorem QueueOp.apply_ring_inv (op : QueueOp) (w : QueueWorld) (hr : w.1.ring_inv)
    (hL : w.1.queue_length ≤ 2 ^ 31) :
    (op.apply w).1.ring_inv ∧ (op.apply w).1.queue_length = w.1.queue_length := by
  obtain ⟨e1, hcases⟩ := QueueOp.apply_ring_cases op w
  refine ⟨?_, e1⟩
  have hle := hr.2.2.1
  have hpos : 0 < w.1.queue_length := by have := hr.1; omega
  rcases hcases with ⟨e2, e3, e4⟩ | ⟨hf, e2, e3, e4⟩ | ⟨hf, e2, e3, e4⟩ | ⟨hf, e2, e3, e4⟩ |
    ⟨hf, e2, e3, e4⟩ | ⟨e2, e3, e4⟩
  · exact ring_inv_same hr e1 e2 e3 e4
  · exact ring_inv_push_back hr (by omega) (by omega) e1 e2 e3 e4
  · exact ring_inv_push_front hr hL (by omega) e1 e2 e3 e4
  · exact ring_inv_pop_front hr (by omega) hf e1 e2 e3 e4
  · exact ring_inv_overwrite hr (by omega) hf e1 e2 e3 e4
  · apply Queue.ring_inv_of_tail
    · rw [e2, e1]; exact hpos
    · rw [e4]; exact Nat.zero_le _
    · rw [e3, e2, e4]; simp

theorem run_queue_ops_ring_inv (ops : List QueueOp) : ∀ (w : QueueWorld), w.1.ring_inv →
    w.1.queue_length ≤ 2 ^ 31 →
    (run_queue_ops ops w).1.ring_inv ∧ (run_queue_ops ops w).1.queue_length = w.1.queue_length := by
  induction ops with
  | nil => intro w hr _; exact ⟨hr, rfl⟩
  | cons op ops ih =>
    intro w hr hL
    obtain ⟨h1, h2⟩ := QueueOp.apply_ring_inv op w hr hL
    obtain ⟨g1, g2⟩ := ih (op.apply w) h1 (by rw [h2]; exact hL)
    exact ⟨g1, g2.trans h2⟩

/-- The ring invariant of the queues of at most 2^31 items: for every queue that a
successful `queue_create` returns with `queue_length ≤ 2^31`, the invariant holds after
every sequence of steps. -/
theorem queue_ring_invariant_bounded (queue : Option (Option Nat))
    (item_size queue_length : Nat) (raw : Queue) (h h2 : Heap) (new_queue : Nat) (q : Queue)
    (hc : queue_create queue item_size queue_length raw h
      = some (QueueStatus.QUEUE_OK, some (new_queue, q), h2))
    (hL : queue_length ≤ 2 ^ 31) (ops : List QueueOp) (s : Scheduler) :
    (run_queue_ops ops (q, s)).1.ring_inv := by
  obtain ⟨_, _, f3, f4, f5, f6, _, _, _, f10⟩ := queue_create_fields hc
  have hr : q.ring_inv := by
    apply Queue.ring_inv_of_tail
    · rw [f5, f3]; omega
    · rw [f4]; exact Nat.zero_le _
    · rw [f6, f5, f4]; simp
  exact (run_queue_ops_ring_inv ops (q, s) hr (by rw [f3]; exact hL)).1

/-- C22. `queue_create(&q, 2, 2147483649)` on a fresh heap returns `QUEUE_OK` (the size
of the payload, `2 * 2147483649`, wraps to 2 in `uint32_t`), and on the queue it returns
two calls `queue_send_to_front(q, &x, 0)` return `QUEUE_OK` and leave `head = 0`,
`tail = 0` and `items_count = 2`: the head computation `head - 1 + queue_length` of the
second call wraps. The ring invariant does not hold: `items_count < queue_length`, but
`items_count` is not `(tail - head) mod queue_length`, which is 0. -/
theorem queue_ring_invariant_breaks :
    (queue_create (some none) 2 2147483649 (Queue.zero 0 0) (memory_init Heap.boot)).map
        (fun r => r.1) = some QueueStatus.QUEUE_OK ∧
    (fresh_queue 2 2147483649).queue_length = 2147483649 ∧
    (fresh_queue 2 2147483649).ring_inv ∧
    (queue_send_to_front (fresh_queue 2 2147483649) (some (Item.word 1)) 0 Scheduler.zero
      id).1 = QueueStatus.QUEUE_OK ∧
    (queue_send_to_front
      (run_queue_ops [QueueOp.send_to_front (some (Item.word 1)) 0]
        (fresh_queue 2 2147483649, Scheduler.zero)).1
      (some (Item.word 2)) 0 Scheduler.zero id).1 = QueueStatus.QUEUE_OK ∧
    (run_queue_ops [QueueOp.send_to_front (some (Item.word 1)) 0,
        QueueOp.send_to_front (some (Item.word 2)) 0]
      (fresh_queue 2 2147483649, Scheduler.zero)).1.head = 0 ∧
    (run_queue_ops [QueueOp.send_to_front (some (Item.word 1)) 0,
        QueueOp.send_to_front (some (Item.word 2)) 0]
      (fresh_queue 2 2147483649, Scheduler.zero)).1.tail = 0 ∧
    (run_queue_ops [QueueOp.send_to_front (some (Item.word 1)) 0,
        QueueOp.send_to_front (some (Item.word 2)) 0]
      (fresh_queue 2 2147483649, Scheduler.zero)).1.items_count = 2 ∧
    ¬ (run_queue_ops [QueueOp.send_to_front (some (Item.word 1)) 0,
        QueueOp.send_to_front (some (Item.word 2)) 0]
      (fresh_queue 2 2147483649, Scheduler.zero)).1.ring_inv := by
  refine ⟨by decide, by decide, by unfold Queue.ring_inv; decide, by decide, by decide,
    by decide, by decide, by decide, by unfold Queue.ring_inv; decide⟩

/-! ### The wait arrays -/

/-- A `queue_send` with a timeout on a full queue, during which only timer ticks occur:
it returns `QUEUE_TIMEOUT` and has written the caller's id at index `waiting_count_send`
of `waiting_tasks_send` and incremented the count. -/
theorem queue_send_full_ticks (q : Queue) (x : Item) (t n : Nat) (s : Scheduler)
    (ht : t ≠ 0) (hf : q.items_count = q.queue_length) :
    queue_send q (some x) t s (ticks n)
      = (QueueStatus.QUEUE_TIMEOUT,
         { q with
           waiting_tasks_send := Function.update q.waiting_tasks_send q.waiting_count_send
             (get_current_task_id s),
           waiting_count_send := u32 (q.waiting_count_send + 1) },
         schedule^[n] (block_task t s)) := by
  have hfull : queue_is_full q = true := by simp [queue_is_full, hf]
  have h2 : queue_is_full
      { q with
        waiting_tasks_send := Function.update q.waiting_tasks_send q.waiting_count_send
          (get_current_task_id s),
        waiting_count_send := u32 (q.waiting_count_send + 1) } = true := by
    simp [queue_is_full, hf]
  simp only [queue_send, hfull, Bool.not_true, ht, if_false, ticks, Bool.false_eq_true, h2,
    if_true]

/-- Successive calls of `queue_send` with a timeout on a full queue, each of which times
out: every call adds an entry to the sender wait list. -/
theorem send_all_full_ticks (t n : Nat) (ht : t ≠ 0) : ∀ (xs : List Item) (q : Queue)
    (s : Scheduler), q.items_count = q.queue_length →
    q.waiting_count_send + xs.length < 2 ^ 32 →
    (send_all t (ticks n) xs q s).1 = List.replicate xs.length QueueStatus.QUEUE_TIMEOUT ∧
    (send_all t (ticks n) xs q s).2.1.waiting_count_send = q.waiting_count_send + xs.length := by
  intro xs
  induction xs with
  | nil => intro q s _ _; exact ⟨rfl, rfl⟩
  | cons x xs ih =>
    intro q s hf hlen
    have e := queue_send_full_ticks q x t n s ht hf
    have hrec : send_all t (ticks n) (x :: xs) q s
        = ((queue_send q (some x) t s (ticks n)).1 ::
            (send_all t (ticks n) xs (queue_send q (some x) t s (ticks n)).2.1
              (queue_send q (some x) t s (ticks n)).2.2).1,
           (send_all t (ticks n) xs (queue_send q (some x) t s (ticks n)).2.1
              (queue_send q (some x) t s (ticks n)).2.2).2) := rfl
    simp only [List.length_cons] at hlen ⊢
    rw [hrec, e]
    simp only
    obtain ⟨g1, g2⟩ := ih
      { q with
        waiting_tasks_send := Function.update q.waiting_tasks_send q.waiting_count_send
          (get_current_task_id s),
        waiting_count_send := u32 (q.waiting_count_send + 1) }
      (schedule^[n] (block_task t s)) hf
      (by simp only; rw [u32_of_lt (by omega)]; omega)
    refine ⟨by rw [g1, List.replicate_succ], ?_⟩
    rw [g2]
    simp only
    rw [u32_of_lt (by omega)]
    omega

/-- C26. A queue of one 4-byte item is created on a fresh heap and filled by the only
task of a started scheduler. The task then calls `queue_send(q, &x, 5)` 33 times; nothing
else runs, and each call returns `QUEUE_TIMEOUT` after 4 ticks. Before the last call
`waiting_count_send` is 32, so that call writes `waiting_tasks_send[32]`, outside the
array, and after it `waiting_count_send` is 33. -/
theorem queue_wait_array_overflows :
    (queue_create (some none) 4 1 (Queue.zero 0 0) (memory_init Heap.boot)).map
        (fun r => r.1) = some QueueStatus.QUEUE_OK ∧
    (queue_send (fresh_queue 4 1) (some (Item.word 7)) 0 single_task_scheduler id).1
      = QueueStatus.QUEUE_OK ∧
    (send_all 5 (ticks 4) (List.replicate 33 (Item.word 8))
      (queue_send (fresh_queue 4 1) (some (Item.word 7)) 0 single_task_scheduler id).2.1
      (queue_send (fresh_queue 4 1) (some (Item.word 7)) 0 single_task_scheduler id).2.2).1
      = List.replicate 33 QueueStatus.QUEUE_TIMEOUT ∧
    (send_all 5 (ticks 4) (List.replicate 32 (Item.word 8))
      (queue_send (fresh_queue 4 1) (some (Item.word 7)) 0 single_task_scheduler id).2.1
      (queue_send (fresh_queue 4 1) (some (Item.word 7)) 0 single_task_scheduler
        id).2.2).2.1.waiting_count_send = 32 ∧
    (send_all 5 (ticks 4) (List.replicate 33 (Item.word 8))
      (queue_send (fresh_queue 4 1) (some (Item.word 7)) 0 single_task_scheduler id).2.1
      (queue_send (fresh_queue 4 1) (some (Item.word 7)) 0 single_task_scheduler
        id).2.2).2.1.waiting_count_send = 33 := by
  have hf : (queue_send (fresh_queue 4 1) (some (Item.word 7)) 0 single_task_scheduler
      id).2.1.items_count
      = (queue_send (fresh_queue 4 1) (some (Item.word 7)) 0 single_task_scheduler
      id).2.1.queue_length := by decide
  have hw : (queue_send (fresh_queue 4 1) (some (Item.word 7)) 0 single_task_scheduler
      id).2.1.waiting_count_send = 0 := by decide
  obtain ⟨a1, a2⟩ := send_all_full_ticks 5 4 (by decide) (List.replicate 33 (Item.word 8))
    _ (queue_send (fresh_queue 4 1) (some (Item.word 7)) 0 single_task_scheduler id).2.2 hf
    (by rw [hw]; simp)
  obtain ⟨_, b2⟩ := send_all_full_ticks 5 4 (by decide) (List.replicate 32 (Item.word 8))
    _ (queue_send (fresh_queue 4 1) (some (Item.word 7)) 0 single_task_scheduler id).2.2 hf
    (by rw [hw]; simp)
  rw [hw] at a2 b2
  simp only [List.length_replicate, Nat.zero_add] at a1 a2 b2
  exact ⟨by decide, by decide, a1, b2, a2⟩

/-! ## The single runner -/

theorem schedule_task_count (s : Scheduler) : (schedule s).task_count = s.task_count := by
  by_cases hc : (!s.scheduler_started || s.task_count == 0) = true
  · unfold schedule
    rw [if_pos hc]
  · unfold schedule
    rw [if_neg hc]
    simp only []
    have h5 := (schedule_timeout_loop_task s.task_count
      { s with system_ticks := u32 (s.system_ticks + 1) }).2.2.2.2.1
    split
    · exact h5
    · exact h5

/-- The timeout loop makes no task RUNNING. -/
theorem schedule_timeout_step_running (s : Scheduler) (i : Nat)
    (h : ((schedule_timeout_step s i).tasks i).state = TaskState.TASK_RUNNING) :
    (s.tasks i).state = TaskState.TASK_RUNNING := by
  rw [schedule_timeout_step_self] at h
  split at h
  · rename_i hb
    split at h
    · simp at h
    · simp only at h
      rw [hb.1] at h
      exact absurd h (by decide)
  · exact h

theorem schedule_single_runner (s : Scheduler) (hi : SingleRunner s) :
    SingleRunner (schedule s) := by
  by_cases hc : (!s.scheduler_started || s.task_count == 0) = true
  · have e : schedule s = s := by
      unfold schedule
      rw [if_pos hc]
    rw [e]
    exact hi
  · have hs : s.scheduler_started = true := by
      cases h : s.scheduler_started with
      | true => rfl
      | false => simp [h] at hc
    have hn : s.task_count ≠ 0 := by
      intro h
      simp [h] at hc
    obtain ⟨s2, g1, _, _, _, g5, g6, g7⟩ := schedule_started s hs hn
    have hrun : ∀ i, i < s.task_count → (s2.tasks i).state = TaskState.TASK_RUNNING →
        i = s.current_task := by
      intro i hlt h
      rw [g1 i hlt] at h
      exact hi i hlt (schedule_timeout_step_running s i h)
    intro i hlt h
    rw [schedule_task_count] at hlt
    rw [g6]
    by_cases hr : find_next_task s2 = s.current_task
    · rw [g5 hr] at h
      rw [hr]
      exact hrun i hlt h
    · obtain ⟨_, k2, k3⟩ := g7 hr
      by_cases e1 : i = find_next_task s2
      · exact e1
      · by_cases e2 : i = s.current_task
        · rw [e2, k2] at h
          exact absurd h (by simp)
        · rw [k3 i e2 e1] at h
          exact absurd (hrun i hlt h) e2

theorem block_task_single_runner (t : Nat) (s : Scheduler) (hi : SingleRunner s) :
    SingleRunner (block_task t s) := by
  by_cases hs : (!s.scheduler_started) = true
  · have e : block_task t s = s := by
      unfold block_task
      rw [if_pos hs]
    rw [e]
    exact hi
  · have e : block_task t s = schedule
        ((s.set_task s.current_task
            { s.tasks s.current_task with state := TaskState.TASK_BLOCKED }).set_task
          s.current_task
          { (s.set_task s.current_task
              { s.tasks s.current_task with state := TaskState.TASK_BLOCKED }).tasks
              s.current_task with blocked_timeout := t }) := by
      unfold block_task
      rw [if_neg hs]
      rfl
    rw [e]
    apply schedule_single_runner
    intro i hlt h
    show i = s.current_task
    by_cases e2 : i = s.current_task
    · exact e2
    · rw [set_task_tasks, if_neg e2, set_task_tasks, if_neg e2] at h
      exact hi i hlt h

theorem resume_task_single_runner (task_id : Nat) (s : Scheduler) (hi : SingleRunner s) :
    SingleRunner (resume_task task_id s) := by
  unfold resume_task
  split
  · exact hi
  · split
    · intro i hlt h
      by_cases e : i = task_id
      · subst e
        simp [set_task_tasks] at h
      · simp only [set_task_tasks, e, if_false] at h
        exact hi i hlt h
    · exact hi

theorem create_task_current (f a p nm : Nat) (s : Scheduler) :
    (create_task f a p nm s).2.current_task = s.current_task := by
  unfold create_task
  split
  · rfl
  · rfl

theorem create_task_single_runner (f a p nm : Nat) (s : Scheduler) (hi : SingleRunner s) :
    SingleRunner (create_task f a p nm s).2 := by
  by_cases hc : s.task_count < MAX_TASKS
  · obtain ⟨_, c2, c3, _, _, _, _, _, c9⟩ := create_task_room f a p nm s hc
    intro i hlt h
    rw [create_task_current]
    rw [c2] at hlt
    by_cases e : i = s.task_count
    · rw [e, c3] at h
      exact absurd h (by decide)
    · rw [c9 i e] at h
      exact hi i (by omega) h
  · rw [create_task_full f a p nm s (by omega)]
    exact hi

theorem SchedOp.apply_single_runner (op : SchedOp) (s : Scheduler) (hi : SingleRunner s) :
    SingleRunner (op.apply s) := by
  cases op with
  | create a => exact create_task_single_runner _ _ _ _ s hi
  | tick => exact schedule_single_runner s hi
  | block t => exact block_task_single_runner t s hi
  | resume i => exact resume_task_single_runner i s hi

theorem run_sched_ops_single_runner (ops : List SchedOp) : ∀ (s : Scheduler),
    SingleRunner s → SingleRunner (run_sched_ops ops s) := by
  induction ops with
  | nil => intro s hi; exact hi
  | cons op ops ih =>
    intro s hi
    exact ih (op.apply s) (SchedOp.apply_single_runner op s hi)

/-- After `start_scheduler` on a task table in which no registered task runs, only the
current task runs. -/
theorem start_scheduler_single_runner (s : Scheduler)
    (h : ∀ i, i < s.task_count → (s.tasks i).state ≠ TaskState.TASK_RUNNING) :
    SingleRunner (start_scheduler s) := by
  unfold start_scheduler
  split
  · intro i hlt hr
    exact absurd hr (h i hlt)
  · simp only []
    intro i hlt hr
    simp only [set_task_tasks] at hr
    by_cases e : i = find_next_task { s with scheduler_started := true }
    · exact e
    · rw [if_neg e] at hr
      exact absurd hr (h i hlt)

/-- After `scheduler_init` and any calls of `create_task`, every registered task is
READY. -/
theorem create_tasks_ready (s0 : Scheduler) (calls : List TaskArgs) (i : Nat)
    (hi : i < (create_tasks calls (scheduler_init s0)).2.task_count) :
    ((create_tasks calls (scheduler_init s0)).2.tasks i).state = TaskState.TASK_READY := by
  obtain ⟨_, h2, _, h4⟩ := create_tasks_spec calls (scheduler_init s0)
    (by simp [scheduler_init, MAX_TASKS])
  have hz : (scheduler_init s0).task_count = 0 := rfl
  rw [hz] at h2 h4
  simp only [Nat.zero_add] at h2 h4
  rw [h2] at hi
  have hlen : i < calls.length := by omega
  have hlt : i < MAX_TASKS := by omega
  exact (h4 i calls[i] hlt (List.getElem?_eq_getElem hlen)).1

/-- C25. After `scheduler_init`, any calls of `create_task`, `start_scheduler`, and then
any sequence of calls of `create_task`, `schedule` (ticks), `block_task` and `resume_task`
with any arguments: every registered TCB whose state is RUNNING is `tasks[current_task]`,
so that at most one registered TCB is RUNNING. -/
theorem single_runner_invariant (s0 : Scheduler) (calls : List TaskArgs)
    (ops : List SchedOp) :
    (∀ i, i < (run_sched_ops ops
          (start_scheduler (create_tasks calls (scheduler_init s0)).2)).task_count →
      ((run_sched_ops ops
          (start_scheduler (create_tasks calls (scheduler_init s0)).2)).tasks i).state
        = TaskState.TASK_RUNNING →
      i = (run_sched_ops ops
          (start_scheduler (create_tasks calls (scheduler_init s0)).2)).current_task) ∧
    (∀ i j, i < (run_sched_ops ops
          (start_scheduler (create_tasks calls (scheduler_init s0)).2)).task_count →
      j < (run_sched_ops ops
          (start_scheduler (create_tasks calls (scheduler_init s0)).2)).task_count →
      ((run_sched_ops ops
          (start_scheduler (create_tasks calls (scheduler_init s0)).2)).tasks i).state
        = TaskState.TASK_RUNNING →
      ((run_sched_ops ops
          (start_scheduler (create_tasks calls (scheduler_init s0)).2)).tasks j).state
        = TaskState.TASK_RUNNING →
      i = j) := by
  have h0 : SingleRunner (start_scheduler (create_tasks calls (scheduler_init s0)).2) := by
    apply start_scheduler_single_runner
    intro i hi
    rw [create_tasks_ready s0 calls i hi]
    decide
  have h := run_sched_ops_single_runner ops _ h0
  exact ⟨h, fun i j hi hj ri rj => (h i hi ri).trans (h j hj rj).symm⟩

end FlexOS
